import Mathlib

/-!
# Step-timing engine of `DriveMovement.cpp`

A shallow embedding of the per-drive step-time recurrences
(`CalcNextStepTimeCartesianFull`, `CalcNextStepTimeDeltaFull`), of the
integer part of the preparation routines (`PrepareCartesianAxis`,
`PrepareDeltaAxis`, `PrepareExtruder`), of `ReduceSpeed` and of the free list
of records (`InitialAllocate`, `Allocate`).

Conventions.
* `uint32_t` / `uint64_t` values are natural numbers; every operation that
  can wrap in the source is followed by an explicit reduction (`u32`, `u64`,
  `subU32`, `toU32`, `toU64`).
* `int32_t` / `int64_t` values are integers; conversions and signed
  operations are reduced to the two's-complement range by `s32` / `s64`
  (the behaviour of the ARM targets the firmware is built for).
* The `cart` and `delta` members of the union `mp` are kept side by side.
  Only one of them is live in a record at any time, and each routine reads
  and writes only the member it names in the source.
* Calls of `Platform::SetDirection(drive, dir)` are recorded, in program
  order, in the `calls` list of the result.
* Floating-point expressions occur only in the preparation routines. Their
  values, once converted to integers by the source, are inputs of the
  embedded routine (`CartesianPrepValues`, `DeltaPrepValues`,
  `ExtruderPrepValues`).
-/

namespace DriveMovement

/-! ## Machine arithmetic -/

/-- Reduction of a natural number to the `uint32_t` range. -/
def u32 (n : Nat) : Nat := n % 4294967296

/-- Reduction of a natural number to the `uint64_t` range. -/
def u64 (n : Nat) : Nat := n % 18446744073709551616

/-- Conversion of an integer to `uint32_t` (value modulo 2^32). -/
def toU32 (x : Int) : Nat := (x % 4294967296).toNat

/-- Conversion of an integer to `uint64_t` (value modulo 2^64). -/
def toU64 (x : Int) : Nat := (x % 18446744073709551616).toNat

/-- Conversion of an integer to `int32_t` (two's complement). -/
def s32 (x : Int) : Int := (x + 2147483648) % 4294967296 - 2147483648

/-- Conversion of an integer to `int64_t` (two's complement). -/
def s64 (x : Int) : Int :=
  (x + 9223372036854775808) % 18446744073709551616 - 9223372036854775808

/-- Subtraction `a - b` in `uint32_t` arithmetic. -/
def subU32 (a b : Nat) : Nat := toU32 ((a : Int) - (b : Int))

/-- Digit recurrence of the integer square root: `k` bits remain to be
decided, `r` is the root found so far. -/
def isqrtAux (num : Nat) : Nat → Nat → Nat
  | 0, r => r
  | k + 1, r =>
    if (r + 2 ^ k) * (r + 2 ^ k) ≤ num then isqrtAux num k (r + 2 ^ k)
    else isqrtAux num k r

/-- Modelled from the spec: `isqrt64` of `Libraries/Math/Isqrt.h`, which is
not among the sources. The spec asks for a bit-by-bit digit recurrence that
returns the floor of the square root of its `uint64_t` argument; the result
is a `uint32_t`. -/
def isqrt64 (num : Nat) : Nat := isqrtAux (u64 num) 32 0

/-- Modelled from the spec: `isquare64` of `Libraries/Math/Isqrt.h`, which
is not among the sources: the square of a 32-bit argument as a `uint64_t`
(written `a²` in the spec). -/
def isquare64 (arg : Int) : Nat := toU64 (arg * arg)

/-! ## Data model -/

/-- The constants of `DriveMovement.h` and `DDA.h` that the recurrences use.
Those headers are not among the sources, so the constants are parameters:
`K1`, `K2` are `uint32_t`, `Kc` is `int32_t`, the two thresholds are
`uint32_t`. -/
structure Config where
  K1 : Nat
  K2 : Nat
  Kc : Int
  MinCalcIntervalCartesian : Nat
  MinCalcIntervalDelta : Nat
  deriving DecidableEq, Repr

/-- The enumeration `DMState`. -/
inductive DMState where
  | idle
  | moving
  | stepError
  deriving DecidableEq, Repr

/-- The fields of the move descriptor `DDA` read by the recurrences. -/
structure DDA where
  startSpeedTimesCdivA : Nat
  topSpeedTimesCdivAPlusDecelStartClocks : Nat
  extraAccelerationClocks : Int
  clocksNeeded : Nat
  cKc : Int
  isDeltaMovement : Bool
  deriving DecidableEq, Repr

/-- The member `mp.cart` of the union of per-kinematics parameters. -/
structure CartesianParameters where
  twoCsquaredTimesMmPerStepDivA : Nat
  fourMaxStepDistanceMinusTwoDistanceToStopTimesCsquaredDivA : Int
  accelStopStep : Nat
  decelStartStep : Nat
  mmPerStepTimesCKdivtopSpeed : Nat
  compensationClocks : Nat
  accelCompensationClocks : Nat
  deriving DecidableEq, Repr

/-- The member `mp.delta` of the union of per-kinematics parameters. -/
structure DeltaParameters where
  dSquaredMinusAsquaredMinusBsquaredTimesKsquaredSsquared : Int
  twoCsquaredTimesMmPerStepDivA : Nat
  hmz0sK : Int
  minusAaPlusBbTimesKs : Int
  accelStopDsK : Nat
  decelStartDsK : Nat
  mmPerStepTimesCKdivtopSpeed : Nat
  deriving DecidableEq, Repr

/-- The union `MoveParams`, both members side by side. -/
structure MoveParams where
  cart : CartesianParameters
  delta : DeltaParameters
  deriving DecidableEq, Repr

/-- The record `DriveMovement`. The link `nextDM` is the index of the next
record of the free list, `none` for the null pointer. -/
structure DM where
  nextDM : Option Nat
  state : DMState
  drive : Nat
  direction : Bool
  stepsTillRecalc : Nat
  totalSteps : Nat
  nextStep : Nat
  reverseStartStep : Nat
  nextStepTime : Nat
  stepInterval : Nat
  twoDistanceToStopTimesCsquaredDivA : Nat
  mp : MoveParams
  deriving DecidableEq, Repr

/-- Outcome of a call of one of the recurrences: the record after the call,
the returned flag, and the calls of `Platform::SetDirection(drive, dir)`
made, in program order. -/
structure CalcResult where
  dm : DM
  ret : Bool
  calls : List (Nat × Bool)
  deriving DecidableEq, Repr

/-- What the phase selection of the Cartesian recurrence (source lines
313 to 353) produces: the direction field, the freshly computed
`nextStepTime`, and the driver notifications. -/
structure PhaseOut where
  direction : Bool
  nextStepTime : Nat
  calls : List (Nat × Bool)
  deriving DecidableEq, Repr

/-! ## Cartesian step-time recurrence -/

/-- The local `shiftFactor` of `CalcNextStepTimeCartesianFull`
(source lines 290 to 309). -/
def cartShiftFactor (cfg : Config) (dm : DM) : Nat :=
  if dm.stepInterval < cfg.MinCalcIntervalCartesian then
    let stepsToLimit :=
      subU32 (if dm.nextStep ≤ dm.reverseStartStep ∧ dm.reverseStartStep ≤ dm.totalSteps
              then dm.reverseStartStep else dm.totalSteps) dm.nextStep
    if dm.stepInterval < cfg.MinCalcIntervalCartesian / 4 ∧ stepsToLimit > 8 then 3
    else if dm.stepInterval < cfg.MinCalcIntervalCartesian / 2 ∧ stepsToLimit > 4 then 2
    else if stepsToLimit > 2 then 1
    else 0
  else 0

/-- The value stored in `stepsTillRecalc`: `(1u << shiftFactor) - 1u`. -/
def stepsTillRecalcOf (shiftFactor : Nat) : Nat := subU32 (u32 (1 <<< shiftFactor)) 1

/-- The local `nextCalcStep` of `CalcNextStepTimeCartesianFull`. -/
def cartNextCalcStep (cfg : Config) (dm : DM) : Nat :=
  u32 (dm.nextStep + stepsTillRecalcOf (cartShiftFactor cfg dm))

/-- The phase selection of `CalcNextStepTimeCartesianFull` (source lines
315 to 353) for the step index `nextCalcStep`. -/
def cartPhase (cfg : Config) (dm : DM) (dda : DDA) (live : Bool) (nextCalcStep : Nat) :
    PhaseOut :=
  if nextCalcStep < dm.mp.cart.accelStopStep then
    -- acceleration phase
    let adjustedStartSpeedTimesCdivA := u32 (dda.startSpeedTimesCdivA + dm.mp.cart.compensationClocks)
    { direction := dm.direction
      nextStepTime :=
        subU32 (isqrt64 (u64 (isquare64 adjustedStartSpeedTimesCdivA
                  + u64 (dm.mp.cart.twoCsquaredTimesMmPerStepDivA * nextCalcStep))))
          adjustedStartSpeedTimesCdivA
      calls := [] }
  else if nextCalcStep < dm.mp.cart.decelStartStep then
    -- steady speed phase
    { direction := dm.direction
      nextStepTime :=
        toU32 (s32 (s32 (s32 (u64 (dm.mp.cart.mmPerStepTimesCKdivtopSpeed * nextCalcStep) / cfg.K1 : Nat)
                      + dda.extraAccelerationClocks)
                 - s32 dm.mp.cart.accelCompensationClocks))
      calls := [] }
  else if nextCalcStep < dm.reverseStartStep then
    -- deceleration phase, not reversed yet
    let temp := u64 (dm.mp.cart.twoCsquaredTimesMmPerStepDivA * nextCalcStep)
    let adjustedTopSpeedTimesCdivAPlusDecelStartClocks :=
      subU32 dda.topSpeedTimesCdivAPlusDecelStartClocks dm.mp.cart.compensationClocks
    { direction := dm.direction
      nextStepTime :=
        if temp < dm.twoDistanceToStopTimesCsquaredDivA then
          subU32 adjustedTopSpeedTimesCdivAPlusDecelStartClocks
            (isqrt64 (dm.twoDistanceToStopTimesCsquaredDivA - temp))
        else adjustedTopSpeedTimesCdivAPlusDecelStartClocks
      calls := [] }
  else
    -- deceleration phase, reversing or already reversed
    let direction := if nextCalcStep = dm.reverseStartStep then !dm.direction else dm.direction
    let calls :=
      if nextCalcStep = dm.reverseStartStep ∧ live = true then [(dm.drive, direction)] else []
    let adjustedTopSpeedTimesCdivAPlusDecelStartClocks :=
      subU32 dda.topSpeedTimesCdivAPlusDecelStartClocks dm.mp.cart.compensationClocks
    { direction := direction
      nextStepTime :=
        u32 (adjustedTopSpeedTimesCdivAPlusDecelStartClocks
              + isqrt64 (toU64 (s64 (s64 (u64 (dm.mp.cart.twoCsquaredTimesMmPerStepDivA * nextCalcStep)
                  : Int)
                  - dm.mp.cart.fourMaxStepDistanceMinusTwoDistanceToStopTimesCsquaredDivA))))
      calls := calls }

/-- The value of `nextStepTime` computed by the phase selection of
`CalcNextStepTimeCartesianFull`, before the late-step policy. -/
def cartComputedTime (cfg : Config) (dm : DM) (dda : DDA) : Nat :=
  (cartPhase cfg dm dda false (cartNextCalcStep cfg dm)).nextStepTime

/-- The method `DriveMovement::CalcNextStepTimeCartesianFull`
(source lines 285 to 376). -/
def CalcNextStepTimeCartesianFull (cfg : Config) (dm : DM) (dda : DDA) (live : Bool) :
    CalcResult :=
  let shiftFactor := cartShiftFactor cfg dm
  let stepsTillRecalc := stepsTillRecalcOf shiftFactor
  let nextCalcStep := u32 (dm.nextStep + stepsTillRecalc)
  let lastStepTime := dm.nextStepTime
  let ph := cartPhase cfg dm dda live nextCalcStep
  let nextStepTime := ph.nextStepTime
  let stepInterval := subU32 nextStepTime lastStepTime >>> shiftFactor
  let dm1 : DM :=
    { dm with
      stepsTillRecalc := stepsTillRecalc
      direction := ph.direction
      nextStepTime := nextStepTime
      stepInterval := stepInterval }
  if nextStepTime > dda.clocksNeeded then
    if u32 (dm.nextStep + 1) ≥ dm.totalSteps then
      { dm := { dm1 with nextStepTime := dda.clocksNeeded }, ret := true, calls := ph.calls }
    else
      { dm := { dm1 with state := DMState.stepError, stepInterval := u32 (10000000 + nextStepTime) }
        ret := false
        calls := ph.calls }
  else
    { dm := dm1, ret := true, calls := ph.calls }

/-! ## Delta step-time recurrence -/

/-- The local `shiftFactor` of `CalcNextStepTimeDeltaFull`
(source lines 386 to 409). -/
def deltaShiftFactor (cfg : Config) (dm : DM) : Nat :=
  if dm.stepInterval < cfg.MinCalcIntervalDelta then
    let stepsToLimit :=
      subU32 (if dm.nextStep < dm.reverseStartStep ∧ dm.reverseStartStep ≤ dm.totalSteps
              then dm.reverseStartStep else dm.totalSteps) dm.nextStep
    if dm.stepInterval < cfg.MinCalcIntervalDelta / 8 ∧ stepsToLimit > 16 then 4
    else if dm.stepInterval < cfg.MinCalcIntervalDelta / 4 ∧ stepsToLimit > 8 then 3
    else if dm.stepInterval < cfg.MinCalcIntervalDelta / 2 ∧ stepsToLimit > 4 then 2
    else if stepsToLimit > 2 then 1
    else 0
  else 0

/-- The field `direction` after source lines 413 to 420. -/
def deltaDirection (dm : DM) : Bool :=
  if dm.nextStep = dm.reverseStartStep then false else dm.direction

/-- The driver notifications of source lines 413 to 420. -/
def deltaCalls (dm : DM) (live : Bool) : List (Nat × Bool) :=
  if dm.nextStep = dm.reverseStartStep ∧ live = true then [(dm.drive, false)] else []

/-- The field `mp.delta.hmz0sK` after source lines 423 to 430. -/
def deltaHmz0sK (cfg : Config) (dm : DM) : Int :=
  let shiftedK2 := s32 (u32 (cfg.K2 <<< deltaShiftFactor cfg dm) : Nat)
  let shiftedK2 := if deltaDirection dm then shiftedK2 else s32 (-shiftedK2)
  s32 (dm.mp.delta.hmz0sK + shiftedK2)

/-- The local `dsK` of `CalcNextStepTimeDeltaFull` (source lines 432 to 437). -/
def deltaDsK (cfg : Config) (dm : DM) (dda : DDA) : Int :=
  let hmz0sK := deltaHmz0sK cfg dm
  let hmz0scK := s32 (Int.tdiv (s64 (hmz0sK * dda.cKc)) cfg.Kc)
  let t1 := s32 (dm.mp.delta.minusAaPlusBbTimesKs + hmz0scK)
  let t2a :=
    s64 (s64 (dm.mp.delta.dSquaredMinusAsquaredMinusBsquaredTimesKsquaredSsquared
              - s64 (isquare64 hmz0sK : Nat))
         + s64 (isquare64 t1 : Nat))
  let t2 := if t2a > 0 then s32 (isqrt64 (toU64 t2a) : Nat) else 0
  if deltaDirection dm then s32 (t1 - t2) else s32 (t1 + t2)

/-- The phase selection of `CalcNextStepTimeDeltaFull` (source lines 448 to
467) for the non-negative value `dsK`, given as `(uint32_t)dsK`. -/
def deltaPhaseTime (cfg : Config) (dm : DM) (dda : DDA) (dsK : Nat) : Nat :=
  if dsK < dm.mp.delta.accelStopDsK then
    -- acceleration phase
    subU32 (isqrt64 (u64 (isquare64 dda.startSpeedTimesCdivA
              + u64 (dm.mp.delta.twoCsquaredTimesMmPerStepDivA * dsK) / cfg.K2)))
      dda.startSpeedTimesCdivA
  else if dsK < dm.mp.delta.decelStartDsK then
    -- steady speed phase
    toU32 (s32 (s32 (u64 (dm.mp.delta.mmPerStepTimesCKdivtopSpeed * dsK) / u32 (cfg.K1 * cfg.K2) : Nat)
                 + dda.extraAccelerationClocks))
  else
    let temp := u64 (dm.mp.delta.twoCsquaredTimesMmPerStepDivA * dsK) / cfg.K2
    if temp < dm.twoDistanceToStopTimesCsquaredDivA then
      subU32 dda.topSpeedTimesCdivAPlusDecelStartClocks
        (isqrt64 (dm.twoDistanceToStopTimesCsquaredDivA - temp))
    else dda.topSpeedTimesCdivAPlusDecelStartClocks

/-- The value of `nextStepTime` computed by the phase selection of
`CalcNextStepTimeDeltaFull`, before the late-step policy. -/
def deltaComputedTime (cfg : Config) (dm : DM) (dda : DDA) : Nat :=
  deltaPhaseTime cfg dm dda (toU32 (deltaDsK cfg dm dda))

/-- The method `DriveMovement::CalcNextStepTimeDeltaFull`
(source lines 380 to 490). -/
def CalcNextStepTimeDeltaFull (cfg : Config) (dm : DM) (dda : DDA) (live : Bool) :
    CalcResult :=
  let shiftFactor := deltaShiftFactor cfg dm
  let stepsTillRecalc := stepsTillRecalcOf shiftFactor
  let direction := deltaDirection dm
  let calls := deltaCalls dm live
  let hmz0sK := deltaHmz0sK cfg dm
  let dsK := deltaDsK cfg dm dda
  let dm1 : DM :=
    { dm with
      stepsTillRecalc := stepsTillRecalc
      direction := direction
      mp := { dm.mp with delta := { dm.mp.delta with hmz0sK := hmz0sK } } }
  if dsK < 0 then
    { dm := { dm1 with state := DMState.stepError, nextStep := u32 (dm.nextStep + 1000000) }
      ret := false
      calls := calls }
  else
    let lastStepTime := dm.nextStepTime
    let nextStepTime := deltaPhaseTime cfg dm dda (toU32 dsK)
    let stepInterval := subU32 nextStepTime lastStepTime >>> shiftFactor
    let dm2 : DM := { dm1 with nextStepTime := nextStepTime, stepInterval := stepInterval }
    if nextStepTime > dda.clocksNeeded then
      if u32 (dm.nextStep + 1) ≥ dm.totalSteps then
        { dm := { dm2 with nextStepTime := dda.clocksNeeded }, ret := true, calls := calls }
      else
        { dm := { dm2 with state := DMState.stepError, stepInterval := u32 (10000000 + nextStepTime) }
          ret := false
          calls := calls }
    else
      { dm := dm2, ret := true, calls := calls }

/-! ## Cartesian preparation -/

/-- The integer values of the floating-point expressions evaluated by
`PrepareCartesianAxis`, in source order:
`roundU64(2·stepClockRate² / (stepsPerMm · acceleration))` (line 61),
`(uint32_t)(accelDistance · stepsPerMm)` (line 64),
`roundU32(stepClockRate · K1 / (stepsPerMm · topSpeed))` (line 68),
the test `decelDistance · stepsPerMm < 0.5` (line 72),
`(uint32_t)(decelStartDistance · stepsPerMm)` (line 79) and
`roundU64(decelStartDistance · 2·stepClockRate² / acceleration)` (line 81). -/
structure CartesianPrepValues where
  twoCsquaredTimesMmPerStepDivA : Nat
  accelSteps : Nat
  mmPerStepTimesCKdivtopSpeed : Nat
  noDeceleration : Bool
  decelSteps : Nat
  decelDistanceTerm : Nat
  deriving DecidableEq, Repr

/-- The method `DriveMovement::PrepareCartesianAxis` (source lines 58 to 87);
`topSpeedTimesCdivA` is the `uint32_t` member of `PrepParams`. -/
def PrepareCartesianAxis (dm : DM) (topSpeedTimesCdivA : Nat) (v : CartesianPrepValues) : DM :=
  let decelStartStep :=
    if v.noDeceleration then u32 (dm.totalSteps + 1) else u32 (v.decelSteps + 1)
  let twoDistanceToStop :=
    if v.noDeceleration then 0
    else u64 (isquare64 topSpeedTimesCdivA + v.decelDistanceTerm)
  { dm with
    reverseStartStep := u32 (dm.totalSteps + 1)
    twoDistanceToStopTimesCsquaredDivA := twoDistanceToStop
    mp :=
      { dm.mp with
        cart :=
          { twoCsquaredTimesMmPerStepDivA := v.twoCsquaredTimesMmPerStepDivA
            fourMaxStepDistanceMinusTwoDistanceToStopTimesCsquaredDivA := 0
            accelStopStep := u32 (v.accelSteps + 1)
            decelStartStep := decelStartStep
            mmPerStepTimesCKdivtopSpeed := v.mmPerStepTimesCKdivtopSpeed
            compensationClocks := 0
            accelCompensationClocks := 0 } } }

/-! ## Stepping a prepared Cartesian drive -/

/-- The closed-form step time of the Cartesian recurrence at step index `n`:
what the phase selection stores in `nextStepTime` when `nextCalcStep = n`. -/
def cartTimeAt (cfg : Config) (dm : DM) (dda : DDA) (n : Nat) : Nat :=
  (cartPhase cfg dm dda false n).nextStepTime

/-- Modelled from the spec: the start of the execution of a prepared
Cartesian drive, `nextStep = 1` with `nextStepTime = 0` and no batched steps
pending (the caller that sets these fields is not among the sources). -/
def cartStart (dm : DM) (topSpeedTimesCdivA : Nat) (v : CartesianPrepValues) : DM :=
  { PrepareCartesianAxis dm topSpeedTimesCdivA v with
    nextStep := 1
    nextStepTime := 0
    stepsTillRecalc := 0 }

/-- Modelled from the spec: what the stepping loop does between two calls of
the recurrence (the inline wrapper of `DriveMovement.h` is not among the
sources): the batched steps are emitted, `nextStep` moves past them and
`stepsTillRecalc` is back to zero. -/
def cartAdvance (dm : DM) : DM :=
  { dm with nextStep := u32 (dm.nextStep + dm.stepsTillRecalc + 1), stepsTillRecalc := 0 }

/-- Modelled from the spec: the record on which call number `k + 1` of
`CalcNextStepTimeCartesianFull` is made, when the first `k` calls were made
on steps of the segment (`nextStep ≤ totalSteps`) and all returned `true`;
`none` when the run ended before. -/
def cartRun (cfg : Config) (dda : DDA) (live : Bool) (dm0 : DM) : Nat → Option DM
  | 0 => some dm0
  | k + 1 =>
    match cartRun cfg dda live dm0 k with
    | none => none
    | some dm =>
      if dm.nextStep ≤ dm.totalSteps then
        if (CalcNextStepTimeCartesianFull cfg dm dda live).ret then
          some (cartAdvance (CalcNextStepTimeCartesianFull cfg dm dda live).dm)
        else none
      else none

/-- The invariant of a run of the Cartesian recurrence started on `dm0`: the
constants of the segment are those of `dm0`, the cursor is in `1 … totalSteps
+ 1`, and the time of the last step is at most `clocksNeeded` and at most the
closed-form time of every step still to be calculated. -/
def CartRunInv (cfg : Config) (dda : DDA) (dm0 dm : DM) : Prop :=
  dm.mp = dm0.mp
  ∧ dm.reverseStartStep = dm0.reverseStartStep
  ∧ dm.twoDistanceToStopTimesCsquaredDivA = dm0.twoDistanceToStopTimesCsquaredDivA
  ∧ dm.totalSteps = dm0.totalSteps
  ∧ 1 ≤ dm.nextStep
  ∧ dm.nextStep ≤ dm.totalSteps + 1
  ∧ dm.nextStepTime ≤ dda.clocksNeeded
  ∧ ∀ j, dm.nextStep ≤ j → j ≤ dm.totalSteps → dm.nextStepTime ≤ cartTimeAt cfg dm0 dda j

/-! ## Delta preparation -/

/-- The values of the floating-point expressions evaluated by
`PrepareDeltaAxis`, in source order:
`roundS32(h0MinusZ0 · stepsPerMm · K2)` (line 98),
`roundS32(aAplusbB · stepsPerMm · K2)` (line 99, negated by the source),
`roundS64(dSquaredMinusAsquaredMinusBsquared · (stepsPerMm · K2)²)` (line 100),
`roundU64(2·stepClockRate² / (stepsPerMm · acceleration))` (line 101),
the test `a2plusb2 <= 0.0` (line 104),
the test `directionVector[Z_AXIS] >= 0.0` (line 107),
the test `drev > 0.0 && drev < totalDistance` (line 116),
`(int32_t)((hrev − h0MinusZ0) · stepsPerMm)` (line 120),
`roundU32(accelDistance · stepsPerMm · K2)` (line 152),
`roundU32(stepClockRate · K1 / (stepsPerMm · topSpeed))` (line 155),
the test `decelDistance · stepsPerMm < 0.5` (line 159),
`roundU32(decelStartDistance · stepsPerMm · K2)` (line 166) and
`roundU64(decelStartDistance · 2·stepClockRate² / acceleration)` (line 167). -/
structure DeltaPrepValues where
  hmz0sK : Int
  aAplusbBTimesKs : Int
  dSquaredMinusAsquaredMinusBsquaredTimesKsquaredSsquared : Int
  twoCsquaredTimesMmPerStepDivA : Nat
  pureZ : Bool
  zNonNegative : Bool
  drevInRange : Bool
  numStepsUp : Int
  accelStopDsK : Nat
  mmPerStepTimesCKdivtopSpeed : Nat
  noDeceleration : Bool
  decelStartDsK : Nat
  decelDistanceTerm : Nat
  deriving DecidableEq, Repr

/-- Whether `PrepareDeltaAxis` installs a reversal (the `else` branch of
source line 123 is reached). -/
def deltaReversalInstalled (dm : DM) (v : DeltaPrepValues) : Bool :=
  !v.pureZ && v.drevInRange
    && !(decide (v.numStepsUp < 1) || (dm.direction && decide (toU32 v.numStepsUp ≤ dm.totalSteps)))

/-- The method `DriveMovement::PrepareDeltaAxis` (source lines 90 to 169);
`topSpeedTimesCdivA` is the `uint32_t` member of `PrepParams`. -/
def PrepareDeltaAxis (dm : DM) (topSpeedTimesCdivA : Nat) (v : DeltaPrepValues) : DM :=
  let direction :=
    if v.pureZ then v.zNonNegative
    else if deltaReversalInstalled dm v then true
    else dm.direction
  let reverseStartStep :=
    if deltaReversalInstalled dm v then u32 (toU32 v.numStepsUp + 1)
    else u32 (dm.totalSteps + 1)
  let totalSteps :=
    if deltaReversalInstalled dm v then
      if dm.direction then subU32 (toU32 (s32 (2 * v.numStepsUp))) dm.totalSteps
      else u32 (toU32 (s32 (2 * v.numStepsUp)) + dm.totalSteps)
    else dm.totalSteps
  { dm with
    direction := direction
    totalSteps := totalSteps
    reverseStartStep := reverseStartStep
    twoDistanceToStopTimesCsquaredDivA :=
      if v.noDeceleration then 0
      else u64 (isquare64 topSpeedTimesCdivA + v.decelDistanceTerm)
    mp :=
      { dm.mp with
        delta :=
          { dSquaredMinusAsquaredMinusBsquaredTimesKsquaredSsquared :=
              v.dSquaredMinusAsquaredMinusBsquaredTimesKsquaredSsquared
            twoCsquaredTimesMmPerStepDivA := v.twoCsquaredTimesMmPerStepDivA
            hmz0sK := v.hmz0sK
            minusAaPlusBbTimesKs := s32 (-v.aAplusbBTimesKs)
            accelStopDsK := v.accelStopDsK
            decelStartDsK := if v.noDeceleration then 4294967295 else v.decelStartDsK
            mmPerStepTimesCKdivtopSpeed := v.mmPerStepTimesCKdivtopSpeed } } }

/-! ## Extruder preparation -/

/-- The values of the floating-point expressions evaluated by
`PrepareExtruder`, in source order:
`roundU64(2·stepClockRate² / (stepsPerMm · acceleration))` (line 176),
`roundU32(compensationTime · stepClockRate)` (line 180),
`roundU32(compensationTime · stepClockRate · compFactor)` (line 181),
`(int32_t)(compensationDistance · stepsPerMm)` (line 185),
`(uint32_t)((accelDistance + accelCompensationDistance) · stepsPerMm)` (line 191),
`(uint32_t)(stepClockRate · K1 / (stepsPerMm · topSpeed))` (line 194),
the test `decelDistance · stepsPerMm < 0.5` (line 198),
`(uint32_t)((decelStartDistance + accelCompensationDistance) · stepsPerMm)` (line 207),
`roundU64((decelStartDistance + accelCompensationDistance) · 2·stepClockRate² / acceleration)`
(line 211), the test `reverseStartDistance >= totalDistance` (line 219) and
the test `initialDecelSpeed < 0.0` (line 228). -/
structure ExtruderPrepValues where
  twoCsquaredTimesMmPerStepDivA : Nat
  compensationClocks : Nat
  accelCompensationClocks : Nat
  compensationSteps : Int
  accelSteps : Nat
  mmPerStepTimesCKdivtopSpeed : Nat
  noDeceleration : Bool
  decelSteps : Nat
  decelDistanceTerm : Nat
  noReverse : Bool
  initialDecelSpeedNegative : Bool
  deriving DecidableEq, Repr

/-- The local `netSteps` of `PrepareExtruder` (source line 185). -/
def extruderNetSteps (dm : DM) (v : ExtruderPrepValues) : Int :=
  s32 (v.compensationSteps + s32 dm.totalSteps)

/-- The field `twoDistanceToStopTimesCsquaredDivA` as `PrepareExtruder` sets
it (source lines 203 and 208 to 211). -/
def extruderTwoDistanceToStop (topSpeedTimesCdivA : Nat) (v : ExtruderPrepValues) : Nat :=
  if v.noDeceleration then 0
  else
    let initialDecelSpeedTimesCdivA := s32 (s32 topSpeedTimesCdivA - s32 v.compensationClocks)
    u64 (isquare64 initialDecelSpeedTimesCdivA + v.decelDistanceTerm)

/-- The value `PrepareExtruder` gives `reverseStartStep` at source lines 228 to
230, before it decides whether to accept the reverse phase. -/
def extruderCandidateReverseStartStep (topSpeedTimesCdivA : Nat) (v : ExtruderPrepValues) : Nat :=
  if v.initialDecelSpeedNegative then u32 (v.decelSteps + 1)
  else u32 (extruderTwoDistanceToStop topSpeedTimesCdivA v / v.twoCsquaredTimesMmPerStepDivA + 1)

/-- The local `overallSteps` of `PrepareExtruder` (source line 233). -/
def extruderOverallSteps (dm : DM) (topSpeedTimesCdivA : Nat) (v : ExtruderPrepValues) : Int :=
  s32 (s32 (u32 (2 * subU32 (extruderCandidateReverseStartStep topSpeedTimesCdivA v) 1) : Nat)
        - extruderNetSteps dm v)

/-- Whether `PrepareExtruder` accepts a reverse phase (source line 234 is
reached and its test succeeds). -/
def extruderReverseAccepted (dm : DM) (topSpeedTimesCdivA : Nat) (v : ExtruderPrepValues) :
    Bool :=
  !v.noDeceleration && !v.noReverse && decide (extruderOverallSteps dm topSpeedTimesCdivA v > 0)

/-- The method `DriveMovement::PrepareExtruder` (source lines 172 to 248);
`topSpeedTimesCdivA` is the `uint32_t` member of `PrepParams`. -/
def PrepareExtruder (dm : DM) (topSpeedTimesCdivA : Nat) (v : ExtruderPrepValues) : DM :=
  let netSteps := extruderNetSteps dm v
  let twoDistanceToStop := extruderTwoDistanceToStop topSpeedTimesCdivA v
  let candidate := extruderCandidateReverseStartStep topSpeedTimesCdivA v
  let accepted := extruderReverseAccepted dm topSpeedTimesCdivA v
  let totalSteps :=
    if accepted then toU32 (extruderOverallSteps dm topSpeedTimesCdivA v)
    else toU32 (max netSteps 0)
  let reverseStartStep :=
    if v.noDeceleration || v.noReverse then toU32 (s32 (netSteps + 1))
    else if accepted then candidate
    else u32 (totalSteps + 1)
  { dm with
    totalSteps := totalSteps
    reverseStartStep := reverseStartStep
    twoDistanceToStopTimesCsquaredDivA := twoDistanceToStop
    mp :=
      { dm.mp with
        cart :=
          { twoCsquaredTimesMmPerStepDivA := v.twoCsquaredTimesMmPerStepDivA
            fourMaxStepDistanceMinusTwoDistanceToStopTimesCsquaredDivA :=
              if accepted then
                s64 (s64 (u64 (u32 (2 * subU32 candidate 1) * v.twoCsquaredTimesMmPerStepDivA) : Nat)
                      - s64 (twoDistanceToStop : Nat))
              else 0
            accelStopStep := u32 (v.accelSteps + 1)
            decelStartStep :=
              if v.noDeceleration then toU32 (s32 (netSteps + 1)) else u32 (v.decelSteps + 1)
            mmPerStepTimesCKdivtopSpeed := v.mmPerStepTimesCKdivtopSpeed
            compensationClocks := v.compensationClocks
            accelCompensationClocks := v.accelCompensationClocks } } }

/-! ## Speed reduction -/

/-- The method `DriveMovement::ReduceSpeed` (source lines 493 to 513). -/
def ReduceSpeed (dm : DM) (dda : DDA) (inverseSpeedFactor : Nat) : DM :=
  if dda.isDeltaMovement then
    { dm with
      mp :=
        { dm.mp with
          delta :=
            { dm.mp.delta with
              accelStopDsK := 0
              decelStartDsK := 4294967295
              mmPerStepTimesCKdivtopSpeed :=
                u32 (dm.mp.delta.mmPerStepTimesCKdivtopSpeed * inverseSpeedFactor) } } }
  else
    { dm with
      mp :=
        { dm.mp with
          cart :=
            { dm.mp.cart with
              accelStopStep := 0
              decelStartStep := u32 (dm.totalSteps + 1)
              mmPerStepTimesCKdivtopSpeed :=
                u32 (dm.mp.cart.mmPerStepTimesCKdivtopSpeed * inverseSpeedFactor) } } }

/-! ## Free list of records -/

/-- The static members of `DriveMovement` (source lines 17 to 19) together
with the store the records live in. A pointer to a record is its address in
`heap`, `none` is `nullptr`; `fresh` is the address the next `new` returns.
`numFree` and `minFree` are `int`. -/
structure Pool where
  heap : Nat → DM
  fresh : Nat
  freeList : Option Nat
  numFree : Int
  minFree : Int

/-- The pool at start-up: `freeList = nullptr`, `numFree = 0`, `minFree = 0`
(source lines 17 to 19). -/
def emptyPool (heap : Nat → DM) : Pool :=
  { heap := heap, fresh := 0, freeList := none, numFree := 0, minFree := 0 }

/-- Modelled from the spec: `ResetMinFree` of `DriveMovement.h`, which is not
among the sources; it primes the low-water mark with the current `numFree`. -/
def ResetMinFree (p : Pool) : Pool := { p with minFree := p.numFree }

/-- One iteration of the loop of `InitialAllocate` (source lines 25 and 26):
`new DriveMovement(freeList)` constructs a record at a fresh address with only
its link set, and the record becomes the head of the free list. -/
def pushNew (p : Pool) : Pool :=
  { p with
    heap := Function.update p.heap p.fresh { p.heap p.fresh with nextDM := p.freeList }
    fresh := p.fresh + 1
    freeList := some p.fresh
    numFree := s32 (p.numFree + 1) }

/-- The loop of `InitialAllocate` (source lines 23 to 28). -/
def pushNewTimes : Nat → Pool → Pool
  | 0, p => p
  | num + 1, p => pushNewTimes num (pushNew p)

/-- The method `DriveMovement::InitialAllocate` (source lines 21 to 30). -/
def InitialAllocate (p : Pool) (num : Nat) : Pool := ResetMinFree (pushNewTimes num p)

/-- The method `DriveMovement::Allocate` (source lines 32 to 48): the pool
after the call and the returned pointer. -/
def Allocate (p : Pool) (drive : Nat) (st : DMState) : Pool × Option Nat :=
  match p.freeList with
  | none => (p, none)
  | some dm =>
    let numFree := s32 (p.numFree - 1)
    ({ p with
       heap :=
         Function.update p.heap dm
           { p.heap dm with nextDM := none, drive := drive % 256, state := st }
       freeList := (p.heap dm).nextDM
       numFree := numFree
       minFree := if numFree < p.minFree then numFree else p.minFree },
     some dm)

/-- Modelled from the spec: `Release` of `DriveMovement.h`, which is not among
the sources; it pushes the record back onto the head of the free list and
increments `numFree`. -/
def Release (p : Pool) (item : Nat) : Pool :=
  { p with
    heap := Function.update p.heap item { p.heap item with nextDM := p.freeList }
    freeList := some item
    numFree := s32 (p.numFree + 1) }

/-- The pool after `k` calls of `Allocate(drive, st)` and the pointers they
returned, first call first. -/
def allocateTimes (drive : Nat) (st : DMState) : Nat → Pool → Pool × List (Option Nat)
  | 0, p => (p, [])
  | k + 1, p =>
    ((allocateTimes drive st k (Allocate p drive st).1).1,
     (Allocate p drive st).2 :: (allocateTimes drive st k (Allocate p drive st).1).2)

/-- The pool after releasing the records of a list, first record first. -/
def releaseAll : List Nat → Pool → Pool
  | [], p => p
  | item :: rest, p => releaseAll rest (Release p item)

/-- The addresses on the free list, head first, following at most `fuel`
links. -/
def freeListAddresses (heap : Nat → DM) : Nat → Option Nat → List Nat
  | 0, _ => []
  | _ + 1, none => []
  | fuel + 1, some a => a :: freeListAddresses heap fuel (heap a).nextDM

/-! ## Stepping a Delta drive -/

/-- What a run of the Delta recurrence has covered: the pulses covered while
`direction` was forward, those covered while it was reverse, and the number of
calls that changed `direction`. -/
structure DeltaTally where
  forward : Nat
  reverse : Nat
  changes : Nat
  deriving DecidableEq, Repr

/-- How a run of the Delta recurrence ends. -/
inductive RunOutcome where
  | completed (dm : DM) (tally : DeltaTally)
  | stepError (dm : DM)
  | outOfFuel
  deriving DecidableEq, Repr

/-- Modelled from the spec: what the stepping loop does between two calls of
the Delta recurrence (the inline wrapper of `DriveMovement.h` is not among the
sources): `nextStep` moves past the steps the call covered and
`stepsTillRecalc` is back to zero. -/
def deltaAdvance (dm : DM) : DM :=
  { dm with nextStep := u32 (dm.nextStep + dm.stepsTillRecalc + 1), stepsTillRecalc := 0 }

/-- The tally after a call of `CalcNextStepTimeDeltaFull` on `dm` that
produced the record `after`: the call covers `stepsTillRecalc + 1` pulses in
the direction it leaves in the record. -/
def deltaTallyStep (dm after : DM) (t : DeltaTally) : DeltaTally :=
  { forward := if after.direction then t.forward + (after.stepsTillRecalc + 1) else t.forward
    reverse := if after.direction then t.reverse else t.reverse + (after.stepsTillRecalc + 1)
    changes := if after.direction = dm.direction then t.changes else t.changes + 1 }

/-- Modelled from the spec: a run of the Delta recurrence from the record
`dm`, at most `fuel` calls: each call of `CalcNextStepTimeDeltaFull` covers the
steps `nextStep … nextStep + stepsTillRecalc`, then `nextStep` is advanced past
them; the run is complete when `nextStep > totalSteps` and stops at the first
call that returns `false`. -/
def deltaRun (cfg : Config) (dda : DDA) (live : Bool) : Nat → DM → DeltaTally → RunOutcome
  | 0, dm, t => if dm.nextStep > dm.totalSteps then RunOutcome.completed dm t else RunOutcome.outOfFuel
  | fuel + 1, dm, t =>
    if dm.nextStep > dm.totalSteps then RunOutcome.completed dm t
    else if (CalcNextStepTimeDeltaFull cfg dm dda live).ret then
      deltaRun cfg dda live fuel (deltaAdvance (CalcNextStepTimeDeltaFull cfg dm dda live).dm)
        (deltaTallyStep dm (CalcNextStepTimeDeltaFull cfg dm dda live).dm t)
    else RunOutcome.stepError (CalcNextStepTimeDeltaFull cfg dm dda live).dm

/-! ## Concrete inputs -/

/-- An instance of the constants: `K1 = 1024`, `K2 = 512`, `Kc = 2^20`
(powers of two, as the spec requires) and both calculation thresholds at
37 step clocks. -/
def exampleConfig : Config :=
  { K1 := 1024, K2 := 512, Kc := 1048576
    MinCalcIntervalCartesian := 37, MinCalcIntervalDelta := 37 }

/-- A move descriptor of 10000 step clocks. -/
def exampleDDA : DDA :=
  { startSpeedTimesCdivA := 0
    topSpeedTimesCdivAPlusDecelStartClocks := 9000
    extraAccelerationClocks := 500
    clocksNeeded := 10000
    cKc := 1048576
    isDeltaMovement := false }

/-- A record of 8 steps at step `nextStep`, with the acceleration ending at
step 3, the deceleration starting at step 6, and `stepInterval` well above
the calculation threshold (single stepping). -/
def exampleDM (nextStep : Nat) : DM :=
  { nextDM := none
    state := DMState.moving
    drive := 0
    direction := true
    stepsTillRecalc := 0
    totalSteps := 8
    nextStep := nextStep
    reverseStartStep := 9
    nextStepTime := 0
    stepInterval := 1000
    twoDistanceToStopTimesCsquaredDivA := 16000000
    mp :=
      { cart :=
          { twoCsquaredTimesMmPerStepDivA := 2000000
            fourMaxStepDistanceMinusTwoDistanceToStopTimesCsquaredDivA := 0
            accelStopStep := 3
            decelStartStep := 6
            mmPerStepTimesCKdivtopSpeed := 1024000
            compensationClocks := 0
            accelCompensationClocks := 0 }
        delta :=
          { dSquaredMinusAsquaredMinusBsquaredTimesKsquaredSsquared := 0
            twoCsquaredTimesMmPerStepDivA := 0
            hmz0sK := 0
            minusAaPlusBbTimesKs := 0
            accelStopDsK := 0
            decelStartDsK := 0
            mmPerStepTimesCKdivtopSpeed := 0 } } }

/-- The example move descriptor with only 7000 step clocks allowed: steps 7
and 8 of the example record are then calculated late. -/
def lateDDA : DDA := { exampleDDA with clocksNeeded := 7000 }

/-- The example move descriptor with only 1000 step clocks allowed: every
step of the example record is then calculated late. -/
def veryLateDDA : DDA := { exampleDDA with clocksNeeded := 1000 }

/-- A Delta record of 8 steps at step `nextStep`: a carriage at height
`hmz0sK = 100000` moving straight up (`minusAaPlusBbTimesKs = 0`), reversing
at step 5, with the acceleration ending at `dsK = 1024` and the deceleration
starting at `dsK = 3072`. -/
def exampleDeltaDM (nextStep : Nat) : DM :=
  { exampleDM nextStep with
    reverseStartStep := 5
    mp :=
      { cart := (exampleDM nextStep).mp.cart
        delta :=
          { dSquaredMinusAsquaredMinusBsquaredTimesKsquaredSsquared := 10000000000
            twoCsquaredTimesMmPerStepDivA := 2000000
            hmz0sK := 100000
            minusAaPlusBbTimesKs := 0
            accelStopDsK := 1024
            decelStartDsK := 3072
            mmPerStepTimesCKdivtopSpeed := 1024000 } } }

/-- The example Delta record with `minusAaPlusBbTimesKs = -300000`, for
which the tower equation has no solution on the move (`dsK < 0`). -/
def badDeltaDM (nextStep : Nat) : DM :=
  { exampleDeltaDM nextStep with
    mp :=
      { cart := (exampleDeltaDM nextStep).mp.cart
        delta := { (exampleDeltaDM nextStep).mp.delta with minusAaPlusBbTimesKs := -300000 } } }

/-- The example record after a step interval of 5 clocks, below a quarter of
the calculation threshold. -/
def fastDM (nextStep : Nat) : DM := { exampleDM nextStep with stepInterval := 5 }

/-- The example Delta record after a step interval of 5 clocks. -/
def fastDeltaDM (nextStep : Nat) : DM := { exampleDeltaDM nextStep with stepInterval := 5 }

/-- The example record with a reversal at step 7 (an extruder with pressure
advance): `fourMaxStepDistanceMinusTwoDistanceToStopTimesCsquaredDivA` is
`2·6·2000000 − 16000000`. -/
def reversingDM (nextStep : Nat) : DM :=
  { exampleDM nextStep with
    reverseStartStep := 7
    mp :=
      { cart :=
          { (exampleDM nextStep).mp.cart with
            fourMaxStepDistanceMinusTwoDistanceToStopTimesCsquaredDivA := 8000000 }
        delta := (exampleDM nextStep).mp.delta } }

/-- The values of the floating-point expressions of `PrepareCartesianAxis`
for an 8 mm move at 1 step/mm with an acceleration distance of 2.5 mm, a
deceleration starting at 5.5 mm, and constants matching the example move
descriptor. -/
def examplePrep : CartesianPrepValues :=
  { twoCsquaredTimesMmPerStepDivA := 2000000
    accelSteps := 2
    mmPerStepTimesCKdivtopSpeed := 1024000
    noDeceleration := false
    decelSteps := 5
    decelDistanceTerm := 15000000 }

/-- The values of the floating-point expressions of `PrepareCartesianAxis`
for an 8 mm move at 1 step/mm that accelerates over 1.5 mm
(`2·stepClockRate²/acceleration = 4000000`) to a top speed of one step per
100 clocks and does not decelerate. -/
def skewedPrep : CartesianPrepValues :=
  { twoCsquaredTimesMmPerStepDivA := 4000000
    accelSteps := 1
    mmPerStepTimesCKdivtopSpeed := 102400
    noDeceleration := true
    decelSteps := 0
    decelDistanceTerm := 0 }

/-- A move descriptor for `skewedPrep` whose `extraAccelerationClocks` is 0:
it does not account for the time spent accelerating. -/
def skewedDDA : DDA :=
  { startSpeedTimesCdivA := 0
    topSpeedTimesCdivAPlusDecelStartClocks := 0
    extraAccelerationClocks := 0
    clocksNeeded := 10000
    cKc := 0
    isDeltaMovement := false }

/-- The record on which the sixth call of the run of the prepared example
record is made. -/
def exampleRunState : DM :=
  { cartStart (exampleDM 0) 1000 examplePrep with
    nextStep := 6
    nextStepTime := 5500
    stepInterval := 1000 }

/-- The values of the floating-point expressions of `PrepareDeltaAxis` for a
move on which the carriage rises by 10 steps before it comes down
(`numStepsUp = 10`), with the constants of the example Delta record. -/
def exampleDeltaPrep : DeltaPrepValues :=
  { hmz0sK := 100000
    aAplusbBTimesKs := 0
    dSquaredMinusAsquaredMinusBsquaredTimesKsquaredSsquared := 10000000000
    twoCsquaredTimesMmPerStepDivA := 2000000
    pureZ := false
    zNonNegative := true
    drevInRange := true
    numStepsUp := 10
    accelStopDsK := 1024
    mmPerStepTimesCKdivtopSpeed := 1024000
    noDeceleration := false
    decelStartDsK := 3072
    decelDistanceTerm := 15000000 }
/-- The example record with 8 steps requested, as handed to
`PrepareExtruder`. -/
def exampleExtruderDM : DM := exampleDM 1

/-- The values of the floating-point expressions of `PrepareExtruder` for an
extruder move with pressure advance: 500 compensation clocks, 4 steps taken
back by the compensation (`netSteps = 8 − 4`), a deceleration that starts
after 3 steps and comes to rest after 6 steps, before the end of the move. -/
def exampleExtruderPrep : ExtruderPrepValues :=
  { twoCsquaredTimesMmPerStepDivA := 2000000
    compensationClocks := 500
    accelCompensationClocks := 500
    compensationSteps := -4
    accelSteps := 2
    mmPerStepTimesCKdivtopSpeed := 1024000
    noDeceleration := false
    decelSteps := 3
    decelDistanceTerm := 9000000
    noReverse := false
    initialDecelSpeedNegative := false }

/-- The free list of `p` consists of the records at the addresses
`m − 1, …, 0`, in this order: the head is `m − 1` and the record at `i` links
to the record at `i − 1`, the record at 0 to `nullptr`. -/
def PoolChain (p : Pool) (m : Nat) : Prop :=
  p.freeList = (if m = 0 then none else some (m - 1))
  ∧ ∀ i, i < m → (p.heap i).nextDM = if i = 0 then none else some (i - 1)

/-- A pool of three records primed by `InitialAllocate(3)`. -/
def examplePool : Pool := InitialAllocate (emptyPool (fun _ => exampleDM 0)) 3

/-- A record of 100 steps moving at steady speed throughout, 10.5 step clocks
per step (`mmPerStepTimesCKdivtopSpeed = 10752 = 10.5·K1`), at step `nextStep`
with the previous step at `nextStepTime`. -/
def cruiseDM (nextStep nextStepTime : Nat) : DM :=
  { exampleDM nextStep with
    totalSteps := 100
    reverseStartStep := 101
    nextStepTime := nextStepTime
    twoDistanceToStopTimesCsquaredDivA := 0
    mp :=
      { cart :=
          { (exampleDM nextStep).mp.cart with
            accelStopStep := 1
            decelStartStep := 101
            mmPerStepTimesCKdivtopSpeed := 10752 }
        delta := (exampleDM nextStep).mp.delta } }

/-- Modelled from the spec: the record `dm` as it stands when the call for the
single step `n` is made (the stepping loop that advances `nextStep` is not
among the sources): `nextStep = n`, the previous step was at `nextStepTime = t`
and took `stepInterval = i`, and no batched step is pending. -/
def atStep (dm : DM) (n t i : Nat) : DM :=
  { dm with nextStep := n, nextStepTime := t, stepInterval := i, stepsTillRecalc := 0 }

/-- The example record with `totalSteps` steps requested, as handed to the
preparation routines. -/
def requestedDM (totalSteps : Nat) : DM := { exampleDM 1 with totalSteps := totalSteps }

/-- The values of the floating-point expressions of `PrepareExtruder` for a
move of 1 step at 100 steps/mm slowing from 10 mm/s to 9 mm/s at 3000 mm/s²
with a pressure advance of 0.1 s at a step clock of 937500 Hz: the
compensation takes back `(9 − 10)·0.1·100 = 10` steps and the deceleration is
shorter than half a step. -/
def retractingPrep : ExtruderPrepValues :=
  { twoCsquaredTimesMmPerStepDivA := 5859375
    compensationClocks := 93750
    accelCompensationClocks := 0
    compensationSteps := -10
    accelSteps := 0
    mmPerStepTimesCKdivtopSpeed := 960000
    noDeceleration := true
    decelSteps := 0
    decelDistanceTerm := 0
    noReverse := true
    initialDecelSpeedNegative := true }

/-- The values of the floating-point expressions of `PrepareExtruder` for a
move of 41 steps (0.5125 mm at 80 steps/mm) slowing from 20 mm/s to 4 mm/s at
500 mm/s² with a pressure advance of 0.01 s at a step clock of 937500 Hz: the
compensation takes back 12 steps (`netSteps = 29`), the deceleration starts
after 0.1285 mm (10 steps) and the extruder comes to rest after 0.3535 mm,
inside the move. -/
def shortenedPrep : ExtruderPrepValues :=
  { twoCsquaredTimesMmPerStepDivA := 43945313
    compensationClocks := 9375
    accelCompensationClocks := 0
    compensationSteps := -12
    accelSteps := 0
    mmPerStepTimesCKdivtopSpeed := 600000
    noDeceleration := false
    decelSteps := 10
    decelDistanceTerm := 451757760
    noReverse := false
    initialDecelSpeedNegative := false }

/-- The invariant of a run of the Delta recurrence started on `dm0` at step 1
in the forward direction: the limits of the segment are those of `dm0`, the
cursor is in `1 … totalSteps + 1`, the direction is forward up to
`reverseStartStep` and reverse after it, the tally splits the `nextStep − 1`
pulses covered so far at `reverseStartStep − 1`, and the height counter has
moved by `K2` per forward pulse and by `−K2` per reverse pulse. -/
def DeltaRunInv (cfg : Config) (dm0 dm : DM) (t : DeltaTally) : Prop :=
  dm.totalSteps = dm0.totalSteps
  ∧ dm.reverseStartStep = dm0.reverseStartStep
  ∧ 1 ≤ dm.nextStep
  ∧ dm.nextStep ≤ dm0.totalSteps + 1
  ∧ (dm.direction = true ↔ dm.nextStep ≤ dm0.reverseStartStep)
  ∧ t.forward = (if dm.nextStep ≤ dm0.reverseStartStep then dm.nextStep - 1
                 else dm0.reverseStartStep - 1)
  ∧ t.forward + t.reverse = dm.nextStep - 1
  ∧ t.changes = (if dm.nextStep ≤ dm0.reverseStartStep then 0 else 1)
  ∧ dm.mp.delta.hmz0sK
      = s32 (dm0.mp.delta.hmz0sK + ((t.forward : Int) - (t.reverse : Int)) * (cfg.K2 : Int))

/-- A Delta record of 8 steps at step `nextStep` that reverses at step 7: the
example Delta record with `reverseStartStep = 7`. -/
def lateReversalDeltaDM (nextStep : Nat) : DM :=
  { exampleDeltaDM nextStep with reverseStartStep := 7 }

/-- A move descriptor for the example Delta records that allows 100000 step
clocks. -/
def longDDA : DDA := { exampleDDA with clocksNeeded := 100000, isDeltaMovement := true }

/-- The height counter and the tally at the end of a completed run, `none`
for a run that did not complete. -/
def runSummary : RunOutcome → Option (Int × DeltaTally)
  | RunOutcome.completed dm t => some (dm.mp.delta.hmz0sK, t)
  | RunOutcome.stepError _ => none
  | RunOutcome.outOfFuel => none

/-- The record `lateReversalDeltaDM` at the end of its run under `longDDA`:
the cursor is past the last step, the direction is reverse, the last step was
at 9000 step clocks and the height counter is at `100000 + (6 − 2)·512`. -/
def lateReversalFinalDM : DM :=
  { lateReversalDeltaDM 9 with
    direction := false
    nextStepTime := 9000
    stepInterval := 0
    mp :=
      { cart := (lateReversalDeltaDM 9).mp.cart
        delta := { (lateReversalDeltaDM 9).mp.delta with hmz0sK := 102048 } } }

/-- The values of `exampleDeltaPrep` for a move straight up
(`a2plusb2 ≤ 0`, `directionVector[Z] ≥ 0`). -/
def pureZPrep : DeltaPrepValues := { exampleDeltaPrep with pureZ := true }

/-- The example move descriptor with 100000 step clocks allowed: no step of
the example record is calculated late, also after a speed reduction. -/
def roomyDDA : DDA := { exampleDDA with clocksNeeded := 100000 }

/-- The move descriptor of the move of `shortenedPrep`: it starts at its top
speed of 20 mm/s (`startSpeedTimesCdivA = 20·937500/500 = 37500`), begins to
decelerate after 0.1285 mm, that is after 6023 step clocks, and takes
`6023 + 30000 = 36023` step clocks in all. -/
def shortenedDDA : DDA :=
  { startSpeedTimesCdivA := 37500
    topSpeedTimesCdivAPlusDecelStartClocks := 43523
    extraAccelerationClocks := 0
    clocksNeeded := 36023
    cKc := 0
    isDeltaMovement := false }

/-- Modelled from the spec: a run of the Cartesian recurrence from the record
`dm`, at most `fuel` calls, with the tally of the pulses it covers: each call
of `CalcNextStepTimeCartesianFull` covers the steps `nextStep … nextStep +
stepsTillRecalc` in the direction it leaves in the record, then `nextStep` is
advanced past them; the run is complete when `nextStep > totalSteps` and stops
at the first call that returns `false`. -/
def cartTallyRun (cfg : Config) (dda : DDA) (live : Bool) : Nat → DM → DeltaTally → RunOutcome
  | 0, dm, t => if dm.nextStep > dm.totalSteps then RunOutcome.completed dm t else RunOutcome.outOfFuel
  | fuel + 1, dm, t =>
    if dm.nextStep > dm.totalSteps then RunOutcome.completed dm t
    else if (CalcNextStepTimeCartesianFull cfg dm dda live).ret then
      cartTallyRun cfg dda live fuel (cartAdvance (CalcNextStepTimeCartesianFull cfg dm dda live).dm)
        (deltaTallyStep dm (CalcNextStepTimeCartesianFull cfg dm dda live).dm t)
    else RunOutcome.stepError (CalcNextStepTimeCartesianFull cfg dm dda live).dm

/-- The tally of a completed run, with the value of `nextStep` and of
`nextStepTime` it ended on. -/
def tallySummary : RunOutcome → Option (DeltaTally × Nat × Nat)
  | RunOutcome.completed dm t => some (t, dm.nextStep, dm.nextStepTime)
  | _ => none

/-! ## Machine arithmetic: lemmas -/

/-- Invariant of the digit recurrence: the root found so far is below the
square root, and adding the bits still to be decided would overshoot it. -/
theorem isqrtAux_spec (num : Nat) :
    ∀ (k r : Nat), r * r ≤ num → num < (r + 2 ^ k) * (r + 2 ^ k) →
      isqrtAux num k r * isqrtAux num k r ≤ num
      ∧ num < (isqrtAux num k r + 1) * (isqrtAux num k r + 1) := by
  intro k
  induction k with
  | zero =>
    intro r h1 h2
    simpa [isqrtAux] using And.intro h1 h2
  | succ k ih =>
    intro r h1 h2
    unfold isqrtAux
    by_cases hc : (r + 2 ^ k) * (r + 2 ^ k) ≤ num
    · rw [if_pos hc]
      apply ih _ hc
      have e : r + 2 ^ k + 2 ^ k = r + 2 ^ (k + 1) := by rw [pow_succ]; omega
      rw [e]; exact h2
    · rw [if_neg hc]
      exact ih _ h1 (Nat.lt_of_not_le hc)

/-- The digit recurrence computes the floor of the square root of its
argument taken modulo 2^64. -/
theorem isqrt64_eq_sqrt (num : Nat) : isqrt64 num = Nat.sqrt (u64 num) := by
  have hlt : u64 num < (0 + 2 ^ 32) * (0 + 2 ^ 32) := by
    unfold u64
    have : (0 + 2 ^ 32) * (0 + 2 ^ 32) = 18446744073709551616 := by norm_num
    rw [this]
    exact Nat.mod_lt _ (by norm_num)
  have h := isqrtAux_spec (u64 num) 32 0 (by simp) hlt
  exact Nat.eq_sqrt.mpr h

/-- The result of `isqrt64` fits in a `uint32_t`. -/
theorem isqrt64_lt (num : Nat) : isqrt64 num < 4294967296 := by
  rw [isqrt64_eq_sqrt]
  have h : u64 num < 4294967296 * 4294967296 := by
    unfold u64; exact Nat.mod_lt _ (by norm_num)
  exact Nat.sqrt_lt.mpr h

/-- Single stepping stores no additional step. -/
theorem stepsTillRecalcOf_zero : stepsTillRecalcOf 0 = 0 := by decide

/-- Double stepping stores one additional step. -/
theorem stepsTillRecalcOf_one : stepsTillRecalcOf 1 = 1 := by decide

/-- Quad stepping stores three additional steps. -/
theorem stepsTillRecalcOf_two : stepsTillRecalcOf 2 = 3 := by decide

/-- Octal stepping stores seven additional steps. -/
theorem stepsTillRecalcOf_three : stepsTillRecalcOf 3 = 7 := by decide

/-- Hexadecimal stepping stores fifteen additional steps. -/
theorem stepsTillRecalcOf_four : stepsTillRecalcOf 4 = 15 := by decide

/-- The shift factor of the Cartesian recurrence is 0, or it is 1, 2 or 3 and
the conditions of its tier hold. -/
theorem cartShiftFactor_cases (cfg : Config) (dm : DM) :
    (cartShiftFactor cfg dm = 0)
    ∨ (cartShiftFactor cfg dm = 1
        ∧ dm.stepInterval < cfg.MinCalcIntervalCartesian
        ∧ subU32 (if dm.nextStep ≤ dm.reverseStartStep ∧ dm.reverseStartStep ≤ dm.totalSteps
              then dm.reverseStartStep else dm.totalSteps) dm.nextStep > 2)
    ∨ (cartShiftFactor cfg dm = 2
        ∧ dm.stepInterval < cfg.MinCalcIntervalCartesian / 2
        ∧ subU32 (if dm.nextStep ≤ dm.reverseStartStep ∧ dm.reverseStartStep ≤ dm.totalSteps
              then dm.reverseStartStep else dm.totalSteps) dm.nextStep > 4)
    ∨ (cartShiftFactor cfg dm = 3
        ∧ dm.stepInterval < cfg.MinCalcIntervalCartesian / 4
        ∧ subU32 (if dm.nextStep ≤ dm.reverseStartStep ∧ dm.reverseStartStep ≤ dm.totalSteps
              then dm.reverseStartStep else dm.totalSteps) dm.nextStep > 8) := by
  unfold cartShiftFactor
  simp only
  split_ifs <;> simp_all

/-- The shift factor of the Delta recurrence is 0, or it is 1 to 4 and the
conditions of its tier hold. -/
theorem deltaShiftFactor_cases (cfg : Config) (dm : DM) :
    (deltaShiftFactor cfg dm = 0)
    ∨ (deltaShiftFactor cfg dm = 1
        ∧ dm.stepInterval < cfg.MinCalcIntervalDelta
        ∧ subU32 (if dm.nextStep < dm.reverseStartStep ∧ dm.reverseStartStep ≤ dm.totalSteps
              then dm.reverseStartStep else dm.totalSteps) dm.nextStep > 2)
    ∨ (deltaShiftFactor cfg dm = 2
        ∧ dm.stepInterval < cfg.MinCalcIntervalDelta / 2
        ∧ subU32 (if dm.nextStep < dm.reverseStartStep ∧ dm.reverseStartStep ≤ dm.totalSteps
              then dm.reverseStartStep else dm.totalSteps) dm.nextStep > 4)
    ∨ (deltaShiftFactor cfg dm = 3
        ∧ dm.stepInterval < cfg.MinCalcIntervalDelta / 4
        ∧ subU32 (if dm.nextStep < dm.reverseStartStep ∧ dm.reverseStartStep ≤ dm.totalSteps
              then dm.reverseStartStep else dm.totalSteps) dm.nextStep > 8)
    ∨ (deltaShiftFactor cfg dm = 4
        ∧ dm.stepInterval < cfg.MinCalcIntervalDelta / 8
        ∧ subU32 (if dm.nextStep < dm.reverseStartStep ∧ dm.reverseStartStep ≤ dm.totalSteps
              then dm.reverseStartStep else dm.totalSteps) dm.nextStep > 16) := by
  unfold deltaShiftFactor
  simp only
  split_ifs <;> simp_all

/-- For the shift factors the recurrences use, `(1u << s) - 1u` is `2^s − 1`. -/
theorem stepsTillRecalcOf_eq (s : Nat) (h : s ≤ 4) : stepsTillRecalcOf s = 2 ^ s - 1 := by
  interval_cases s <;> decide

/-! Conversions between the signed and unsigned 32-bit and 64-bit views agree
modulo the word size. -/

theorem toU32_s32 (x : Int) : toU32 (s32 x) = toU32 x := by
  unfold toU32 s32; omega

theorem toU32_add_s32 (x y : Int) : toU32 (s32 x + y) = toU32 (x + y) := by
  unfold toU32 s32; omega

theorem toU32_sub_s32 (x y : Int) : toU32 (x - s32 y) = toU32 (x - y) := by
  unfold toU32 s32; omega

theorem toU32_natCast (n : Nat) : toU32 (n : Int) = u32 n := by
  unfold toU32 u32; omega

/-- The casts of the steady-speed expression (source lines 324 to 327) do not
change its value modulo 2^32. -/
theorem cruise_casts (q acc : Nat) (e : Int) :
    toU32 (s32 (s32 (s32 (q : Int) + e) - s32 (acc : Int))) = toU32 ((q : Int) + e - acc) := by
  rw [toU32_s32, toU32_sub_s32, sub_eq_add_neg, toU32_add_s32, add_assoc, toU32_add_s32,
    ← add_assoc, ← sub_eq_add_neg]

theorem isquare64_natCast (a : Nat) : isquare64 (a : Int) = u64 (a * a) := by
  unfold isquare64 toU64 u64
  have h : ((a : Int) * (a : Int)) = ((a * a : Nat) : Int) := by push_cast; rfl
  rw [h]; omega

theorem u64_add_u64 (x y : Nat) : u64 (u64 x + u64 y) = u64 (x + y) := by
  unfold u64; omega

theorem isqrt64_u64 (x : Nat) : isqrt64 (u64 x) = isqrt64 x := by
  unfold isqrt64; congr 1; unfold u64; omega

theorem subU32_eq (a b : Nat) : subU32 a b = toU32 ((a : Int) - (b : Int)) := rfl

/-! Projections of the result of `CalcNextStepTimeCartesianFull`. -/

/-- The computed step time does not depend on `live`. -/
theorem cartPhase_time_live (cfg : Config) (dm : DM) (dda : DDA) (live : Bool) (n : Nat) :
    (cartPhase cfg dm dda live n).nextStepTime = cartTimeAt cfg dm dda n := by
  unfold cartTimeAt cartPhase
  split_ifs <;> rfl

theorem cartComputedTime_eq (cfg : Config) (dm : DM) (dda : DDA) :
    cartComputedTime cfg dm dda = cartTimeAt cfg dm dda (cartNextCalcStep cfg dm) := rfl

theorem cartFull_direction (cfg : Config) (dm : DM) (dda : DDA) (live : Bool) :
    (CalcNextStepTimeCartesianFull cfg dm dda live).dm.direction
      = (cartPhase cfg dm dda live (cartNextCalcStep cfg dm)).direction := by
  unfold CalcNextStepTimeCartesianFull cartNextCalcStep
  simp only
  split_ifs <;> rfl

theorem cartFull_calls (cfg : Config) (dm : DM) (dda : DDA) (live : Bool) :
    (CalcNextStepTimeCartesianFull cfg dm dda live).calls
      = (cartPhase cfg dm dda live (cartNextCalcStep cfg dm)).calls := by
  unfold CalcNextStepTimeCartesianFull cartNextCalcStep
  simp only
  split_ifs <;> rfl

theorem cartFull_nextStepTime (cfg : Config) (dm : DM) (dda : DDA) (live : Bool) :
    (CalcNextStepTimeCartesianFull cfg dm dda live).dm.nextStepTime
      = if cartComputedTime cfg dm dda > dda.clocksNeeded
            ∧ u32 (dm.nextStep + 1) ≥ dm.totalSteps
        then dda.clocksNeeded else cartComputedTime cfg dm dda := by
  unfold CalcNextStepTimeCartesianFull
  simp only [cartPhase_time_live, cartComputedTime_eq, cartNextCalcStep]
  split_ifs <;> first | rfl | (exfalso; tauto)

theorem cartFull_ret (cfg : Config) (dm : DM) (dda : DDA) (live : Bool) :
    (CalcNextStepTimeCartesianFull cfg dm dda live).ret
      = if cartComputedTime cfg dm dda > dda.clocksNeeded
            ∧ ¬ u32 (dm.nextStep + 1) ≥ dm.totalSteps
        then false else true := by
  unfold CalcNextStepTimeCartesianFull
  simp only [cartPhase_time_live, cartComputedTime_eq, cartNextCalcStep]
  split_ifs <;> first | rfl | (exfalso; tauto)

theorem cartFull_state (cfg : Config) (dm : DM) (dda : DDA) (live : Bool) :
    (CalcNextStepTimeCartesianFull cfg dm dda live).dm.state
      = if cartComputedTime cfg dm dda > dda.clocksNeeded
            ∧ ¬ u32 (dm.nextStep + 1) ≥ dm.totalSteps
        then DMState.stepError else dm.state := by
  unfold CalcNextStepTimeCartesianFull
  simp only [cartPhase_time_live, cartComputedTime_eq, cartNextCalcStep]
  split_ifs <;> first | rfl | (exfalso; tauto)

theorem cartFull_stepInterval (cfg : Config) (dm : DM) (dda : DDA) (live : Bool) :
    (CalcNextStepTimeCartesianFull cfg dm dda live).dm.stepInterval
      = if cartComputedTime cfg dm dda > dda.clocksNeeded
            ∧ ¬ u32 (dm.nextStep + 1) ≥ dm.totalSteps
        then u32 (10000000 + cartComputedTime cfg dm dda)
        else subU32 (cartComputedTime cfg dm dda) dm.nextStepTime >>> cartShiftFactor cfg dm := by
  unfold CalcNextStepTimeCartesianFull
  simp only [cartPhase_time_live, cartComputedTime_eq, cartNextCalcStep]
  split_ifs <;> first | rfl | (exfalso; tauto)

theorem cartFull_stepsTillRecalc (cfg : Config) (dm : DM) (dda : DDA) (live : Bool) :
    (CalcNextStepTimeCartesianFull cfg dm dda live).dm.stepsTillRecalc
      = stepsTillRecalcOf (cartShiftFactor cfg dm) := by
  unfold CalcNextStepTimeCartesianFull
  simp only
  split_ifs <;> rfl

/-- The fields `CalcNextStepTimeCartesianFull` never writes. -/
theorem cartFull_frame (cfg : Config) (dm : DM) (dda : DDA) (live : Bool) :
    (CalcNextStepTimeCartesianFull cfg dm dda live).dm.nextStep = dm.nextStep
    ∧ (CalcNextStepTimeCartesianFull cfg dm dda live).dm.totalSteps = dm.totalSteps
    ∧ (CalcNextStepTimeCartesianFull cfg dm dda live).dm.reverseStartStep = dm.reverseStartStep
    ∧ (CalcNextStepTimeCartesianFull cfg dm dda live).dm.twoDistanceToStopTimesCsquaredDivA
        = dm.twoDistanceToStopTimesCsquaredDivA
    ∧ (CalcNextStepTimeCartesianFull cfg dm dda live).dm.mp = dm.mp
    ∧ (CalcNextStepTimeCartesianFull cfg dm dda live).dm.drive = dm.drive
    ∧ (CalcNextStepTimeCartesianFull cfg dm dda live).dm.nextDM = dm.nextDM := by
  unfold CalcNextStepTimeCartesianFull
  simp only
  split_ifs <;> exact ⟨rfl, rfl, rfl, rfl, rfl, rfl, rfl⟩

/-! Projections of the result of `CalcNextStepTimeDeltaFull`. -/

theorem deltaFull_direction (cfg : Config) (dm : DM) (dda : DDA) (live : Bool) :
    (CalcNextStepTimeDeltaFull cfg dm dda live).dm.direction = deltaDirection dm := by
  unfold CalcNextStepTimeDeltaFull
  simp only
  split_ifs <;> rfl

theorem deltaFull_calls (cfg : Config) (dm : DM) (dda : DDA) (live : Bool) :
    (CalcNextStepTimeDeltaFull cfg dm dda live).calls = deltaCalls dm live := by
  unfold CalcNextStepTimeDeltaFull
  simp only
  split_ifs <;> rfl

theorem deltaFull_hmz0sK (cfg : Config) (dm : DM) (dda : DDA) (live : Bool) :
    (CalcNextStepTimeDeltaFull cfg dm dda live).dm.mp.delta.hmz0sK = deltaHmz0sK cfg dm := by
  unfold CalcNextStepTimeDeltaFull
  simp only
  split_ifs <;> rfl

theorem deltaFull_stepsTillRecalc (cfg : Config) (dm : DM) (dda : DDA) (live : Bool) :
    (CalcNextStepTimeDeltaFull cfg dm dda live).dm.stepsTillRecalc
      = stepsTillRecalcOf (deltaShiftFactor cfg dm) := by
  unfold CalcNextStepTimeDeltaFull
  simp only
  split_ifs <;> rfl

theorem deltaFull_ret (cfg : Config) (dm : DM) (dda : DDA) (live : Bool) :
    (CalcNextStepTimeDeltaFull cfg dm dda live).ret
      = if deltaDsK cfg dm dda < 0 then false
        else if deltaComputedTime cfg dm dda > dda.clocksNeeded
            ∧ ¬ u32 (dm.nextStep + 1) ≥ dm.totalSteps
        then false else true := by
  unfold CalcNextStepTimeDeltaFull deltaComputedTime
  simp only
  split_ifs <;> first | rfl | (exfalso; tauto)

theorem deltaFull_state (cfg : Config) (dm : DM) (dda : DDA) (live : Bool) :
    (CalcNextStepTimeDeltaFull cfg dm dda live).dm.state
      = if deltaDsK cfg dm dda < 0 then DMState.stepError
        else if deltaComputedTime cfg dm dda > dda.clocksNeeded
            ∧ ¬ u32 (dm.nextStep + 1) ≥ dm.totalSteps
        then DMState.stepError else dm.state := by
  unfold CalcNextStepTimeDeltaFull deltaComputedTime
  simp only
  split_ifs <;> first | rfl | (exfalso; tauto)

theorem deltaFull_nextStep (cfg : Config) (dm : DM) (dda : DDA) (live : Bool) :
    (CalcNextStepTimeDeltaFull cfg dm dda live).dm.nextStep
      = if deltaDsK cfg dm dda < 0 then u32 (dm.nextStep + 1000000) else dm.nextStep := by
  unfold CalcNextStepTimeDeltaFull
  simp only
  split_ifs <;> rfl

theorem deltaFull_nextStepTime (cfg : Config) (dm : DM) (dda : DDA) (live : Bool) :
    (CalcNextStepTimeDeltaFull cfg dm dda live).dm.nextStepTime
      = if deltaDsK cfg dm dda < 0 then dm.nextStepTime
        else if deltaComputedTime cfg dm dda > dda.clocksNeeded
            ∧ u32 (dm.nextStep + 1) ≥ dm.totalSteps
        then dda.clocksNeeded else deltaComputedTime cfg dm dda := by
  unfold CalcNextStepTimeDeltaFull deltaComputedTime
  simp only
  split_ifs <;> first | rfl | (exfalso; tauto)

theorem deltaFull_stepInterval (cfg : Config) (dm : DM) (dda : DDA) (live : Bool) :
    (CalcNextStepTimeDeltaFull cfg dm dda live).dm.stepInterval
      = if deltaDsK cfg dm dda < 0 then dm.stepInterval
        else if deltaComputedTime cfg dm dda > dda.clocksNeeded
            ∧ ¬ u32 (dm.nextStep + 1) ≥ dm.totalSteps
        then u32 (10000000 + deltaComputedTime cfg dm dda)
        else subU32 (deltaComputedTime cfg dm dda) dm.nextStepTime >>> deltaShiftFactor cfg dm := by
  unfold CalcNextStepTimeDeltaFull deltaComputedTime
  simp only
  split_ifs <;> first | rfl | (exfalso; tauto)

theorem toU64_s64 (x : Int) : toU64 (s64 x) = toU64 x := by
  unfold toU64 s64; omega

theorem toU64_s64_sub (x y : Int) : toU64 (s64 x - y) = toU64 (x - y) := by
  unfold toU64 s64; omega

theorem toU64_u64_sub (m : Nat) (y : Int) : toU64 ((u64 m : Nat) - y) = toU64 ((m : Int) - y) := by
  unfold toU64 u64; omega

theorem u32_add_toU32 (b x : Nat) : u32 (b + x) = toU32 ((b : Int) + x) := by
  unfold toU32 u32; omega

theorem s64_add_s64 (x y : Int) : s64 (s64 x + s64 y) = s64 (x + y) := by
  unfold s64; omega

theorem s64_sub_s64 (x y : Int) : s64 (x - s64 y) = s64 (x - y) := by
  unfold s64; omega

theorem s64_isquare64 (x : Int) : s64 (isquare64 x : Nat) = s64 (x * x) := by
  unfold s64 isquare64 toU64
  generalize x * x = y
  omega

theorem s32_add_s32 (x y : Int) : s32 (x + s32 y) = s32 (x + y) := by
  unfold s32; omega

theorem s32_neg_s32 (x : Int) : s32 (-s32 x) = s32 (-x) := by
  unfold s32; omega

theorem s32_u32 (n : Nat) : s32 ((u32 n : Nat) : Int) = s32 (n : Int) := by
  unfold s32 u32; omega

theorem s32_of_range (x : Int) (h1 : -2147483648 ≤ x) (h2 : x < 2147483648) : s32 x = x := by
  unfold s32; omega

theorem deltaShiftFactor_le (cfg : Config) (dm : DM) : deltaShiftFactor cfg dm ≤ 4 := by
  unfold deltaShiftFactor
  simp only
  split_ifs <;> omega

theorem cartShiftFactor_le (cfg : Config) (dm : DM) : cartShiftFactor cfg dm ≤ 3 := by
  unfold cartShiftFactor
  simp only
  split_ifs <;> omega

/-- The height counter after the update of source lines 423 to 430, as one
32-bit sum. -/
theorem deltaHmz0sK_eq (cfg : Config) (dm : DM) :
    deltaHmz0sK cfg dm
      = s32 (dm.mp.delta.hmz0sK
          + (if deltaDirection dm then (1 : Int) else -1)
            * ((cfg.K2 * (stepsTillRecalcOf (deltaShiftFactor cfg dm) + 1) : Nat) : Int)) := by
  unfold deltaHmz0sK
  have hs := deltaShiftFactor_le cfg dm
  rw [stepsTillRecalcOf_eq _ hs, Nat.shiftLeft_eq]
  have hp : 2 ^ deltaShiftFactor cfg dm - 1 + 1 = 2 ^ deltaShiftFactor cfg dm :=
    Nat.sub_add_cancel Nat.one_le_two_pow
  rw [hp]
  simp only [s32_u32]
  by_cases hd : deltaDirection dm = true
  · simp only [hd, if_true, one_mul, s32_add_s32]
  · have hd' : deltaDirection dm = false := by simpa using hd
    simp only [hd', Bool.false_eq_true, if_false, s32_neg_s32, s32_add_s32]
    congr 1
    ring

/-! ## Batching -/

/-- A batch of the Cartesian recurrence ends at least two steps before the
limit the source computes. -/
theorem cart_batch (cfg : Config) (dm : DM) (hle : dm.nextStep ≤ dm.totalSteps) :
    (cartShiftFactor cfg dm = 0 ∧ stepsTillRecalcOf (cartShiftFactor cfg dm) = 0)
    ∨ dm.nextStep + stepsTillRecalcOf (cartShiftFactor cfg dm) + 2
        ≤ (if dm.nextStep ≤ dm.reverseStartStep ∧ dm.reverseStartStep ≤ dm.totalSteps
           then dm.reverseStartStep else dm.totalSteps) := by
  have hcc := cartShiftFactor_cases cfg dm
  simp only [subU32_eq, toU32] at hcc
  rcases hcc with h | ⟨h, -, h2⟩ | ⟨h, -, h2⟩ | ⟨h, -, h2⟩
  · left; rw [h]; exact ⟨rfl, stepsTillRecalcOf_zero⟩
  all_goals
    right
    rw [h]
    simp only [stepsTillRecalcOf_one, stepsTillRecalcOf_two, stepsTillRecalcOf_three]
    split_ifs at h2 ⊢ <;> omega

/-- A batch of the Delta recurrence ends at least two steps before the limit
the source computes. -/
theorem delta_batch (cfg : Config) (dm : DM) (hle : dm.nextStep ≤ dm.totalSteps) :
    (deltaShiftFactor cfg dm = 0 ∧ stepsTillRecalcOf (deltaShiftFactor cfg dm) = 0)
    ∨ dm.nextStep + stepsTillRecalcOf (deltaShiftFactor cfg dm) + 2
        ≤ (if dm.nextStep < dm.reverseStartStep ∧ dm.reverseStartStep ≤ dm.totalSteps
           then dm.reverseStartStep else dm.totalSteps) := by
  have hcc := deltaShiftFactor_cases cfg dm
  simp only [subU32_eq, toU32] at hcc
  rcases hcc with h | ⟨h, -, h2⟩ | ⟨h, -, h2⟩ | ⟨h, -, h2⟩ | ⟨h, -, h2⟩
  · left; rw [h]; exact ⟨rfl, stepsTillRecalcOf_zero⟩
  all_goals
    right
    rw [h]
    simp only [stepsTillRecalcOf_one, stepsTillRecalcOf_two, stepsTillRecalcOf_three,
      stepsTillRecalcOf_four]
    split_ifs at h2 ⊢ <;> omega

/-! ## Runs of the Cartesian recurrence -/

/-- The closed-form step time depends on the record only through the
constants of the segment. -/
theorem cartTimeAt_congr (cfg : Config) (dda : DDA) (dm dm0 : DM) (n : Nat)
    (h1 : dm.mp = dm0.mp) (h2 : dm.reverseStartStep = dm0.reverseStartStep)
    (h3 : dm.twoDistanceToStopTimesCsquaredDivA = dm0.twoDistanceToStopTimesCsquaredDivA) :
    cartTimeAt cfg dm dda n = cartTimeAt cfg dm0 dda n := by
  unfold cartTimeAt cartPhase
  simp only [h1, h2, h3]
  split_ifs <;> rfl

/-- On a step of the segment `nextCalcStep` does not wrap and stays within the
segment. -/
theorem cartNextCalcStep_bounds (cfg : Config) (dm : DM)
    (hle : dm.nextStep ≤ dm.totalSteps) (hT : dm.totalSteps < 4294967295) :
    cartNextCalcStep cfg dm = dm.nextStep + stepsTillRecalcOf (cartShiftFactor cfg dm)
    ∧ cartNextCalcStep cfg dm ≤ dm.totalSteps := by
  unfold cartNextCalcStep u32
  rcases cart_batch cfg dm hle with ⟨-, h0⟩ | hb
  · rw [h0]; omega
  · split_ifs at hb <;> omega

/-- One call that returns `true` does not decrease `nextStepTime` and keeps
the invariant of the run. -/
theorem cartRunInv_step (cfg : Config) (dda : DDA) (live : Bool) (dm0 dm : DM)
    (hT : dm0.totalSteps < 4294967295)
    (hmono : ∀ i j, 1 ≤ i → i ≤ j → j ≤ dm0.totalSteps →
      cartTimeAt cfg dm0 dda i ≤ cartTimeAt cfg dm0 dda j)
    (hinv : CartRunInv cfg dda dm0 dm)
    (hle : dm.nextStep ≤ dm.totalSteps)
    (hret : (CalcNextStepTimeCartesianFull cfg dm dda live).ret = true) :
    dm.nextStepTime ≤ (CalcNextStepTimeCartesianFull cfg dm dda live).dm.nextStepTime
    ∧ CartRunInv cfg dda dm0 (cartAdvance (CalcNextStepTimeCartesianFull cfg dm dda live).dm) := by
  obtain ⟨hmp, hrev, htwo, htot, h1, h2, hclk, hfut⟩ := hinv
  have hT' : dm.totalSteps < 4294967295 := by rw [htot]; exact hT
  obtain ⟨hn, hnle⟩ := cartNextCalcStep_bounds cfg dm hle hT'
  have hcomp : cartComputedTime cfg dm dda = cartTimeAt cfg dm0 dda (cartNextCalcStep cfg dm) := by
    rw [cartComputedTime_eq]
    exact cartTimeAt_congr cfg dda dm dm0 _ hmp hrev htwo
  have hold : dm.nextStepTime ≤ cartComputedTime cfg dm dda := by
    rw [hcomp]
    exact hfut _ (by omega) hnle
  obtain ⟨f1, f2, f3, f4, f5, -, -⟩ := cartFull_frame cfg dm dda live
  have hnew := cartFull_nextStepTime cfg dm dda live
  have hr := cartFull_ret cfg dm dda live
  have hstc := cartFull_stepsTillRecalc cfg dm dda live
  rw [hr] at hret
  have hnew_le : (CalcNextStepTimeCartesianFull cfg dm dda live).dm.nextStepTime
      ≤ cartComputedTime cfg dm dda
      ∧ (CalcNextStepTimeCartesianFull cfg dm dda live).dm.nextStepTime ≤ dda.clocksNeeded
      ∧ dm.nextStepTime ≤ (CalcNextStepTimeCartesianFull cfg dm dda live).dm.nextStepTime := by
    rw [hnew]
    split_ifs at hret ⊢ <;> omega
  refine ⟨hnew_le.2.2, ?_⟩
  have hadv : (cartAdvance (CalcNextStepTimeCartesianFull cfg dm dda live).dm).nextStep
      = cartNextCalcStep cfg dm + 1 := by
    show u32 ((CalcNextStepTimeCartesianFull cfg dm dda live).dm.nextStep
      + (CalcNextStepTimeCartesianFull cfg dm dda live).dm.stepsTillRecalc + 1) = _
    rw [f1, hstc, hn]
    unfold u32
    omega
  refine ⟨?_, ?_, ?_, ?_, ?_, ?_, ?_, ?_⟩
  · show (CalcNextStepTimeCartesianFull cfg dm dda live).dm.mp = _
    rw [f5, hmp]
  · show (CalcNextStepTimeCartesianFull cfg dm dda live).dm.reverseStartStep = _
    rw [f3, hrev]
  · show (CalcNextStepTimeCartesianFull cfg dm dda live).dm.twoDistanceToStopTimesCsquaredDivA = _
    rw [f4, htwo]
  · show (CalcNextStepTimeCartesianFull cfg dm dda live).dm.totalSteps = _
    rw [f2, htot]
  · rw [hadv]; omega
  · rw [hadv]
    show _ ≤ (CalcNextStepTimeCartesianFull cfg dm dda live).dm.totalSteps + 1
    rw [f2]; omega
  · exact hnew_le.2.1
  · intro j hj1 hj2
    rw [hadv] at hj1
    have hj2' : j ≤ dm0.totalSteps := by
      have : (cartAdvance (CalcNextStepTimeCartesianFull cfg dm dda live).dm).totalSteps
          = dm0.totalSteps := by
        show (CalcNextStepTimeCartesianFull cfg dm dda live).dm.totalSteps = _
        rw [f2, htot]
      rw [this] at hj2; exact hj2
    have hm := hmono (cartNextCalcStep cfg dm) j (by omega) (by omega) hj2'
    show (CalcNextStepTimeCartesianFull cfg dm dda live).dm.nextStepTime ≤ _
    rw [← hcomp] at hm
    exact le_trans hnew_le.1 hm

/-- Every record a run reaches satisfies the invariant of the run. -/
theorem cartRunInv_run (cfg : Config) (dda : DDA) (live : Bool) (dm0 : DM)
    (hT : dm0.totalSteps < 4294967295)
    (hmono : ∀ i j, 1 ≤ i → i ≤ j → j ≤ dm0.totalSteps →
      cartTimeAt cfg dm0 dda i ≤ cartTimeAt cfg dm0 dda j)
    (hinit : CartRunInv cfg dda dm0 dm0) :
    ∀ (k : Nat) (dm : DM), cartRun cfg dda live dm0 k = some dm → CartRunInv cfg dda dm0 dm := by
  intro k
  induction k with
  | zero =>
    intro dm h
    simp only [cartRun, Option.some.injEq] at h
    rw [← h]; exact hinit
  | succ k ih =>
    intro dm h
    simp only [cartRun] at h
    cases hk : cartRun cfg dda live dm0 k with
    | none => rw [hk] at h; simp at h
    | some d =>
      rw [hk] at h
      simp only at h
      split_ifs at h with hle hret
      simp only [Option.some.injEq] at h
      rw [← h]
      exact (cartRunInv_step cfg dda live dm0 d hT hmono (ih d hk) hle hret).2

/-- The start of a run satisfies the invariant of the run. -/
theorem cartStart_inv (cfg : Config) (dda : DDA) (base : DM) (top : Nat) (v : CartesianPrepValues) :
    CartRunInv cfg dda (cartStart base top v) (cartStart base top v) := by
  refine ⟨rfl, rfl, rfl, rfl, ?_, ?_, ?_, ?_⟩
  · show 1 ≤ 1
    exact le_refl _
  · show 1 ≤ (cartStart base top v).totalSteps + 1
    omega
  · show 0 ≤ dda.clocksNeeded
    omega
  · intro j _ _
    show 0 ≤ _
    omega

/-- The closed-form step times of the prepared example record, 1414, 2000,
3500, 4500, 5500, 7000, 7586, 9000, are non-decreasing. -/
theorem examplePrep_monotone :
    ∀ i j, 1 ≤ i → i ≤ j → j ≤ (exampleDM 0).totalSteps →
      cartTimeAt exampleConfig (cartStart (exampleDM 0) 1000 examplePrep) exampleDDA i
        ≤ cartTimeAt exampleConfig (cartStart (exampleDM 0) 1000 examplePrep) exampleDDA j := by
  intro i j h1 h2 h3
  have h3' : j ≤ 8 := h3
  interval_cases j <;> interval_cases i <;> decide

/-! ## The claims -/

/-- C1: in `CalcNextStepTimeCartesianFull`, with `n = nextCalcStep`, the value
of `nextStepTime` computed before the late-step policy is
`isqrt(a² + c·n) − a` in the acceleration branch (`a` the 32-bit sum of
`startSpeedTimesCdivA` and `compensationClocks`),
`(m·n)/K1 + extraAccelerationClocks − accelCompensationClocks` in the cruise
branch, and `b − isqrt(D − c·n)` or `b` in the deceleration branch before the
reversal, each reduced modulo 2^32, the products being the 64-bit products of
the source; in these three branches `direction` is unchanged and the driver is
not notified. The stored `nextStepTime` is that value unless the late-step
policy clamps it. -/
theorem C1_cartesian_closed_forms (cfg : Config) (dm : DM) (dda : DDA) (live : Bool) :
    let n := cartNextCalcStep cfg dm
    let c := dm.mp.cart.twoCsquaredTimesMmPerStepDivA
    let D := dm.twoDistanceToStopTimesCsquaredDivA
    let a := u32 (dda.startSpeedTimesCdivA + dm.mp.cart.compensationClocks)
    let b := toU32 ((dda.topSpeedTimesCdivAPlusDecelStartClocks : Int)
                      - dm.mp.cart.compensationClocks)
    let r := CalcNextStepTimeCartesianFull cfg dm dda live
    (n < dm.mp.cart.accelStopStep →
        cartComputedTime cfg dm dda = toU32 ((isqrt64 (a * a + c * n) : Int) - a))
    ∧ (¬ n < dm.mp.cart.accelStopStep → n < dm.mp.cart.decelStartStep →
        cartComputedTime cfg dm dda =
          toU32 (((u64 (dm.mp.cart.mmPerStepTimesCKdivtopSpeed * n) / cfg.K1 : Nat) : Int)
                  + dda.extraAccelerationClocks - dm.mp.cart.accelCompensationClocks))
    ∧ (¬ n < dm.mp.cart.accelStopStep → ¬ n < dm.mp.cart.decelStartStep →
        n < dm.reverseStartStep →
        cartComputedTime cfg dm dda =
          if u64 (c * n) < D then toU32 ((b : Int) - isqrt64 (D - u64 (c * n))) else b)
    ∧ (n < dm.mp.cart.accelStopStep ∨ n < dm.mp.cart.decelStartStep ∨ n < dm.reverseStartStep →
        r.dm.direction = dm.direction ∧ r.calls = [])
    ∧ r.dm.nextStepTime =
        (if cartComputedTime cfg dm dda > dda.clocksNeeded ∧ u32 (dm.nextStep + 1) ≥ dm.totalSteps
         then dda.clocksNeeded else cartComputedTime cfg dm dda) := by
  intro n c D a b r
  refine ⟨?_, ?_, ?_, ?_, cartFull_nextStepTime cfg dm dda live⟩
  · intro h1
    show (cartPhase cfg dm dda false n).nextStepTime = _
    unfold cartPhase
    rw [if_pos h1]
    simp only [subU32_eq, isquare64_natCast]
    rw [isqrt64_u64, ← isqrt64_u64 (a * a + c * n), ← u64_add_u64 (a * a) (c * n)]
    rw [isqrt64_u64]
  · intro h1 h2
    show (cartPhase cfg dm dda false n).nextStepTime = _
    unfold cartPhase
    rw [if_neg h1, if_pos h2]
    simp only [cruise_casts]
  · intro h1 h2 h3
    show (cartPhase cfg dm dda false n).nextStepTime = _
    unfold cartPhase
    rw [if_neg h1, if_neg h2, if_pos h3]
    simp only [subU32_eq]
  · intro h
    show (CalcNextStepTimeCartesianFull cfg dm dda live).dm.direction = _ ∧
      (CalcNextStepTimeCartesianFull cfg dm dda live).calls = _
    rw [cartFull_direction, cartFull_calls]
    show (cartPhase cfg dm dda live n).direction = _ ∧ (cartPhase cfg dm dda live n).calls = _
    unfold cartPhase
    by_cases h1 : n < dm.mp.cart.accelStopStep
    · rw [if_pos h1]; exact ⟨rfl, rfl⟩
    · rw [if_neg h1]
      by_cases h2 : n < dm.mp.cart.decelStartStep
      · rw [if_pos h2]; exact ⟨rfl, rfl⟩
      · rw [if_neg h2]
        have h3 : n < dm.reverseStartStep := by tauto
        rw [if_pos h3]; exact ⟨rfl, rfl⟩

/-- C1 at steps 1 (acceleration), 4 (cruise) and 7 (deceleration) of the
example record. -/
theorem C1_cartesian_closed_forms_witness :
    (cartNextCalcStep exampleConfig (exampleDM 1) = 1
      ∧ cartComputedTime exampleConfig (exampleDM 1) exampleDDA = 1414)
    ∧ (cartNextCalcStep exampleConfig (exampleDM 4) = 4
      ∧ cartComputedTime exampleConfig (exampleDM 4) exampleDDA = 4500)
    ∧ (cartNextCalcStep exampleConfig (exampleDM 7) = 7
      ∧ cartComputedTime exampleConfig (exampleDM 7) exampleDDA = 7586)
    ∧ (CalcNextStepTimeCartesianFull exampleConfig (exampleDM 7) exampleDDA true).dm.direction
        = true :=
  ⟨⟨by decide,
     ((C1_cartesian_closed_forms exampleConfig (exampleDM 1) exampleDDA true).1
        (by decide)).trans (by decide)⟩,
   ⟨by decide,
     ((C1_cartesian_closed_forms exampleConfig (exampleDM 4) exampleDDA true).2.1
        (by decide) (by decide)).trans (by decide)⟩,
   ⟨by decide,
     ((C1_cartesian_closed_forms exampleConfig (exampleDM 7) exampleDDA true).2.2.1
        (by decide) (by decide) (by decide)).trans (by decide)⟩,
   ((C1_cartesian_closed_forms exampleConfig (exampleDM 7) exampleDDA true).2.2.2.1
        (by decide)).1⟩

/-- C2, the claim refuted: step 7 of the 8-step example record is not the
last step (`nextStep < totalSteps`) and is calculated late (7586 clocks
against 7000 allowed), yet the call clamps the time, leaves `state` at
`moving` and returns `true` instead of raising `StepError`. -/
theorem C2_late_step_counterexample :
    (exampleDM 7).nextStep < (exampleDM 7).totalSteps
    ∧ cartComputedTime exampleConfig (exampleDM 7) lateDDA = 7586
    ∧ lateDDA.clocksNeeded = 7000
    ∧ (CalcNextStepTimeCartesianFull exampleConfig (exampleDM 7) lateDDA true).ret = true
    ∧ (CalcNextStepTimeCartesianFull exampleConfig (exampleDM 7) lateDDA true).dm.state
        = DMState.moving
    ∧ (CalcNextStepTimeCartesianFull exampleConfig (exampleDM 7) lateDDA true).dm.nextStepTime
        = 7000 := by
  decide

/-- C2, amended: when the computed `nextStepTime` exceeds `clocksNeeded`, the
Cartesian recurrence clamps it to `clocksNeeded`, leaves `state` unchanged and
returns `true` if `nextStep + 1 >= totalSteps` (a 32-bit sum), that is on the
last two steps of the segment; on every other step `state` becomes
`stepError`, `stepInterval` is `10_000_000 + nextStepTime` (unclamped, 32-bit
sum) and the call returns `false`. -/
theorem C2_late_step_policy (cfg : Config) (dm : DM) (dda : DDA) (live : Bool)
    (hlate : cartComputedTime cfg dm dda > dda.clocksNeeded) :
    let r := CalcNextStepTimeCartesianFull cfg dm dda live
    (u32 (dm.nextStep + 1) ≥ dm.totalSteps →
        r.dm.nextStepTime = dda.clocksNeeded ∧ r.dm.state = dm.state ∧ r.ret = true)
    ∧ (¬ u32 (dm.nextStep + 1) ≥ dm.totalSteps →
        r.dm.state = DMState.stepError
        ∧ r.dm.stepInterval = u32 (10000000 + cartComputedTime cfg dm dda)
        ∧ r.ret = false)
    ∧ (dm.nextStep < 4294967295 →
        (u32 (dm.nextStep + 1) ≥ dm.totalSteps ↔ dm.nextStep + 1 ≥ dm.totalSteps)) := by
  intro r
  refine ⟨?_, ?_, ?_⟩
  · intro h
    refine ⟨?_, ?_, ?_⟩
    · show (CalcNextStepTimeCartesianFull cfg dm dda live).dm.nextStepTime = _
      rw [cartFull_nextStepTime, if_pos ⟨hlate, h⟩]
    · show (CalcNextStepTimeCartesianFull cfg dm dda live).dm.state = _
      rw [cartFull_state, if_neg (fun hh => hh.2 h)]
    · show (CalcNextStepTimeCartesianFull cfg dm dda live).ret = _
      rw [cartFull_ret, if_neg (fun hh => hh.2 h)]
  · intro h
    refine ⟨?_, ?_, ?_⟩
    · show (CalcNextStepTimeCartesianFull cfg dm dda live).dm.state = _
      rw [cartFull_state, if_pos ⟨hlate, h⟩]
    · show (CalcNextStepTimeCartesianFull cfg dm dda live).dm.stepInterval = _
      rw [cartFull_stepInterval, if_pos ⟨hlate, h⟩]
    · show (CalcNextStepTimeCartesianFull cfg dm dda live).ret = _
      rw [cartFull_ret, if_pos ⟨hlate, h⟩]
  · intro h
    unfold u32
    omega

/-- C2 amended, at the last step of the example record (clamped) and at its
first step (step error with the diagnostic interval). -/
theorem C2_late_step_policy_witness :
    ((CalcNextStepTimeCartesianFull exampleConfig (exampleDM 8) lateDDA true).dm.nextStepTime
        = 7000
      ∧ (CalcNextStepTimeCartesianFull exampleConfig (exampleDM 8) lateDDA true).dm.state
        = DMState.moving
      ∧ (CalcNextStepTimeCartesianFull exampleConfig (exampleDM 8) lateDDA true).ret = true)
    ∧ ((CalcNextStepTimeCartesianFull exampleConfig (exampleDM 1) veryLateDDA true).dm.state
        = DMState.stepError
      ∧ (CalcNextStepTimeCartesianFull exampleConfig (exampleDM 1) veryLateDDA true).dm.stepInterval
        = 10001414
      ∧ (CalcNextStepTimeCartesianFull exampleConfig (exampleDM 1) veryLateDDA true).ret = false) :=
  ⟨(C2_late_step_policy exampleConfig (exampleDM 8) lateDDA true (by decide)).1 (by decide),
   (C2_late_step_policy exampleConfig (exampleDM 1) veryLateDDA true (by decide)).2.1 (by decide)⟩

/-- C3: whenever `CalcNextStepTimeCartesianFull` or `CalcNextStepTimeDeltaFull`
returns `true`, the stored `nextStepTime` is at most `dda.clocksNeeded` and
`state` is unchanged; whenever either returns `false`, `state` is
`stepError`. -/
theorem C3_return_contract (cfg : Config) (dm : DM) (dda : DDA) (live : Bool) :
    ((CalcNextStepTimeCartesianFull cfg dm dda live).ret = true →
        (CalcNextStepTimeCartesianFull cfg dm dda live).dm.nextStepTime ≤ dda.clocksNeeded
        ∧ (CalcNextStepTimeCartesianFull cfg dm dda live).dm.state = dm.state)
    ∧ ((CalcNextStepTimeCartesianFull cfg dm dda live).ret = false →
        (CalcNextStepTimeCartesianFull cfg dm dda live).dm.state = DMState.stepError)
    ∧ ((CalcNextStepTimeDeltaFull cfg dm dda live).ret = true →
        (CalcNextStepTimeDeltaFull cfg dm dda live).dm.nextStepTime ≤ dda.clocksNeeded
        ∧ (CalcNextStepTimeDeltaFull cfg dm dda live).dm.state = dm.state)
    ∧ ((CalcNextStepTimeDeltaFull cfg dm dda live).ret = false →
        (CalcNextStepTimeDeltaFull cfg dm dda live).dm.state = DMState.stepError) := by
  refine ⟨?_, ?_, ?_, ?_⟩
  · rw [cartFull_ret, cartFull_nextStepTime, cartFull_state]
    intro h
    split_ifs at h ⊢ <;> first | exact ⟨le_refl _, rfl⟩ | (refine ⟨?_, rfl⟩; omega)
  · rw [cartFull_ret, cartFull_state]
    intro h
    split_ifs at h ⊢
    all_goals rfl
  · rw [deltaFull_ret, deltaFull_nextStepTime, deltaFull_state]
    intro h
    split_ifs at h ⊢ <;> first | exact ⟨le_refl _, rfl⟩ | (refine ⟨?_, rfl⟩; omega)
  · rw [deltaFull_ret, deltaFull_state]
    intro h
    split_ifs at h ⊢
    all_goals rfl

/-- C3 on the example records: a call in time returns `true` and a late first
step or an unsolvable tower equation returns `false`. -/
theorem C3_return_contract_witness :
    ((CalcNextStepTimeCartesianFull exampleConfig (exampleDM 1) exampleDDA true).dm.nextStepTime
        ≤ exampleDDA.clocksNeeded
      ∧ (CalcNextStepTimeCartesianFull exampleConfig (exampleDM 1) exampleDDA true).dm.state
        = DMState.moving)
    ∧ (CalcNextStepTimeCartesianFull exampleConfig (exampleDM 1) veryLateDDA true).dm.state
        = DMState.stepError
    ∧ ((CalcNextStepTimeDeltaFull exampleConfig (exampleDeltaDM 1) exampleDDA true).dm.nextStepTime
        ≤ exampleDDA.clocksNeeded
      ∧ (CalcNextStepTimeDeltaFull exampleConfig (exampleDeltaDM 1) exampleDDA true).dm.state
        = DMState.moving)
    ∧ (CalcNextStepTimeDeltaFull exampleConfig (badDeltaDM 1) exampleDDA true).dm.state
        = DMState.stepError :=
  ⟨(C3_return_contract exampleConfig (exampleDM 1) exampleDDA true).1 (by decide),
   (C3_return_contract exampleConfig (exampleDM 1) veryLateDDA true).2.1 (by decide),
   (C3_return_contract exampleConfig (exampleDeltaDM 1) exampleDDA true).2.2.1 (by decide),
   (C3_return_contract exampleConfig (badDeltaDM 1) exampleDDA true).2.2.2 (by decide)⟩

/-- C5: for a call on a step of the segment (`nextStep ≤ totalSteps`), a
non-zero `stepsTillRecalc` chosen by `CalcNextStepTimeCartesianFull` or by
`CalcNextStepTimeDeltaFull` satisfies `nextStep + stepsTillRecalc ≤ limit − 2`,
where `limit` is `reverseStartStep` when `nextStep < reverseStartStep ≤
totalSteps` and `totalSteps` otherwise. Consequently the step before a
reversal, and in the Cartesian case the reversal step itself, are calculated
with shift factor 0, and a batch started before the reversal never runs past
`reverseStartStep − 1`, so the call at `reverseStartStep` is not skipped. -/
theorem C5_batch_before_horizon (cfg : Config) (dm : DM) (dda : DDA) (live : Bool)
    (hle : dm.nextStep ≤ dm.totalSteps) :
    let limit :=
      if dm.nextStep < dm.reverseStartStep ∧ dm.reverseStartStep ≤ dm.totalSteps
      then dm.reverseStartStep else dm.totalSteps
    let rc := CalcNextStepTimeCartesianFull cfg dm dda live
    let rd := CalcNextStepTimeDeltaFull cfg dm dda live
    (rc.dm.stepsTillRecalc ≠ 0 → dm.nextStep + rc.dm.stepsTillRecalc + 2 ≤ limit)
    ∧ (rd.dm.stepsTillRecalc ≠ 0 → dm.nextStep + rd.dm.stepsTillRecalc + 2 ≤ limit)
    ∧ (dm.nextStep + 1 = dm.reverseStartStep →
        cartShiftFactor cfg dm = 0 ∧ rc.dm.stepsTillRecalc = 0
        ∧ deltaShiftFactor cfg dm = 0 ∧ rd.dm.stepsTillRecalc = 0)
    ∧ (dm.nextStep = dm.reverseStartStep →
        cartShiftFactor cfg dm = 0 ∧ rc.dm.stepsTillRecalc = 0)
    ∧ (dm.nextStep < dm.reverseStartStep → dm.reverseStartStep ≤ dm.totalSteps →
        dm.nextStep + rc.dm.stepsTillRecalc + 1 ≤ dm.reverseStartStep
        ∧ dm.nextStep + rd.dm.stepsTillRecalc + 1 ≤ dm.reverseStartStep) := by
  dsimp only
  rw [cartFull_stepsTillRecalc, deltaFull_stepsTillRecalc]
  have hc := cart_batch cfg dm hle
  have hd := delta_batch cfg dm hle
  refine ⟨?_, ?_, ?_, ?_, ?_⟩
  · intro hne
    rcases hc with ⟨-, h0⟩ | hb
    · exact absurd h0 hne
    · split_ifs at hb ⊢ <;> omega
  · intro hne
    rcases hd with ⟨-, h0⟩ | hb
    · exact absurd h0 hne
    · exact hb
  · intro heq
    have h1 : cartShiftFactor cfg dm = 0 ∧ stepsTillRecalcOf (cartShiftFactor cfg dm) = 0 := by
      rcases hc with h | hb
      · exact h
      · split_ifs at hb <;> omega
    have h2 : deltaShiftFactor cfg dm = 0 ∧ stepsTillRecalcOf (deltaShiftFactor cfg dm) = 0 := by
      rcases hd with h | hb
      · exact h
      · split_ifs at hb <;> omega
    exact ⟨h1.1, h1.2, h2.1, h2.2⟩
  · intro heq
    rcases hc with h | hb
    · exact h
    · split_ifs at hb <;> omega
  · intro hlt hrev
    refine ⟨?_, ?_⟩
    · rcases hc with ⟨-, h0⟩ | hb
      · omega
      · split_ifs at hb <;> omega
    · rcases hd with ⟨-, h0⟩ | hb
      · omega
      · split_ifs at hb <;> omega

/-- C5 on the example record with a short previous interval: at step 1 of 8
(reversal at step 5 for the Delta record) a batch is chosen and stays two
steps before its limit, at step 4 the step is single. -/
theorem C5_batch_before_horizon_witness :
    ((CalcNextStepTimeCartesianFull exampleConfig (fastDM 1) exampleDDA true).dm.stepsTillRecalc = 3
      ∧ (CalcNextStepTimeDeltaFull exampleConfig (fastDeltaDM 1) exampleDDA true).dm.stepsTillRecalc = 1)
    ∧ ((fastDeltaDM 1).nextStep + 1 + 2 ≤ (fastDeltaDM 1).reverseStartStep)
    ∧ (deltaShiftFactor exampleConfig (fastDeltaDM 4) = 0) :=
  ⟨⟨by decide, by decide⟩,
   by
    have h := (C5_batch_before_horizon exampleConfig (fastDeltaDM 1) exampleDDA true
      (by decide)).2.1 (by decide)
    exact h,
   ((C5_batch_before_horizon exampleConfig (fastDeltaDM 4) exampleDDA true
      (by decide)).2.2.1 (by decide)).2.2.1⟩

/-- C6: in the last branch of `CalcNextStepTimeCartesianFull` (`nextCalcStep`
not below `accelStopStep`, `decelStartStep` and `reverseStartStep`),
`direction` is negated if and only if `nextCalcStep = reverseStartStep`;
`Platform::SetDirection` is called if and only if moreover `live` is set, once,
with the drive and the value of `direction` after the write; and the computed
`nextStepTime` is `b + isqrt(c·nextCalcStep − F)` modulo 2^32, the argument of
the root being the 64-bit difference of the source. The stored `nextStepTime`
is that value unless the late-step policy clamps it. -/
theorem C6_post_reverse_branch (cfg : Config) (dm : DM) (dda : DDA) (live : Bool)
    (h1 : dm.mp.cart.accelStopStep ≤ cartNextCalcStep cfg dm)
    (h2 : dm.mp.cart.decelStartStep ≤ cartNextCalcStep cfg dm)
    (h3 : dm.reverseStartStep ≤ cartNextCalcStep cfg dm) :
    let n := cartNextCalcStep cfg dm
    let c := dm.mp.cart.twoCsquaredTimesMmPerStepDivA
    let F := dm.mp.cart.fourMaxStepDistanceMinusTwoDistanceToStopTimesCsquaredDivA
    let b := toU32 ((dda.topSpeedTimesCdivAPlusDecelStartClocks : Int)
                      - dm.mp.cart.compensationClocks)
    let r := CalcNextStepTimeCartesianFull cfg dm dda live
    (r.dm.direction = (!dm.direction) ↔ n = dm.reverseStartStep)
    ∧ (r.dm.direction = dm.direction ↔ n ≠ dm.reverseStartStep)
    ∧ r.calls = (if n = dm.reverseStartStep ∧ live = true then [(dm.drive, r.dm.direction)]
                 else [])
    ∧ cartComputedTime cfg dm dda
        = toU32 ((b : Int) + isqrt64 (toU64 (((c * n : Nat) : Int) - F)))
    ∧ r.dm.nextStepTime =
        (if cartComputedTime cfg dm dda > dda.clocksNeeded ∧ u32 (dm.nextStep + 1) ≥ dm.totalSteps
         then dda.clocksNeeded else cartComputedTime cfg dm dda) := by
  intro n c F b r
  have e1 : ¬ n < dm.mp.cart.accelStopStep := Nat.not_lt.mpr h1
  have e2 : ¬ n < dm.mp.cart.decelStartStep := Nat.not_lt.mpr h2
  have e3 : ¬ n < dm.reverseStartStep := Nat.not_lt.mpr h3
  have hd : r.dm.direction = if n = dm.reverseStartStep then !dm.direction else dm.direction := by
    show (CalcNextStepTimeCartesianFull cfg dm dda live).dm.direction = _
    rw [cartFull_direction]
    show (cartPhase cfg dm dda live n).direction = _
    unfold cartPhase
    rw [if_neg e1, if_neg e2, if_neg e3]
  have hc : r.calls = if n = dm.reverseStartStep ∧ live = true
      then [(dm.drive, if n = dm.reverseStartStep then !dm.direction else dm.direction)]
      else [] := by
    show (CalcNextStepTimeCartesianFull cfg dm dda live).calls = _
    rw [cartFull_calls]
    show (cartPhase cfg dm dda live n).calls = _
    unfold cartPhase
    rw [if_neg e1, if_neg e2, if_neg e3]
  refine ⟨?_, ?_, ?_, ?_, cartFull_nextStepTime cfg dm dda live⟩
  · rw [hd]
    by_cases hn : n = dm.reverseStartStep
    · simp [hn]
    · simp [hn]
  · rw [hd]
    by_cases hn : n = dm.reverseStartStep
    · simp [hn]
    · simp [hn]
  · rw [hc, hd]
  · show (cartPhase cfg dm dda false n).nextStepTime = _
    unfold cartPhase
    rw [if_neg e1, if_neg e2, if_neg e3]
    simp only [subU32_eq, toU64_s64, toU64_s64_sub, toU64_u64_sub, u32_add_toU32]

/-- C6 at the reversal step 7 of the reversing example record. -/
theorem C6_post_reverse_branch_witness :
    (CalcNextStepTimeCartesianFull exampleConfig (reversingDM 7) exampleDDA true).dm.direction
        = false
    ∧ (CalcNextStepTimeCartesianFull exampleConfig (reversingDM 7) exampleDDA true).calls
        = [(0, false)]
    ∧ cartComputedTime exampleConfig (reversingDM 7) exampleDDA = 11449 :=
  ⟨((C6_post_reverse_branch exampleConfig (reversingDM 7) exampleDDA true
      (by decide) (by decide) (by decide)).1).2 (by decide),
   ((C6_post_reverse_branch exampleConfig (reversingDM 7) exampleDDA true
      (by decide) (by decide) (by decide)).2.2.1).trans (by decide),
   ((C6_post_reverse_branch exampleConfig (reversingDM 7) exampleDDA true
      (by decide) (by decide) (by decide)).2.2.2.1).trans (by decide)⟩

/-- C7, the claim refuted. First, after the late first step of the example
record the call ends in `StepError` and `stepInterval` is the diagnostic
value 10001414, not `(1414 − 0) >> 0`. Second, on one and the same record
(`nextStep = reverseStartStep = 5` of 8 steps, previous interval 5) and with
equal thresholds, the Cartesian routine selects shift 0 and the Delta routine
shift 1, so the two do not apply one table to one `stepsToLimit`. -/
theorem C7_shift_factor_counterexample :
    ((CalcNextStepTimeCartesianFull exampleConfig (exampleDM 1) veryLateDDA true).dm.stepInterval
        = 10001414
      ∧ subU32 (cartComputedTime exampleConfig (exampleDM 1) veryLateDDA)
            (exampleDM 1).nextStepTime >>> cartShiftFactor exampleConfig (exampleDM 1) = 1414)
    ∧ (exampleConfig.MinCalcIntervalCartesian = exampleConfig.MinCalcIntervalDelta
      ∧ (fastDeltaDM 5).nextStep = (fastDeltaDM 5).reverseStartStep
      ∧ (CalcNextStepTimeCartesianFull exampleConfig (fastDeltaDM 5) exampleDDA true).dm.stepsTillRecalc
          = 0
      ∧ (CalcNextStepTimeDeltaFull exampleConfig (fastDeltaDM 5) exampleDDA true).dm.stepsTillRecalc
          = 1) := by
  decide

/-- C7, amended: with `stepsToLimit = limit − nextStep` (32-bit), where `limit`
is `reverseStartStep` if `nextStep <= reverseStartStep <= totalSteps` for the
Cartesian routine, if `nextStep < reverseStartStep <= totalSteps` for the
Delta routine, and `totalSteps` otherwise, `CalcNextStepTimeCartesianFull`
sets `stepsTillRecalc = 2^shift − 1` with `shift` 3, 2, 1 or 0 by the table of
the claim, and `CalcNextStepTimeDeltaFull` uses the same table with
`MinCalcIntervalDelta` and the first tier `shift = 4`. Whenever the call
returns `true`, `stepInterval` after the call is
`((computed nextStepTime − previous nextStepTime) mod 2^32) >> shift`. -/
theorem C7_shift_factor_selection (cfg : Config) (dm : DM) (dda : DDA) (live : Bool) :
    let stepsToLimitC :=
      subU32 (if dm.nextStep ≤ dm.reverseStartStep ∧ dm.reverseStartStep ≤ dm.totalSteps
              then dm.reverseStartStep else dm.totalSteps) dm.nextStep
    let stepsToLimitD :=
      subU32 (if dm.nextStep < dm.reverseStartStep ∧ dm.reverseStartStep ≤ dm.totalSteps
              then dm.reverseStartStep else dm.totalSteps) dm.nextStep
    let shiftC :=
      if dm.stepInterval < cfg.MinCalcIntervalCartesian / 4 ∧ stepsToLimitC > 8 then 3
      else if dm.stepInterval < cfg.MinCalcIntervalCartesian / 2 ∧ stepsToLimitC > 4 then 2
      else if dm.stepInterval < cfg.MinCalcIntervalCartesian ∧ stepsToLimitC > 2 then 1
      else 0
    let shiftD :=
      if dm.stepInterval < cfg.MinCalcIntervalDelta / 8 ∧ stepsToLimitD > 16 then 4
      else if dm.stepInterval < cfg.MinCalcIntervalDelta / 4 ∧ stepsToLimitD > 8 then 3
      else if dm.stepInterval < cfg.MinCalcIntervalDelta / 2 ∧ stepsToLimitD > 4 then 2
      else if dm.stepInterval < cfg.MinCalcIntervalDelta ∧ stepsToLimitD > 2 then 1
      else 0
    let rc := CalcNextStepTimeCartesianFull cfg dm dda live
    let rd := CalcNextStepTimeDeltaFull cfg dm dda live
    rc.dm.stepsTillRecalc = 2 ^ shiftC - 1
    ∧ rd.dm.stepsTillRecalc = 2 ^ shiftD - 1
    ∧ (rc.ret = true →
        rc.dm.stepInterval = subU32 (cartComputedTime cfg dm dda) dm.nextStepTime >>> shiftC)
    ∧ (rd.ret = true →
        rd.dm.stepInterval = subU32 (deltaComputedTime cfg dm dda) dm.nextStepTime >>> shiftD) := by
  intro stepsToLimitC stepsToLimitD shiftC shiftD rc rd
  have hC : cartShiftFactor cfg dm = shiftC := by
    unfold cartShiftFactor
    simp only [shiftC, stepsToLimitC]
    split_ifs <;> first | rfl | omega
  have hD : deltaShiftFactor cfg dm = shiftD := by
    unfold deltaShiftFactor
    simp only [shiftD, stepsToLimitD]
    split_ifs <;> first | rfl | omega
  have hC4 : shiftC ≤ 4 := by simp only [shiftC]; split_ifs <;> omega
  have hD4 : shiftD ≤ 4 := by simp only [shiftD]; split_ifs <;> omega
  refine ⟨?_, ?_, ?_, ?_⟩
  · show (CalcNextStepTimeCartesianFull cfg dm dda live).dm.stepsTillRecalc = _
    rw [cartFull_stepsTillRecalc, hC]
    exact stepsTillRecalcOf_eq shiftC hC4
  · show (CalcNextStepTimeDeltaFull cfg dm dda live).dm.stepsTillRecalc = _
    rw [deltaFull_stepsTillRecalc, hD]
    exact stepsTillRecalcOf_eq shiftD hD4
  · show (CalcNextStepTimeCartesianFull cfg dm dda live).ret = true →
      (CalcNextStepTimeCartesianFull cfg dm dda live).dm.stepInterval = _
    rw [cartFull_ret, cartFull_stepInterval, hC]
    intro h
    split_ifs at h ⊢
    rfl
  · show (CalcNextStepTimeDeltaFull cfg dm dda live).ret = true →
      (CalcNextStepTimeDeltaFull cfg dm dda live).dm.stepInterval = _
    rw [deltaFull_ret, deltaFull_stepInterval, hD]
    intro h
    split_ifs at h ⊢
    rfl

/-- C7 amended, on the example records after a short interval: both calls
return `true` and store the interval of the batch. -/
theorem C7_shift_factor_selection_witness :
    (CalcNextStepTimeCartesianFull exampleConfig (fastDM 1) exampleDDA true).dm.stepInterval
        = 1125
    ∧ (CalcNextStepTimeDeltaFull exampleConfig (fastDeltaDM 1) exampleDDA true).dm.stepInterval
        = 1250 :=
  ⟨((C7_shift_factor_selection exampleConfig (fastDM 1) exampleDDA true).2.2.1
      (by decide)).trans (by decide),
   ((C7_shift_factor_selection exampleConfig (fastDeltaDM 1) exampleDDA true).2.2.2
      (by decide)).trans (by decide)⟩

/-- C8: in `CalcNextStepTimeDeltaFull`, with `hmz0scK` the 64-bit quotient
`(hmz0sK·cKc)/Kc` truncated to 32 bits, `t1 = minusAaPlusBbTimesKs + hmz0scK`,
`t2a = dSquaredMinusAsquaredMinusBsquaredTimesKsquaredSsquared − hmz0sK² + t1²`,
`t2 = isqrt(t2a)` if `t2a > 0` and `0` otherwise, and `dsK = t1 − t2` if
`direction` else `t1 + t2` (`hmz0sK` and `direction` as updated by this call,
`int32_t` / `int64_t` arithmetic), the call returns `false` with
`state = stepError` and `nextStep` increased by 1_000_000 (a 32-bit counter,
so exactly 1_000_000 unless it wraps) if and only if `dsK < 0`; in that case
`nextStepTime` and `stepInterval` are left unchanged. -/
theorem C8_delta_geometry_error (cfg : Config) (dm : DM) (dda : DDA) (live : Bool) :
    let r := CalcNextStepTimeDeltaFull cfg dm dda live
    let h := r.dm.mp.delta.hmz0sK
    let hmz0scK := s32 (Int.tdiv (s64 (h * dda.cKc)) cfg.Kc)
    let t1 := s32 (dm.mp.delta.minusAaPlusBbTimesKs + hmz0scK)
    let t2a :=
      s64 (dm.mp.delta.dSquaredMinusAsquaredMinusBsquaredTimesKsquaredSsquared - h * h + t1 * t1)
    let t2 : Int := if t2a > 0 then s32 (isqrt64 (toU64 t2a) : Nat) else 0
    let dsK := if r.dm.direction then s32 (t1 - t2) else s32 (t1 + t2)
    deltaDsK cfg dm dda = dsK
    ∧ ((r.ret = false ∧ r.dm.state = DMState.stepError
          ∧ r.dm.nextStep = u32 (dm.nextStep + 1000000)) ↔ dsK < 0)
    ∧ (dsK < 0 → r.dm.nextStepTime = dm.nextStepTime ∧ r.dm.stepInterval = dm.stepInterval)
    ∧ (dsK < 0 → dm.nextStep + 1000000 < 4294967296 →
        r.dm.nextStep = dm.nextStep + 1000000) := by
  intro r h hmz0scK t1 t2a t2 dsK
  have hh : h = deltaHmz0sK cfg dm := deltaFull_hmz0sK cfg dm dda live
  have hdir : r.dm.direction = deltaDirection dm := deltaFull_direction cfg dm dda live
  have hds : deltaDsK cfg dm dda = dsK := by
    simp only [dsK, t2, t2a, t1, hmz0scK, hh, hdir]
    unfold deltaDsK
    simp only [s64_isquare64, s64_sub_s64, s64_add_s64]
  refine ⟨hds, ?_, ?_, ?_⟩
  · rw [← hds]
    show ((CalcNextStepTimeDeltaFull cfg dm dda live).ret = false
      ∧ (CalcNextStepTimeDeltaFull cfg dm dda live).dm.state = DMState.stepError
      ∧ (CalcNextStepTimeDeltaFull cfg dm dda live).dm.nextStep = u32 (dm.nextStep + 1000000)) ↔ _
    rw [deltaFull_ret, deltaFull_state, deltaFull_nextStep]
    by_cases hneg : deltaDsK cfg dm dda < 0
    · simp only [hneg, if_true, and_self]
    · simp only [hneg, if_false, iff_false, not_and]
      intro _ _
      unfold u32
      omega
  · rw [← hds]
    intro hneg
    show (CalcNextStepTimeDeltaFull cfg dm dda live).dm.nextStepTime = _
      ∧ (CalcNextStepTimeDeltaFull cfg dm dda live).dm.stepInterval = _
    rw [deltaFull_nextStepTime, deltaFull_stepInterval, if_pos hneg, if_pos hneg]
    exact ⟨rfl, rfl⟩
  · rw [← hds]
    intro hneg hlt
    show (CalcNextStepTimeDeltaFull cfg dm dda live).dm.nextStep = _
    rw [deltaFull_nextStep, if_pos hneg]
    unfold u32
    omega

/-- C8 on the example Delta record whose tower equation has no solution
(`dsK = −398718`). -/
theorem C8_delta_geometry_error_witness :
    deltaDsK exampleConfig (badDeltaDM 1) exampleDDA = -398718
    ∧ ((CalcNextStepTimeDeltaFull exampleConfig (badDeltaDM 1) exampleDDA true).dm.nextStepTime = 0
      ∧ (CalcNextStepTimeDeltaFull exampleConfig (badDeltaDM 1) exampleDDA true).dm.stepInterval
          = 1000)
    ∧ (CalcNextStepTimeDeltaFull exampleConfig (badDeltaDM 1) exampleDDA true).dm.nextStep
        = 1000001 :=
  ⟨by decide,
   (C8_delta_geometry_error exampleConfig (badDeltaDM 1) exampleDDA true).2.2.1 (by decide),
   (C8_delta_geometry_error exampleConfig (badDeltaDM 1) exampleDDA true).2.2.2 (by decide)
      (by decide)⟩

/-- C9: every call of `CalcNextStepTimeDeltaFull` first sets `direction` to
`false` exactly when `nextStep = reverseStartStep` and leaves it unchanged
otherwise, then adds `+K2·(stepsTillRecalc + 1)` to `hmz0sK` if the updated
direction is forward and `−K2·(stepsTillRecalc + 1)` if it is reverse, where
`stepsTillRecalc = 2^shiftFactor − 1` is the value stored by this call. The
addition is an `int32_t` addition: the new `hmz0sK` is that sum in 32-bit
two's complement, hence exactly that sum whenever the sum is representable.
Nothing here depends on how the call ends. -/
theorem C9_delta_height_counter (cfg : Config) (dm : DM) (dda : DDA) (live : Bool) :
    let r := CalcNextStepTimeDeltaFull cfg dm dda live
    let step : Int := ((cfg.K2 * (r.dm.stepsTillRecalc + 1) : Nat) : Int)
    r.dm.direction = (if dm.nextStep = dm.reverseStartStep then false else dm.direction)
    ∧ r.dm.stepsTillRecalc = 2 ^ deltaShiftFactor cfg dm - 1
    ∧ r.dm.mp.delta.hmz0sK
        = s32 (dm.mp.delta.hmz0sK + (if r.dm.direction then (1 : Int) else -1) * step)
    ∧ (r.dm.direction = true →
        -2147483648 ≤ dm.mp.delta.hmz0sK + step → dm.mp.delta.hmz0sK + step < 2147483648 →
        r.dm.mp.delta.hmz0sK = dm.mp.delta.hmz0sK + step)
    ∧ (r.dm.direction = false →
        -2147483648 ≤ dm.mp.delta.hmz0sK - step → dm.mp.delta.hmz0sK - step < 2147483648 →
        r.dm.mp.delta.hmz0sK = dm.mp.delta.hmz0sK - step) := by
  intro r step
  have hdir : r.dm.direction = deltaDirection dm := deltaFull_direction cfg dm dda live
  have hstc : r.dm.stepsTillRecalc = stepsTillRecalcOf (deltaShiftFactor cfg dm) :=
    deltaFull_stepsTillRecalc cfg dm dda live
  have hh : r.dm.mp.delta.hmz0sK
      = s32 (dm.mp.delta.hmz0sK + (if r.dm.direction then (1 : Int) else -1) * step) := by
    show (CalcNextStepTimeDeltaFull cfg dm dda live).dm.mp.delta.hmz0sK = _
    rw [deltaFull_hmz0sK, deltaHmz0sK_eq]
    simp only [step, hdir, hstc]
  refine ⟨hdir, ?_, hh, ?_, ?_⟩
  · rw [hstc]
    exact stepsTillRecalcOf_eq _ (deltaShiftFactor_le cfg dm)
  · intro hd h1 h2
    rw [hh, hd]
    simp only [if_true, one_mul]
    exact s32_of_range _ h1 h2
  · intro hd h1 h2
    rw [hh, hd]
    have e : dm.mp.delta.hmz0sK + (if false = true then (1 : Int) else -1) * step
        = dm.mp.delta.hmz0sK - step := by
      simp only [Bool.false_eq_true, if_false]
      ring
    rw [e]
    exact s32_of_range _ h1 h2

/-- C9 on the example Delta record: one step up from 100000 at step 1, one
step down at the reversal step 5. -/
theorem C9_delta_height_counter_witness :
    (CalcNextStepTimeDeltaFull exampleConfig (exampleDeltaDM 1) exampleDDA true).dm.mp.delta.hmz0sK
        = 100512
    ∧ (CalcNextStepTimeDeltaFull exampleConfig (exampleDeltaDM 5) exampleDDA true).dm.mp.delta.hmz0sK
        = 99488 :=
  ⟨((C9_delta_height_counter exampleConfig (exampleDeltaDM 1) exampleDDA true).2.2.2.1
      (by decide) (by decide) (by decide)).trans (by decide),
   ((C9_delta_height_counter exampleConfig (exampleDeltaDM 5) exampleDDA true).2.2.2.2
      (by decide) (by decide) (by decide)).trans (by decide)⟩

/-- C10: for every call of `CalcNextStepTimeDeltaFull` with `dsK >= 0` whose
computed `nextStepTime` exceeds `dda.clocksNeeded`: if `nextStep + 1 >=
totalSteps` (32-bit sum; one of the last two steps) then `nextStepTime` is
clamped to `clocksNeeded` and the call returns `true` with `state` unchanged;
otherwise `state` becomes `stepError`, `stepInterval` is
`10_000_000 + nextStepTime` modulo 2^32 and the call returns `false`. -/
theorem C10_delta_late_step_policy (cfg : Config) (dm : DM) (dda : DDA) (live : Bool)
    (hds : 0 ≤ deltaDsK cfg dm dda)
    (hlate : deltaComputedTime cfg dm dda > dda.clocksNeeded) :
    let r := CalcNextStepTimeDeltaFull cfg dm dda live
    (u32 (dm.nextStep + 1) ≥ dm.totalSteps →
        r.dm.nextStepTime = dda.clocksNeeded ∧ r.ret = true ∧ r.dm.state = dm.state)
    ∧ (¬ u32 (dm.nextStep + 1) ≥ dm.totalSteps →
        r.dm.state = DMState.stepError
        ∧ r.dm.stepInterval = u32 (10000000 + deltaComputedTime cfg dm dda)
        ∧ r.ret = false)
    ∧ (dm.nextStep < 4294967295 →
        (u32 (dm.nextStep + 1) ≥ dm.totalSteps ↔ dm.nextStep + 1 ≥ dm.totalSteps)) := by
  intro r
  have hn : ¬ deltaDsK cfg dm dda < 0 := not_lt.mpr hds
  refine ⟨?_, ?_, ?_⟩
  · intro h
    refine ⟨?_, ?_, ?_⟩
    · show (CalcNextStepTimeDeltaFull cfg dm dda live).dm.nextStepTime = _
      rw [deltaFull_nextStepTime, if_neg hn, if_pos ⟨hlate, h⟩]
    · show (CalcNextStepTimeDeltaFull cfg dm dda live).ret = _
      rw [deltaFull_ret, if_neg hn, if_neg (fun hh => hh.2 h)]
    · show (CalcNextStepTimeDeltaFull cfg dm dda live).dm.state = _
      rw [deltaFull_state, if_neg hn, if_neg (fun hh => hh.2 h)]
  · intro h
    refine ⟨?_, ?_, ?_⟩
    · show (CalcNextStepTimeDeltaFull cfg dm dda live).dm.state = _
      rw [deltaFull_state, if_neg hn, if_pos ⟨hlate, h⟩]
    · show (CalcNextStepTimeDeltaFull cfg dm dda live).dm.stepInterval = _
      rw [deltaFull_stepInterval, if_neg hn, if_pos ⟨hlate, h⟩]
    · show (CalcNextStepTimeDeltaFull cfg dm dda live).ret = _
      rw [deltaFull_ret, if_neg hn, if_pos ⟨hlate, h⟩]
  · intro h
    unfold u32
    omega

/-- C10 on the example Delta record: the late step 7 of 8 is clamped, the
late step 1 ends in a step error. -/
theorem C10_delta_late_step_policy_witness :
    ((CalcNextStepTimeDeltaFull exampleConfig (exampleDeltaDM 7) veryLateDDA true).dm.nextStepTime
        = 1000
      ∧ (CalcNextStepTimeDeltaFull exampleConfig (exampleDeltaDM 7) veryLateDDA true).ret = true
      ∧ (CalcNextStepTimeDeltaFull exampleConfig (exampleDeltaDM 7) veryLateDDA true).dm.state
        = DMState.moving)
    ∧ ((CalcNextStepTimeDeltaFull exampleConfig (exampleDeltaDM 1) veryLateDDA true).dm.state
        = DMState.stepError
      ∧ (CalcNextStepTimeDeltaFull exampleConfig (exampleDeltaDM 1) veryLateDDA true).dm.stepInterval
        = 10001414
      ∧ (CalcNextStepTimeDeltaFull exampleConfig (exampleDeltaDM 1) veryLateDDA true).ret = false) :=
  ⟨(C10_delta_late_step_policy exampleConfig (exampleDeltaDM 7) veryLateDDA true
      (by decide) (by decide)).1 (by decide),
   (C10_delta_late_step_policy exampleConfig (exampleDeltaDM 1) veryLateDDA true
      (by decide) (by decide)).2.1 (by decide)⟩

/-- The Delta recurrence changes only `hmz0sK` among the Delta constants. -/
theorem deltaFull_frame (cfg : Config) (dm : DM) (dda : DDA) (live : Bool) :
    (CalcNextStepTimeDeltaFull cfg dm dda live).dm.mp.delta.accelStopDsK
        = dm.mp.delta.accelStopDsK
    ∧ (CalcNextStepTimeDeltaFull cfg dm dda live).dm.mp.delta.decelStartDsK
        = dm.mp.delta.decelStartDsK
    ∧ (CalcNextStepTimeDeltaFull cfg dm dda live).dm.mp.delta.mmPerStepTimesCKdivtopSpeed
        = dm.mp.delta.mmPerStepTimesCKdivtopSpeed
    ∧ (CalcNextStepTimeDeltaFull cfg dm dda live).dm.totalSteps = dm.totalSteps
    ∧ (CalcNextStepTimeDeltaFull cfg dm dda live).dm.reverseStartStep = dm.reverseStartStep := by
  unfold CalcNextStepTimeDeltaFull
  simp only
  split_ifs <;> exact ⟨rfl, rfl, rfl, rfl, rfl⟩

/-! ## Runs of the Delta recurrence -/

theorem s32_s32_add (x y : Int) : s32 (s32 x + y) = s32 (x + y) := by
  unfold s32; omega

/-- A call of the Delta recurrence that returns `true` leaves `nextStep`
alone. -/
theorem deltaFull_nextStep_of_ret (cfg : Config) (dm : DM) (dda : DDA) (live : Bool)
    (hret : (CalcNextStepTimeDeltaFull cfg dm dda live).ret = true) :
    (CalcNextStepTimeDeltaFull cfg dm dda live).dm.nextStep = dm.nextStep := by
  rw [deltaFull_ret] at hret
  rw [deltaFull_nextStep]
  split_ifs at hret ⊢
  rfl

/-- The height counter after one more batch of pulses in one direction. -/
theorem hmz0sK_advance (h0 : Int) (a b K k : Nat) (sigma : Int) :
    s32 (s32 (h0 + ((a : Int) - (b : Int)) * (K : Int)) + sigma * ((K * (k + 1) : Nat) : Int))
      = s32 (h0 + ((a : Int) - (b : Int) + sigma * ((k : Int) + 1)) * (K : Int)) := by
  rw [s32_s32_add]
  congr 1
  push_cast
  ring

/-- One call that returns `true`, followed by the advance of the cursor,
keeps the invariant of the run and moves the cursor on. -/
theorem deltaRunInv_step (cfg : Config) (dda : DDA) (live : Bool) (dm0 dm : DM) (t : DeltaTally)
    (hR1 : 1 ≤ dm0.reverseStartStep) (hR2 : dm0.reverseStartStep ≤ dm0.totalSteps)
    (hT : dm0.totalSteps < 4294967295)
    (hinv : DeltaRunInv cfg dm0 dm t)
    (hle : dm.nextStep ≤ dm.totalSteps)
    (hret : (CalcNextStepTimeDeltaFull cfg dm dda live).ret = true) :
    DeltaRunInv cfg dm0 (deltaAdvance (CalcNextStepTimeDeltaFull cfg dm dda live).dm)
        (deltaTallyStep dm (CalcNextStepTimeDeltaFull cfg dm dda live).dm t)
    ∧ dm.nextStep < (deltaAdvance (CalcNextStepTimeDeltaFull cfg dm dda live).dm).nextStep := by
  obtain ⟨htot, hrev, h1, h2, hdir, hfw, hsum, hch, hh⟩ := hinv
  have hns := deltaFull_nextStep_of_ret cfg dm dda live hret
  have hk := deltaFull_stepsTillRecalc cfg dm dda live
  have hd := deltaFull_direction cfg dm dda live
  have hz := deltaFull_hmz0sK cfg dm dda live
  obtain ⟨-, -, -, ftot, frev⟩ := deltaFull_frame cfg dm dda live
  have hb := delta_batch cfg dm hle
  rw [hrev, htot] at hb
  rw [htot] at hle
  rw [deltaHmz0sK_eq] at hz
  generalize stepsTillRecalcOf (deltaShiftFactor cfg dm) = k at hk hb hz
  -- the fields of the record after the call and the advance
  have an : (deltaAdvance (CalcNextStepTimeDeltaFull cfg dm dda live).dm).nextStep
      = dm.nextStep + k + 1 := by
    show u32 ((CalcNextStepTimeDeltaFull cfg dm dda live).dm.nextStep
        + (CalcNextStepTimeDeltaFull cfg dm dda live).dm.stepsTillRecalc + 1) = _
    rw [hns, hk]
    have : dm.nextStep + k + 1 < 4294967296 := by
      rcases hb with ⟨-, hk0⟩ | hb
      · omega
      · split_ifs at hb <;> omega
    unfold u32; omega
  have ad : (deltaAdvance (CalcNextStepTimeDeltaFull cfg dm dda live).dm).direction
      = deltaDirection dm := hd
  have atot : (deltaAdvance (CalcNextStepTimeDeltaFull cfg dm dda live).dm).totalSteps
      = dm0.totalSteps := ftot.trans htot
  have arev : (deltaAdvance (CalcNextStepTimeDeltaFull cfg dm dda live).dm).reverseStartStep
      = dm0.reverseStartStep := frev.trans hrev
  have az : (deltaAdvance (CalcNextStepTimeDeltaFull cfg dm dda live).dm).mp.delta.hmz0sK
      = s32 (dm.mp.delta.hmz0sK
          + (if deltaDirection dm then (1 : Int) else -1) * ((cfg.K2 * (k + 1) : Nat) : Int)) := hz
  have tf : (deltaTallyStep dm (CalcNextStepTimeDeltaFull cfg dm dda live).dm t).forward
      = if deltaDirection dm then t.forward + (k + 1) else t.forward := by
    show (if (CalcNextStepTimeDeltaFull cfg dm dda live).dm.direction then
        t.forward + ((CalcNextStepTimeDeltaFull cfg dm dda live).dm.stepsTillRecalc + 1)
        else t.forward) = _
    rw [hd, hk]
  have tr : (deltaTallyStep dm (CalcNextStepTimeDeltaFull cfg dm dda live).dm t).reverse
      = if deltaDirection dm then t.reverse else t.reverse + (k + 1) := by
    show (if (CalcNextStepTimeDeltaFull cfg dm dda live).dm.direction then t.reverse
        else t.reverse + ((CalcNextStepTimeDeltaFull cfg dm dda live).dm.stepsTillRecalc + 1))
      = _
    rw [hd, hk]
  have tc : (deltaTallyStep dm (CalcNextStepTimeDeltaFull cfg dm dda live).dm t).changes
      = if deltaDirection dm = dm.direction then t.changes else t.changes + 1 := by
    show (if (CalcNextStepTimeDeltaFull cfg dm dda live).dm.direction = dm.direction then
        t.changes else t.changes + 1) = _
    rw [hd]
  have hnT : dm.nextStep + k + 1 ≤ dm0.totalSteps + 1 := by
    rcases hb with ⟨-, hk0⟩ | hb
    · omega
    · split_ifs at hb <;> omega
  rcases Nat.lt_trichotomy dm.nextStep dm0.reverseStartStep with hlt | heq | hgt
  · -- before the reversal
    have hle0 : dm.nextStep ≤ dm0.reverseStartStep := by omega
    have hdm : dm.direction = true := hdir.mpr hle0
    have hdd : deltaDirection dm = true := by
      unfold deltaDirection
      rw [hrev, if_neg (by omega)]
      exact hdm
    have hnew : dm.nextStep + k + 1 ≤ dm0.reverseStartStep := by
      rcases hb with ⟨-, hk0⟩ | hb
      · omega
      · rw [if_pos ⟨hlt, hR2⟩] at hb; omega
    rw [if_pos hle0] at hfw hch
    refine ⟨⟨atot, arev, ?_, ?_, ?_, ?_, ?_, ?_, ?_⟩, by rw [an]; omega⟩
    · rw [an]; omega
    · rw [an]; exact hnT
    · rw [ad, hdd, an]; simp only [true_iff]; exact hnew
    · rw [tf, hdd, an, if_pos hnew]; simp only [if_true]; omega
    · rw [tf, tr, hdd, an]; simp only [if_true]; omega
    · rw [tc, hdd, hdm, an, if_pos hnew]; simp only [if_true]; exact hch
    · rw [az, hh, hmz0sK_advance, tf, tr, hdd]
      simp only [if_true]
      congr 2
      push_cast
      ring
  · -- the call that reverses
    have hle0 : dm.nextStep ≤ dm0.reverseStartStep := by omega
    have hdm : dm.direction = true := hdir.mpr hle0
    have hdd : deltaDirection dm = false := by
      unfold deltaDirection
      rw [hrev, if_pos heq]
    have hnew : ¬ dm.nextStep + k + 1 ≤ dm0.reverseStartStep := by omega
    rw [if_pos hle0] at hfw hch
    refine ⟨⟨atot, arev, ?_, ?_, ?_, ?_, ?_, ?_, ?_⟩, by rw [an]; omega⟩
    · rw [an]; omega
    · rw [an]; exact hnT
    · rw [ad, hdd, an]; simp only [Bool.false_eq_true, false_iff]; exact hnew
    · rw [tf, hdd, an, if_neg hnew]; simp only [Bool.false_eq_true, if_false]; omega
    · rw [tf, tr, hdd, an]; simp only [Bool.false_eq_true, if_false]; omega
    · rw [tc, hdd, hdm, an, if_neg hnew]; simp only [Bool.false_eq_true, if_false]; omega
    · rw [az, hh, hmz0sK_advance, tf, tr, hdd]
      simp only [Bool.false_eq_true, if_false]
      congr 2
      push_cast
      ring
  · -- after the reversal
    have hle0 : ¬ dm.nextStep ≤ dm0.reverseStartStep := by omega
    have hdm : dm.direction = false := by
      cases hc : dm.direction
      · rfl
      · exact absurd (hdir.mp hc) hle0
    have hdd : deltaDirection dm = false := by
      unfold deltaDirection
      rw [hrev, if_neg (by omega), hdm]
    have hnew : ¬ dm.nextStep + k + 1 ≤ dm0.reverseStartStep := by omega
    rw [if_neg hle0] at hfw hch
    refine ⟨⟨atot, arev, ?_, ?_, ?_, ?_, ?_, ?_, ?_⟩, by rw [an]; omega⟩
    · rw [an]; omega
    · rw [an]; exact hnT
    · rw [ad, hdd, an]; simp only [Bool.false_eq_true, false_iff]; exact hnew
    · rw [tf, hdd, an, if_neg hnew]; simp only [Bool.false_eq_true, if_false]; exact hfw
    · rw [tf, tr, hdd, an]; simp only [Bool.false_eq_true, if_false]; omega
    · rw [tc, hdd, hdm, an, if_neg hnew]; simp only [if_true]; exact hch
    · rw [az, hh, hmz0sK_advance, tf, tr, hdd]
      simp only [Bool.false_eq_true, if_false]
      congr 2
      push_cast
      ring

/-- A run of the Delta recurrence with enough fuel for the steps that remain
ends, and when it completes the invariant holds with the cursor just past
the last step. -/
theorem deltaRun_spec (cfg : Config) (dda : DDA) (live : Bool) (dm0 : DM)
    (hR1 : 1 ≤ dm0.reverseStartStep) (hR2 : dm0.reverseStartStep ≤ dm0.totalSteps)
    (hT : dm0.totalSteps < 4294967295) :
    ∀ (fuel : Nat) (dm : DM) (t : DeltaTally), DeltaRunInv cfg dm0 dm t →
      dm0.totalSteps + 1 ≤ dm.nextStep + fuel →
      deltaRun cfg dda live fuel dm t ≠ RunOutcome.outOfFuel
      ∧ ∀ dmF tF, deltaRun cfg dda live fuel dm t = RunOutcome.completed dmF tF →
          DeltaRunInv cfg dm0 dmF tF ∧ dmF.nextStep = dm0.totalSteps + 1 := by
  intro fuel
  induction fuel with
  | zero =>
    intro dm t hinv hfuel
    have hgt : dm.nextStep > dm.totalSteps := by rw [hinv.1]; omega
    have hrun : deltaRun cfg dda live 0 dm t = RunOutcome.completed dm t := by
      unfold deltaRun; rw [if_pos hgt]
    rw [hrun]
    refine ⟨(by intro h; cases h), ?_⟩
    intro dmF tF h
    cases h
    exact ⟨hinv, by have := hinv.2.2.2.1; omega⟩
  | succ f ih =>
    intro dm t hinv hfuel
    by_cases hgt : dm.nextStep > dm.totalSteps
    · have hrun : deltaRun cfg dda live (f + 1) dm t = RunOutcome.completed dm t := by
        unfold deltaRun; rw [if_pos hgt]
      rw [hrun]
      refine ⟨(by intro h; cases h), ?_⟩
      intro dmF tF h
      cases h
      exact ⟨hinv, by have := hinv.2.2.2.1; have := hinv.1; omega⟩
    · by_cases hret : (CalcNextStepTimeDeltaFull cfg dm dda live).ret = true
      · have hrun : deltaRun cfg dda live (f + 1) dm t
            = deltaRun cfg dda live f
                (deltaAdvance (CalcNextStepTimeDeltaFull cfg dm dda live).dm)
                (deltaTallyStep dm (CalcNextStepTimeDeltaFull cfg dm dda live).dm t) := by
          conv_lhs => unfold deltaRun
          rw [if_neg hgt, if_pos hret]
        rw [hrun]
        obtain ⟨hinv2, hlt⟩ :=
          deltaRunInv_step cfg dda live dm0 dm t hR1 hR2 hT hinv (not_lt.mp hgt) hret
        exact ih _ _ hinv2 (by omega)
      · have hrun : deltaRun cfg dda live (f + 1) dm t
            = RunOutcome.stepError (CalcNextStepTimeDeltaFull cfg dm dda live).dm := by
          conv_lhs => unfold deltaRun
          rw [if_neg hgt, if_neg hret]
        rw [hrun]
        exact ⟨(by intro h; cases h), (by intro dmF tF h; cases h)⟩

/-- C11 as the claim words it fails on the Delta record of 8 steps that
reverses at step 7: the run completes with 6 pulses forward, 2 in reverse and
one change of direction, and the height counter ends `(2·6 − 8)·512 = 2048`
above its initial value, where the claim has `(8 − 2·6)·512 = −2048`. -/
theorem C11_height_counter_counterexample :
    (lateReversalDeltaDM 1).direction = true
    ∧ (lateReversalDeltaDM 1).nextStep = 1
    ∧ (lateReversalDeltaDM 1).reverseStartStep = 7
    ∧ (lateReversalDeltaDM 1).totalSteps = 8
    ∧ (lateReversalDeltaDM 1).mp.delta.hmz0sK = 100000
    ∧ runSummary (deltaRun exampleConfig longDDA true 8 (lateReversalDeltaDM 1) ⟨0, 0, 0⟩)
        = some (102048, ⟨6, 2, 1⟩)
    ∧ (102048 : Int) - (lateReversalDeltaDM 1).mp.delta.hmz0sK
        ≠ (((lateReversalDeltaDM 1).totalSteps : Int)
            - 2 * (((lateReversalDeltaDM 1).reverseStartStep : Int) - 1))
          * (exampleConfig.K2 : Int) := by
  decide

/-- C11 (P3), amended: a Delta record with forward initial direction and
`1 ≤ reverseStartStep ≤ totalSteps`, stepped from `nextStep = 1` with at least
`totalSteps` calls allowed, ends its run (completed, or stopped by a step
error); and when the run completes, exactly `reverseStartStep − 1` pulses were
covered while `direction` was forward and `totalSteps − (reverseStartStep − 1)`
while it was reverse, `direction` changed exactly once, and `hmz0sK` is the
32-bit sum of its initial value and
`(2·(reverseStartStep − 1) − totalSteps)·K2`, exactly that sum when it fits an
`int32_t`. -/
theorem C11_delta_run_with_reversal (cfg : Config) (dda : DDA) (live : Bool) (dm : DM)
    (fuel : Nat)
    (hdir : dm.direction = true) (hnext : dm.nextStep = 1)
    (hR1 : 1 ≤ dm.reverseStartStep) (hR2 : dm.reverseStartStep ≤ dm.totalSteps)
    (hT : dm.totalSteps < 4294967295)
    (hh : -2147483648 ≤ dm.mp.delta.hmz0sK ∧ dm.mp.delta.hmz0sK < 2147483648)
    (hfuel : dm.totalSteps ≤ fuel) :
    deltaRun cfg dda live fuel dm ⟨0, 0, 0⟩ ≠ RunOutcome.outOfFuel
    ∧ ∀ dmF tF, deltaRun cfg dda live fuel dm ⟨0, 0, 0⟩ = RunOutcome.completed dmF tF →
        tF.forward = dm.reverseStartStep - 1
        ∧ tF.reverse = dm.totalSteps - (dm.reverseStartStep - 1)
        ∧ tF.changes = 1
        ∧ dmF.direction = false
        ∧ dmF.nextStep = dm.totalSteps + 1
        ∧ dmF.mp.delta.hmz0sK
            = s32 (dm.mp.delta.hmz0sK
                + (2 * ((dm.reverseStartStep : Int) - 1) - (dm.totalSteps : Int)) * (cfg.K2 : Int))
        ∧ (-2147483648 ≤ dm.mp.delta.hmz0sK
              + (2 * ((dm.reverseStartStep : Int) - 1) - (dm.totalSteps : Int)) * (cfg.K2 : Int) →
            dm.mp.delta.hmz0sK
              + (2 * ((dm.reverseStartStep : Int) - 1) - (dm.totalSteps : Int)) * (cfg.K2 : Int)
              < 2147483648 →
            dmF.mp.delta.hmz0sK - dm.mp.delta.hmz0sK
              = (2 * ((dm.reverseStartStep : Int) - 1) - (dm.totalSteps : Int))
                * (cfg.K2 : Int)) := by
  have hinv0 : DeltaRunInv cfg dm dm ⟨0, 0, 0⟩ := by
    refine ⟨rfl, rfl, by omega, by omega, ?_, ?_, ?_, ?_, ?_⟩
    · rw [hnext]; exact ⟨fun _ => hR1, fun _ => hdir⟩
    · rw [hnext, if_pos hR1]
    · show (0 : Nat) + 0 = dm.nextStep - 1
      rw [hnext]
    · rw [hnext, if_pos hR1]
    · show dm.mp.delta.hmz0sK = s32 (dm.mp.delta.hmz0sK + (((0 : Nat) : Int) - ((0 : Nat) : Int)) * _)
      rw [sub_self, zero_mul, add_zero, s32_of_range _ hh.1 hh.2]
  obtain ⟨hne, hfin⟩ := deltaRun_spec cfg dda live dm hR1 hR2 hT fuel dm ⟨0, 0, 0⟩ hinv0
    (by omega)
  refine ⟨hne, ?_⟩
  intro dmF tF hrun
  obtain ⟨⟨-, -, -, -, hd, hfw, hsum, hch, hz⟩, hn⟩ := hfin dmF tF hrun
  have hgt : ¬ dmF.nextStep ≤ dm.reverseStartStep := by omega
  rw [if_neg hgt] at hfw hch
  have hrv : tF.reverse = dm.totalSteps - (dm.reverseStartStep - 1) := by omega
  have hfd : dmF.direction = false := by
    cases hc : dmF.direction
    · rfl
    · exact absurd (hd.mp hc) hgt
  have hcoef : ((tF.forward : Int) - (tF.reverse : Int))
      = 2 * ((dm.reverseStartStep : Int) - 1) - (dm.totalSteps : Int) := by
    rw [hfw, hrv]; omega
  rw [hcoef] at hz
  refine ⟨hfw, hrv, hch, hfd, hn, hz, ?_⟩
  intro h1 h2
  rw [hz, s32_of_range _ h1 h2]
  ring

/-- C11 amended, on the Delta record of 8 steps that reverses at step 7: the
run of 8 calls completes with 6 pulses forward, 2 in reverse, one change of
direction and the height counter `(2·6 − 8)·512` above its initial value. -/
theorem C11_delta_run_with_reversal_witness :
    deltaRun exampleConfig longDDA true 8 (lateReversalDeltaDM 1) ⟨0, 0, 0⟩
        = RunOutcome.completed lateReversalFinalDM ⟨6, 2, 1⟩
    ∧ (6 : Nat) = (lateReversalDeltaDM 1).reverseStartStep - 1
    ∧ (2 : Nat) = (lateReversalDeltaDM 1).totalSteps - ((lateReversalDeltaDM 1).reverseStartStep - 1)
    ∧ lateReversalFinalDM.mp.delta.hmz0sK - (lateReversalDeltaDM 1).mp.delta.hmz0sK
        = (2 * (((lateReversalDeltaDM 1).reverseStartStep : Int) - 1)
            - ((lateReversalDeltaDM 1).totalSteps : Int)) * (exampleConfig.K2 : Int) :=
  have h := (C11_delta_run_with_reversal exampleConfig longDDA true (lateReversalDeltaDM 1) 8
    rfl rfl (by decide) (by decide) (by decide) (by decide) (by decide)).2
    lateReversalFinalDM ⟨6, 2, 1⟩ (by decide)
  ⟨by decide, h.1, h.2.1, h.2.2.2.2.2.2 (by decide) (by decide)⟩

/-- C12: the reversal table of `PrepareDeltaAxis`, with `n = numStepsUp` (an
`int32_t`) and `T` the incoming `totalSteps` (a `uint32_t`); sums are those of
the 32-bit fields. Without a reversal point in range (`a2plusb2 ≤ 0`, or
`drev` outside `(0, totalDistance)`) `reverseStartStep = T + 1` and
`totalSteps` is unchanged. With one: if `n < 1`, or the incoming direction is
forward and `n ≤ T`, then `reverseStartStep = T + 1` and `totalSteps` and
`direction` are unchanged; otherwise a forward drive gets
`reverseStartStep = n + 1`, `totalSteps = 2n − T` and stays forward, and a
reverse drive becomes forward with `reverseStartStep = n + 1` and
`totalSteps = 2n + T`. -/
theorem C12_delta_reversal_table (dm : DM) (topSpeedTimesCdivA : Nat) (v : DeltaPrepValues)
    (hn : -2147483648 ≤ v.numStepsUp ∧ v.numStepsUp < 2147483648)
    (hT : dm.totalSteps < 4294967296) :
    ((v.pureZ = true ∨ v.drevInRange = false) →
        (PrepareDeltaAxis dm topSpeedTimesCdivA v).reverseStartStep
            = (dm.totalSteps + 1) % 4294967296
        ∧ (PrepareDeltaAxis dm topSpeedTimesCdivA v).totalSteps = dm.totalSteps)
    ∧ (v.pureZ = false → v.drevInRange = true →
        ((v.numStepsUp < 1 ∨ (dm.direction = true ∧ v.numStepsUp ≤ dm.totalSteps)) →
            (PrepareDeltaAxis dm topSpeedTimesCdivA v).reverseStartStep
                = (dm.totalSteps + 1) % 4294967296
            ∧ (PrepareDeltaAxis dm topSpeedTimesCdivA v).totalSteps = dm.totalSteps
            ∧ (PrepareDeltaAxis dm topSpeedTimesCdivA v).direction = dm.direction)
        ∧ (¬ (v.numStepsUp < 1 ∨ (dm.direction = true ∧ v.numStepsUp ≤ dm.totalSteps)) →
            dm.direction = true →
            ((PrepareDeltaAxis dm topSpeedTimesCdivA v).reverseStartStep : Int) = v.numStepsUp + 1
            ∧ ((PrepareDeltaAxis dm topSpeedTimesCdivA v).totalSteps : Int)
                = 2 * v.numStepsUp - dm.totalSteps
            ∧ (PrepareDeltaAxis dm topSpeedTimesCdivA v).direction = true)
        ∧ (¬ (v.numStepsUp < 1 ∨ (dm.direction = true ∧ v.numStepsUp ≤ dm.totalSteps)) →
            dm.direction = false →
            (PrepareDeltaAxis dm topSpeedTimesCdivA v).direction = true
            ∧ ((PrepareDeltaAxis dm topSpeedTimesCdivA v).reverseStartStep : Int)
                = v.numStepsUp + 1
            ∧ ((PrepareDeltaAxis dm topSpeedTimesCdivA v).totalSteps : Int)
                = (2 * v.numStepsUp + dm.totalSteps) % 4294967296
            ∧ (2 * v.numStepsUp + dm.totalSteps < 4294967296 →
                ((PrepareDeltaAxis dm topSpeedTimesCdivA v).totalSteps : Int)
                  = 2 * v.numStepsUp + dm.totalSteps))) := by
  obtain ⟨hn1, hn2⟩ := hn
  have hinst : deltaReversalInstalled dm v = true ↔
      (v.pureZ = false ∧ v.drevInRange = true
        ∧ ¬ (v.numStepsUp < 1 ∨ (dm.direction = true ∧ v.numStepsUp ≤ dm.totalSteps))) := by
    unfold deltaReversalInstalled
    by_cases h1 : v.numStepsUp < 1
    · simp [h1]
    · have : toU32 v.numStepsUp ≤ dm.totalSteps ↔ v.numStepsUp ≤ dm.totalSteps := by
        unfold toU32; omega
      cases hp : v.pureZ <;> cases hd : v.drevInRange <;> cases hdir : dm.direction <;>
        simp [h1, this]
  have hrev : (PrepareDeltaAxis dm topSpeedTimesCdivA v).reverseStartStep
      = if deltaReversalInstalled dm v then u32 (toU32 v.numStepsUp + 1)
        else u32 (dm.totalSteps + 1) := rfl
  have htot : (PrepareDeltaAxis dm topSpeedTimesCdivA v).totalSteps
      = if deltaReversalInstalled dm v then
          (if dm.direction then subU32 (toU32 (s32 (2 * v.numStepsUp))) dm.totalSteps
           else u32 (toU32 (s32 (2 * v.numStepsUp)) + dm.totalSteps))
        else dm.totalSteps := rfl
  have hdir : (PrepareDeltaAxis dm topSpeedTimesCdivA v).direction
      = if v.pureZ then v.zNonNegative
        else if deltaReversalInstalled dm v then true else dm.direction := rfl
  refine ⟨?_, ?_⟩
  · intro h
    have hno : deltaReversalInstalled dm v = false := by
      cases hi : deltaReversalInstalled dm v
      · rfl
      · rcases hinst.mp hi with ⟨h1, h2, _⟩
        rcases h with h | h <;> simp_all
    rw [hrev, htot, hno]
    simp [u32]
  · intro hp hd
    refine ⟨?_, ?_, ?_⟩
    · intro h
      have hno : deltaReversalInstalled dm v = false := by
        cases hi : deltaReversalInstalled dm v
        · rfl
        · exact absurd h (hinst.mp hi).2.2
      rw [hrev, htot, hdir, hno, hp]
      simp [u32]
    · intro h hforward
      have hyes : deltaReversalInstalled dm v = true := hinst.mpr ⟨hp, hd, h⟩
      rw [hrev, htot, hdir, hyes, hp, hforward]
      simp only [if_true, Bool.false_eq_true, if_false]
      have h1 : 1 ≤ v.numStepsUp := by omega
      have h2 : (dm.totalSteps : Int) < v.numStepsUp := by
        by_contra hc
        exact h (Or.inr ⟨hforward, by omega⟩)
      refine ⟨?_, ?_, trivial⟩
      · unfold u32 toU32; omega
      · unfold subU32 toU32 s32; omega
    · intro h hbackward
      have hyes : deltaReversalInstalled dm v = true := hinst.mpr ⟨hp, hd, h⟩
      rw [hrev, htot, hdir, hyes, hp, hbackward]
      simp only [if_true, Bool.false_eq_true, if_false]
      have h1 : 1 ≤ v.numStepsUp := by omega
      refine ⟨trivial, ?_, ?_, ?_⟩
      · unfold u32 toU32; omega
      · unfold u32 toU32 s32; omega
      · intro hsmall
        unfold u32 toU32 s32; omega

/-- C12 at the example Delta record (8 steps net, forward) prepared with
`numStepsUp = 10`: the reversal is installed at step 11 of 12. -/
theorem C12_delta_reversal_table_witness :
    (-2147483648 ≤ exampleDeltaPrep.numStepsUp ∧ exampleDeltaPrep.numStepsUp < 2147483648)
    ∧ (exampleDeltaDM 1).totalSteps < 4294967296
    ∧ ((PrepareDeltaAxis (exampleDeltaDM 1) 1000 exampleDeltaPrep).reverseStartStep : Int) = 10 + 1
    ∧ ((PrepareDeltaAxis (exampleDeltaDM 1) 1000 exampleDeltaPrep).totalSteps : Int) = 2 * 10 - 8
    ∧ (PrepareDeltaAxis (exampleDeltaDM 1) 1000 exampleDeltaPrep).direction = true :=
  ⟨by decide, by decide,
   ((C12_delta_reversal_table (exampleDeltaDM 1) 1000 exampleDeltaPrep (by decide) (by decide)).2
      rfl rfl).2.1 (by decide) rfl⟩

/-! ## Projections of `PrepareExtruder` -/

theorem prepExt_totalSteps (dm : DM) (top : Nat) (v : ExtruderPrepValues) :
    (PrepareExtruder dm top v).totalSteps
      = if extruderReverseAccepted dm top v then toU32 (extruderOverallSteps dm top v)
        else toU32 (max (extruderNetSteps dm v) 0) := rfl

theorem prepExt_reverseStartStep (dm : DM) (top : Nat) (v : ExtruderPrepValues) :
    (PrepareExtruder dm top v).reverseStartStep
      = if (v.noDeceleration || v.noReverse) = true then toU32 (s32 (extruderNetSteps dm v + 1))
        else if extruderReverseAccepted dm top v then extruderCandidateReverseStartStep top v
        else u32 ((PrepareExtruder dm top v).totalSteps + 1) := rfl

theorem prepExt_four (dm : DM) (top : Nat) (v : ExtruderPrepValues) :
    (PrepareExtruder dm top v).mp.cart.fourMaxStepDistanceMinusTwoDistanceToStopTimesCsquaredDivA
      = if extruderReverseAccepted dm top v then
          s64 (s64 (u64 (u32 (2 * subU32 (extruderCandidateReverseStartStep top v) 1)
                      * v.twoCsquaredTimesMmPerStepDivA) : Nat)
                - s64 (extruderTwoDistanceToStop top v : Nat))
        else 0 := rfl

theorem extruderReverseAccepted_iff (dm : DM) (top : Nat) (v : ExtruderPrepValues) :
    extruderReverseAccepted dm top v = true
      ↔ v.noDeceleration = false ∧ v.noReverse = false ∧ 0 < extruderOverallSteps dm top v := by
  unfold extruderReverseAccepted
  cases v.noDeceleration <;> cases v.noReverse <;> simp

theorem extruderNetSteps_range (dm : DM) (v : ExtruderPrepValues) :
    -2147483648 ≤ extruderNetSteps dm v ∧ extruderNetSteps dm v < 2147483648 := by
  unfold extruderNetSteps s32; omega

theorem s32_sub_left (x y : Int) : s32 (s32 x - y) = s32 (x - y) := by
  unfold s32; omega

theorem s32_double_pred (c : Nat) (n : Int) :
    s32 (((u32 (2 * subU32 c 1) : Nat) : Int) - n) = s32 (2 * ((c : Int) - 1) - n) := by
  have h : ((subU32 c 1 : Nat) : Int) = ((c : Int) - 1) % 4294967296 := by
    unfold subU32 toU32; omega
  generalize subU32 c 1 = y at h ⊢
  unfold s32 u32; omega

theorem s64_u64_sub_s64 (x d : Nat) :
    s64 (s64 ((u64 x : Nat) : Int) - s64 (d : Int)) = s64 ((x : Int) - d) := by
  unfold s64 u64; omega


theorem extruderOverallSteps_eq (dm : DM) (top : Nat) (v : ExtruderPrepValues) :
    extruderOverallSteps dm top v
      = s32 (2 * ((extruderCandidateReverseStartStep top v : Int) - 1) - extruderNetSteps dm v) := by
  unfold extruderOverallSteps
  rw [s32_sub_left, s32_double_pred]

theorem extruderOverallSteps_lt (dm : DM) (top : Nat) (v : ExtruderPrepValues) :
    extruderOverallSteps dm top v < 2147483648 := by
  rw [extruderOverallSteps_eq]; unfold s32; omega

theorem toU32_of_nonneg (x : Int) (h0 : 0 ≤ x) (h1 : x < 4294967296) :
    ((toU32 x : Nat) : Int) = x := by
  unfold toU32; omega

theorem toU32_max_zero (x : Int) (h1 : x < 4294967296) :
    ((toU32 (max x 0) : Nat) : Int) = max x 0 := by
  unfold toU32; omega

/-- The 64-bit difference of source lines 237 and 238 when the operands fit
their types. -/
theorem four_exact (c twoC D : Nat) (h1 : 1 ≤ c) (h2 : c ≤ 2147483648)
    (h3 : 2 * (c - 1) * twoC < 9223372036854775808) (h4 : D < 9223372036854775808) :
    s64 (((u32 (2 * subU32 c 1) * twoC : Nat) : Int) - D)
      = 2 * ((c : Int) - 1) * twoC - D := by
  have e1 : subU32 c 1 = c - 1 := by unfold subU32 toU32; omega
  have e2 : u32 (2 * (c - 1)) = 2 * (c - 1) := by unfold u32; omega
  rw [e1, e2]
  have e3 : ((c : Int) - 1) = ((c - 1 : Nat) : Int) := by omega
  rw [e3]
  have e4 : (2 * ((c - 1 : Nat) : Int) * (twoC : Int)) = ((2 * (c - 1) * twoC : Nat) : Int) := by
    push_cast; ring
  rw [e4]
  generalize 2 * (c - 1) * twoC = X at h3 ⊢
  unfold s64; omega

/-! ## Extruder without pressure advance -/

/-- C14: `PrepareExtruder` at two inputs where the result satisfies neither
`reverseStartStep = totalSteps + 1` nor `1 ≤ reverseStartStep ≤ totalSteps`.
On the move of 1 step whose compensation takes back 10 steps no reverse phase
is selected (source line 198), `totalSteps = max(netSteps, 0) = 0` and
`reverseStartStep = netSteps + 1 = −8` as a `uint32_t`. On the move of 41 steps
the reverse phase is accepted with `reverseStartStep = 29` and
`totalSteps = 2·28 − 29 = 27`. -/
theorem C14_extruder_reverse_start_divergence :
    extruderNetSteps (requestedDM 1) retractingPrep = -9
    ∧ extruderReverseAccepted (requestedDM 1) 3125 retractingPrep = false
    ∧ (PrepareExtruder (requestedDM 1) 3125 retractingPrep).totalSteps = 0
    ∧ (PrepareExtruder (requestedDM 1) 3125 retractingPrep).reverseStartStep = 4294967288
    ∧ extruderNetSteps (requestedDM 41) shortenedPrep = 29
    ∧ extruderReverseAccepted (requestedDM 41) 37500 shortenedPrep = true
    ∧ (PrepareExtruder (requestedDM 41) 37500 shortenedPrep).totalSteps = 27
    ∧ (PrepareExtruder (requestedDM 41) 37500 shortenedPrep).reverseStartStep = 29 := by
  decide

/-- When `PrepareExtruder` accepts a reverse phase (`overallSteps > 0`),
the resulting `totalSteps` is the 32-bit value of
`2·(reverseStartStep − 1) − netSteps` and it is positive, so that, when that
difference fits an `int32_t`, the forward pulse count `reverseStartStep − 1`
minus the reverse pulse count `totalSteps − (reverseStartStep − 1)` is
`netSteps`; and `fourMaxStepDistanceMinusTwoDistanceToStopTimesCsquaredDivA`
is the 64-bit value of `2·(reverseStartStep − 1)·twoCsquaredTimesMmPerStepDivA
− twoDistanceToStopTimesCsquaredDivA`, exactly that difference when the
operands fit their types. On every other path `totalSteps = max(netSteps, 0)`
and the constant is 0. These are equations between the fields; they do not say
that `reverseStartStep − 1 ≤ totalSteps`. -/
theorem prepExt_accepted_identities (dm : DM) (topSpeedTimesCdivA : Nat) (v : ExtruderPrepValues) :
    (extruderReverseAccepted dm topSpeedTimesCdivA v = true →
        ((PrepareExtruder dm topSpeedTimesCdivA v).totalSteps : Int)
            = s32 (2 * (((PrepareExtruder dm topSpeedTimesCdivA v).reverseStartStep : Int) - 1)
                    - extruderNetSteps dm v)
        ∧ 0 < (PrepareExtruder dm topSpeedTimesCdivA v).totalSteps
        ∧ (1 ≤ (PrepareExtruder dm topSpeedTimesCdivA v).reverseStartStep →
            2 * (((PrepareExtruder dm topSpeedTimesCdivA v).reverseStartStep : Int) - 1)
                - extruderNetSteps dm v < 2147483648 →
            (((PrepareExtruder dm topSpeedTimesCdivA v).reverseStartStep : Int) - 1)
              - (((PrepareExtruder dm topSpeedTimesCdivA v).totalSteps : Int)
                  - (((PrepareExtruder dm topSpeedTimesCdivA v).reverseStartStep : Int) - 1))
              = extruderNetSteps dm v)
        ∧ (PrepareExtruder dm topSpeedTimesCdivA v).mp.cart.fourMaxStepDistanceMinusTwoDistanceToStopTimesCsquaredDivA
            = s64 (((u32 (2 * subU32 (PrepareExtruder dm topSpeedTimesCdivA v).reverseStartStep 1)
                      * (PrepareExtruder dm topSpeedTimesCdivA v).mp.cart.twoCsquaredTimesMmPerStepDivA
                      : Nat) : Int)
                    - (PrepareExtruder dm topSpeedTimesCdivA v).twoDistanceToStopTimesCsquaredDivA)
        ∧ (1 ≤ (PrepareExtruder dm topSpeedTimesCdivA v).reverseStartStep →
            (PrepareExtruder dm topSpeedTimesCdivA v).reverseStartStep ≤ 2147483648 →
            2 * ((PrepareExtruder dm topSpeedTimesCdivA v).reverseStartStep - 1)
                * (PrepareExtruder dm topSpeedTimesCdivA v).mp.cart.twoCsquaredTimesMmPerStepDivA
              < 9223372036854775808 →
            (PrepareExtruder dm topSpeedTimesCdivA v).twoDistanceToStopTimesCsquaredDivA
              < 9223372036854775808 →
            (PrepareExtruder dm topSpeedTimesCdivA v).mp.cart.fourMaxStepDistanceMinusTwoDistanceToStopTimesCsquaredDivA
              = 2 * (((PrepareExtruder dm topSpeedTimesCdivA v).reverseStartStep : Int) - 1)
                  * (PrepareExtruder dm topSpeedTimesCdivA v).mp.cart.twoCsquaredTimesMmPerStepDivA
                - (PrepareExtruder dm topSpeedTimesCdivA v).twoDistanceToStopTimesCsquaredDivA))
    ∧ (extruderReverseAccepted dm topSpeedTimesCdivA v = false →
        ((PrepareExtruder dm topSpeedTimesCdivA v).totalSteps : Int)
            = max (extruderNetSteps dm v) 0
        ∧ (PrepareExtruder dm topSpeedTimesCdivA v).mp.cart.fourMaxStepDistanceMinusTwoDistanceToStopTimesCsquaredDivA
            = 0) := by
  have hc : (PrepareExtruder dm topSpeedTimesCdivA v).mp.cart.twoCsquaredTimesMmPerStepDivA
      = v.twoCsquaredTimesMmPerStepDivA := rfl
  have hD : (PrepareExtruder dm topSpeedTimesCdivA v).twoDistanceToStopTimesCsquaredDivA
      = extruderTwoDistanceToStop topSpeedTimesCdivA v := rfl
  have hnet := extruderNetSteps_range dm v
  refine ⟨?_, ?_⟩
  · intro hacc
    obtain ⟨hnd, hnr, hpos⟩ := (extruderReverseAccepted_iff dm topSpeedTimesCdivA v).mp hacc
    have hrev : (PrepareExtruder dm topSpeedTimesCdivA v).reverseStartStep
        = extruderCandidateReverseStartStep topSpeedTimesCdivA v := by
      rw [prepExt_reverseStartStep, hnd, hnr, hacc]; simp
    have htot : (PrepareExtruder dm topSpeedTimesCdivA v).totalSteps
        = toU32 (extruderOverallSteps dm topSpeedTimesCdivA v) := by
      rw [prepExt_totalSteps, hacc]; simp
    have hfour := prepExt_four dm topSpeedTimesCdivA v
    rw [hacc] at hfour
    simp only [if_true] at hfour
    rw [hrev, htot, hfour, hc, hD, s64_u64_sub_s64]
    have hovr := extruderOverallSteps_lt dm topSpeedTimesCdivA v
    have hcast := toU32_of_nonneg (extruderOverallSteps dm topSpeedTimesCdivA v)
      (le_of_lt hpos) (lt_trans hovr (by norm_num))
    refine ⟨?_, ?_, ?_, ?_, ?_⟩
    · rw [hcast, extruderOverallSteps_eq]
    · have : (0 : Int) < (toU32 (extruderOverallSteps dm topSpeedTimesCdivA v) : Nat) := by
        rw [hcast]; exact hpos
      exact_mod_cast this
    · intro h1 h2
      have h3 : -2147483648 ≤ 2 * ((extruderCandidateReverseStartStep topSpeedTimesCdivA v : Int) - 1)
          - extruderNetSteps dm v := by
        have h1' : (1 : Int) ≤ (extruderCandidateReverseStartStep topSpeedTimesCdivA v : Nat) := by
          exact_mod_cast h1
        linarith [hnet.2]
      rw [hcast, extruderOverallSteps_eq, s32_of_range _ h3 h2]
      ring
    · rfl
    · intro h1 h2 h3 h4
      exact four_exact _ _ _ h1 h2 h3 h4
  · intro hacc
    rw [prepExt_totalSteps, prepExt_four, hacc]
    simp only [Bool.false_eq_true, if_false, and_true]
    exact toU32_max_zero _ (lt_trans hnet.2 (by norm_num))

/-- C15: `PrepareExtruder` at an input on which it accepts a reverse phase
while the pulse counts of the claim do not exist. On the move of 41 steps of
`shortenedPrep` the compensation leaves `netSteps = 29`, the stopping point
gives `reverseStartStep = 29` and `overallSteps = 2·28 − 29 = 27 > 0`, so the
reverse phase is accepted with `totalSteps = 27`. The equation
`totalSteps = 2·(reverseStartStep − 1) − netSteps` holds, but
`reverseStartStep − 1 = 28` exceeds `totalSteps`: the reverse pulse count
`totalSteps − (reverseStartStep − 1)` would be `−1`. The run of
`CalcNextStepTimeCartesianFull` from step 1 under the descriptor of the move
completes after 27 calls, all in the forward direction: 27 pulses forward,
none in reverse, for 29 net steps. On the example extruder move the same run
gives 6 pulses forward and 2 in reverse for 4 net steps. -/
theorem C15_extruder_net_steps_divergence :
    extruderReverseAccepted (requestedDM 41) 37500 shortenedPrep = true
    ∧ extruderNetSteps (requestedDM 41) shortenedPrep = 29
    ∧ (PrepareExtruder (requestedDM 41) 37500 shortenedPrep).reverseStartStep = 29
    ∧ (PrepareExtruder (requestedDM 41) 37500 shortenedPrep).totalSteps = 27
    ∧ ((PrepareExtruder (requestedDM 41) 37500 shortenedPrep).totalSteps : Int)
        = 2 * (((PrepareExtruder (requestedDM 41) 37500 shortenedPrep).reverseStartStep : Int) - 1)
            - extruderNetSteps (requestedDM 41) shortenedPrep
    ∧ ((PrepareExtruder (requestedDM 41) 37500 shortenedPrep).totalSteps : Int)
        - (((PrepareExtruder (requestedDM 41) 37500 shortenedPrep).reverseStartStep : Int) - 1)
        = -1
    ∧ (PrepareExtruder (requestedDM 41) 37500 shortenedPrep).nextStep = 1
    ∧ (PrepareExtruder (requestedDM 41) 37500 shortenedPrep).nextStepTime = 0
    ∧ (PrepareExtruder (requestedDM 41) 37500 shortenedPrep).direction = true
    ∧ tallySummary (cartTallyRun exampleConfig shortenedDDA true 27
          (PrepareExtruder (requestedDM 41) 37500 shortenedPrep)
          { forward := 0, reverse := 0, changes := 0 })
        = some ({ forward := 27, reverse := 0, changes := 0 }, 28, 26649)
    ∧ extruderReverseAccepted exampleExtruderDM 2500 exampleExtruderPrep = true
    ∧ extruderNetSteps exampleExtruderDM exampleExtruderPrep = 4
    ∧ tallySummary (cartTallyRun exampleConfig roomyDDA true 8
          (PrepareExtruder exampleExtruderDM 2500 exampleExtruderPrep)
          { forward := 0, reverse := 0, changes := 0 })
        = some ({ forward := 6, reverse := 2, changes := 1 }, 9, 10736) := by
  refine ⟨by decide, by decide, by decide, by decide, by decide, by decide, rfl, rfl, rfl,
    ?_, by decide, by decide, ?_⟩
  · decide
  · decide

/-! ## Cruise phase -/

/-- The phase selection of the Cartesian recurrence between `accelStopStep`
and `decelStartStep` (source lines 321 to 328). -/
theorem cartPhase_cruise (cfg : Config) (dm : DM) (dda : DDA) (live : Bool) (n : Nat)
    (h1 : ¬ n < dm.mp.cart.accelStopStep) (h2 : n < dm.mp.cart.decelStartStep) :
    cartPhase cfg dm dda live n
      = { direction := dm.direction
          nextStepTime :=
            toU32 (s32 (s32 (s32 (u64 (dm.mp.cart.mmPerStepTimesCKdivtopSpeed * n) / cfg.K1 : Nat)
                          + dda.extraAccelerationClocks)
                     - s32 dm.mp.cart.accelCompensationClocks))
          calls := [] } := by
  unfold cartPhase
  rw [if_neg h1, if_pos h2]

/-- The phase selection of the Delta recurrence between `accelStopDsK` and
`decelStartDsK` (source lines 453 to 459). -/
theorem deltaPhaseTime_cruise (cfg : Config) (dm : DM) (dda : DDA) (dsK : Nat)
    (h1 : ¬ dsK < dm.mp.delta.accelStopDsK) (h2 : dsK < dm.mp.delta.decelStartDsK) :
    deltaPhaseTime cfg dm dda dsK
      = toU32 (s32 (s32 (u64 (dm.mp.delta.mmPerStepTimesCKdivtopSpeed * dsK)
                          / u32 (cfg.K1 * cfg.K2) : Nat)
                     + dda.extraAccelerationClocks)) := by
  unfold deltaPhaseTime
  rw [if_neg h1, if_pos h2]

theorem toU32_lt_of_s32 (x : Int) (h0 : 0 ≤ s32 x) : toU32 (s32 x) < 4294967295 := by
  unfold toU32 s32 at *; omega

theorem deltaDsK_s32 (cfg : Config) (dm : DM) (dda : DDA) :
    s32 (deltaDsK cfg dm dda) = deltaDsK cfg dm dda := by
  unfold deltaDsK
  simp only
  split_ifs <;> (unfold s32; omega)

theorem u32_succ_of_lt (n : Nat) (h : n < 4294967295) : u32 (n + 1) = n + 1 := by
  unfold u32; omega

/-- C16: `ReduceSpeed(dda, f)` on a Delta move sets `accelStopDsK = 0` and
`decelStartDsK = 0xFFFFFFFF`, on any other move `accelStopStep = 0` and
`decelStartStep = totalSteps + 1`, multiplies `mmPerStepTimesCKdivtopSpeed` of
that variant by `f` modulo 2^32 and changes no other field. Consequently, on
every record `d` that carries these constants, a call of
`CalcNextStepTimeCartesianFull` with `nextStep ≤ totalSteps < 2^32 − 1`
computes the steady-speed time (source lines 324 to 327), keeps `direction`,
notifies no driver and leaves the constants in place; and a call of
`CalcNextStepTimeDeltaFull` with `dsK ≥ 0` computes the steady-speed time
(source lines 456 to 458) and leaves the constants in place. In both cases the
call stores that time in `nextStepTime`: the field holds the steady-speed time
after the call, except for a late last step, where it holds `clocksNeeded`;
and when the steady-speed time is at most `clocksNeeded` the call returns
`true` with `nextStepTime` equal to the steady-speed formula. -/
theorem C16_reduce_speed_pure_cruise (cfg : Config) (dm : DM) (dda : DDA)
    (inverseSpeedFactor : Nat) :
    (dda.isDeltaMovement = true →
        (ReduceSpeed dm dda inverseSpeedFactor).mp.delta.accelStopDsK = 0
        ∧ (ReduceSpeed dm dda inverseSpeedFactor).mp.delta.decelStartDsK = 4294967295
        ∧ (ReduceSpeed dm dda inverseSpeedFactor).mp.delta.mmPerStepTimesCKdivtopSpeed
            = (dm.mp.delta.mmPerStepTimesCKdivtopSpeed * inverseSpeedFactor) % 4294967296
        ∧ { ReduceSpeed dm dda inverseSpeedFactor with
              mp := { (ReduceSpeed dm dda inverseSpeedFactor).mp with
                delta := { (ReduceSpeed dm dda inverseSpeedFactor).mp.delta with
                  accelStopDsK := dm.mp.delta.accelStopDsK
                  decelStartDsK := dm.mp.delta.decelStartDsK
                  mmPerStepTimesCKdivtopSpeed := dm.mp.delta.mmPerStepTimesCKdivtopSpeed } } }
            = dm
        ∧ ∀ (d : DM) (dda2 : DDA) (live : Bool),
            d.mp.delta.accelStopDsK = (ReduceSpeed dm dda inverseSpeedFactor).mp.delta.accelStopDsK →
            d.mp.delta.decelStartDsK
              = (ReduceSpeed dm dda inverseSpeedFactor).mp.delta.decelStartDsK →
            0 ≤ deltaDsK cfg d dda2 →
            deltaComputedTime cfg d dda2
                = toU32 (s32 (s32 (u64 (d.mp.delta.mmPerStepTimesCKdivtopSpeed
                                          * toU32 (deltaDsK cfg d dda2))
                                    / u32 (cfg.K1 * cfg.K2) : Nat)
                               + dda2.extraAccelerationClocks))
            ∧ (CalcNextStepTimeDeltaFull cfg d dda2 live).dm.mp.delta.accelStopDsK = 0
            ∧ (CalcNextStepTimeDeltaFull cfg d dda2 live).dm.mp.delta.decelStartDsK = 4294967295
            ∧ (CalcNextStepTimeDeltaFull cfg d dda2 live).dm.mp.delta.mmPerStepTimesCKdivtopSpeed
                = d.mp.delta.mmPerStepTimesCKdivtopSpeed
            ∧ (CalcNextStepTimeDeltaFull cfg d dda2 live).dm.nextStepTime
                = (if deltaComputedTime cfg d dda2 > dda2.clocksNeeded
                      ∧ u32 (d.nextStep + 1) ≥ d.totalSteps
                   then dda2.clocksNeeded else deltaComputedTime cfg d dda2)
            ∧ (deltaComputedTime cfg d dda2 ≤ dda2.clocksNeeded →
                (CalcNextStepTimeDeltaFull cfg d dda2 live).ret = true
                ∧ (CalcNextStepTimeDeltaFull cfg d dda2 live).dm.nextStepTime
                    = toU32 (s32 (s32 (u64 (d.mp.delta.mmPerStepTimesCKdivtopSpeed
                                              * toU32 (deltaDsK cfg d dda2))
                                        / u32 (cfg.K1 * cfg.K2) : Nat)
                                   + dda2.extraAccelerationClocks))))
    ∧ (dda.isDeltaMovement = false →
        (ReduceSpeed dm dda inverseSpeedFactor).mp.cart.accelStopStep = 0
        ∧ (ReduceSpeed dm dda inverseSpeedFactor).mp.cart.decelStartStep
            = (dm.totalSteps + 1) % 4294967296
        ∧ (ReduceSpeed dm dda inverseSpeedFactor).mp.cart.mmPerStepTimesCKdivtopSpeed
            = (dm.mp.cart.mmPerStepTimesCKdivtopSpeed * inverseSpeedFactor) % 4294967296
        ∧ { ReduceSpeed dm dda inverseSpeedFactor with
              mp := { (ReduceSpeed dm dda inverseSpeedFactor).mp with
                cart := { (ReduceSpeed dm dda inverseSpeedFactor).mp.cart with
                  accelStopStep := dm.mp.cart.accelStopStep
                  decelStartStep := dm.mp.cart.decelStartStep
                  mmPerStepTimesCKdivtopSpeed := dm.mp.cart.mmPerStepTimesCKdivtopSpeed } } }
            = dm
        ∧ ∀ (d : DM) (dda2 : DDA) (live : Bool),
            d.mp.cart = (ReduceSpeed dm dda inverseSpeedFactor).mp.cart →
            d.totalSteps = (ReduceSpeed dm dda inverseSpeedFactor).totalSteps →
            d.nextStep ≤ d.totalSteps → d.totalSteps < 4294967295 →
            cartComputedTime cfg d dda2
                = toU32 (s32 (s32 (s32 (u64 (d.mp.cart.mmPerStepTimesCKdivtopSpeed
                                              * cartNextCalcStep cfg d) / cfg.K1 : Nat)
                                    + dda2.extraAccelerationClocks)
                               - s32 d.mp.cart.accelCompensationClocks))
            ∧ (CalcNextStepTimeCartesianFull cfg d dda2 live).dm.direction = d.direction
            ∧ (CalcNextStepTimeCartesianFull cfg d dda2 live).calls = []
            ∧ (CalcNextStepTimeCartesianFull cfg d dda2 live).dm.mp = d.mp
            ∧ (CalcNextStepTimeCartesianFull cfg d dda2 live).dm.totalSteps = d.totalSteps
            ∧ (CalcNextStepTimeCartesianFull cfg d dda2 live).dm.nextStepTime
                = (if cartComputedTime cfg d dda2 > dda2.clocksNeeded
                      ∧ u32 (d.nextStep + 1) ≥ d.totalSteps
                   then dda2.clocksNeeded else cartComputedTime cfg d dda2)
            ∧ (cartComputedTime cfg d dda2 ≤ dda2.clocksNeeded →
                (CalcNextStepTimeCartesianFull cfg d dda2 live).ret = true
                ∧ (CalcNextStepTimeCartesianFull cfg d dda2 live).dm.nextStepTime
                    = toU32 (s32 (s32 (s32 (u64 (d.mp.cart.mmPerStepTimesCKdivtopSpeed
                                                  * cartNextCalcStep cfg d) / cfg.K1 : Nat)
                                        + dda2.extraAccelerationClocks)
                                   - s32 d.mp.cart.accelCompensationClocks)))) := by
  refine ⟨?_, ?_⟩
  · intro hdelta
    have hr : ReduceSpeed dm dda inverseSpeedFactor
        = { dm with mp := { dm.mp with delta := { dm.mp.delta with
              accelStopDsK := 0
              decelStartDsK := 4294967295
              mmPerStepTimesCKdivtopSpeed :=
                u32 (dm.mp.delta.mmPerStepTimesCKdivtopSpeed * inverseSpeedFactor) } } } := by
      unfold ReduceSpeed; rw [if_pos hdelta]
    rw [hr]
    refine ⟨rfl, rfl, rfl, rfl, ?_⟩
    intro d dda2 live ha hd hds
    have ha' : d.mp.delta.accelStopDsK = 0 := ha
    have hd' : d.mp.delta.decelStartDsK = 4294967295 := hd
    have hlt : toU32 (deltaDsK cfg d dda2) < 4294967295 := by
      rw [← deltaDsK_s32]
      exact toU32_lt_of_s32 _ (by rw [deltaDsK_s32]; exact hds)
    obtain ⟨f1, f2, f3, -, -⟩ := deltaFull_frame cfg d dda2 live
    have hcruise : deltaComputedTime cfg d dda2
        = toU32 (s32 (s32 (u64 (d.mp.delta.mmPerStepTimesCKdivtopSpeed
                                  * toU32 (deltaDsK cfg d dda2))
                            / u32 (cfg.K1 * cfg.K2) : Nat)
                       + dda2.extraAccelerationClocks)) := by
      unfold deltaComputedTime
      exact deltaPhaseTime_cruise cfg d dda2 _ (by rw [ha']; exact Nat.not_lt_zero _)
        (by rw [hd']; exact hlt)
    refine ⟨hcruise, by rw [f1, ha'], by rw [f2, hd'], f3, ?_, ?_⟩
    · rw [deltaFull_nextStepTime, if_neg (not_lt.mpr hds)]
    · intro hnl
      refine ⟨?_, ?_⟩
      · rw [deltaFull_ret, if_neg (not_lt.mpr hds),
          if_neg (fun h => absurd hnl (not_le.mpr h.1))]
      · rw [deltaFull_nextStepTime, if_neg (not_lt.mpr hds),
          if_neg (fun h => absurd hnl (not_le.mpr h.1))]
        exact hcruise
  · intro hcart
    have hr : ReduceSpeed dm dda inverseSpeedFactor
        = { dm with mp := { dm.mp with cart := { dm.mp.cart with
              accelStopStep := 0
              decelStartStep := u32 (dm.totalSteps + 1)
              mmPerStepTimesCKdivtopSpeed :=
                u32 (dm.mp.cart.mmPerStepTimesCKdivtopSpeed * inverseSpeedFactor) } } } := by
      unfold ReduceSpeed; rw [hcart]; rfl
    rw [hr]
    refine ⟨rfl, rfl, rfl, rfl, ?_⟩
    intro d dda2 live hmp htot hle hT
    have hts : d.totalSteps = dm.totalSteps := htot
    have ha : d.mp.cart.accelStopStep = 0 := by rw [hmp]
    have hd : d.mp.cart.decelStartStep = d.totalSteps + 1 := by
      rw [hmp, hts]
      exact u32_succ_of_lt _ (by rw [← hts]; exact hT)
    obtain ⟨-, hn⟩ := cartNextCalcStep_bounds cfg d hle hT
    have hph := cartPhase_cruise cfg d dda2 live (cartNextCalcStep cfg d)
      (by rw [ha]; exact Nat.not_lt_zero _) (by rw [hd]; exact Nat.lt_succ_of_le hn)
    obtain ⟨-, g2, -, -, g5, -⟩ := cartFull_frame cfg d dda2 live
    have hcruise : cartComputedTime cfg d dda2
        = toU32 (s32 (s32 (s32 (u64 (d.mp.cart.mmPerStepTimesCKdivtopSpeed
                                      * cartNextCalcStep cfg d) / cfg.K1 : Nat)
                            + dda2.extraAccelerationClocks)
                       - s32 d.mp.cart.accelCompensationClocks)) := by
      rw [cartComputedTime_eq, ← cartPhase_time_live cfg d dda2 live, hph]
    refine ⟨hcruise, ?_, ?_, g5, g2, cartFull_nextStepTime cfg d dda2 live, ?_⟩
    · rw [cartFull_direction, hph]
    · rw [cartFull_calls, hph]
    · intro hnl
      refine ⟨?_, ?_⟩
      · rw [cartFull_ret, if_neg (fun h => absurd hnl (not_le.mpr h.1))]
      · rw [cartFull_nextStepTime, if_neg (fun h => absurd hnl (not_le.mpr h.1))]
        exact hcruise

/-- C16 on the example record at step 4 with the speed reduced by the factor
3, under a move descriptor of 100000 step clocks: the call returns `true`,
stores the steady-speed time `3072000·4/1024 + 500 = 12500` in `nextStepTime`
and keeps the direction. -/
theorem C16_reduce_speed_pure_cruise_witness :
    exampleDDA.isDeltaMovement = false
    ∧ (ReduceSpeed (exampleDM 4) exampleDDA 3).nextStep
        ≤ (ReduceSpeed (exampleDM 4) exampleDDA 3).totalSteps
    ∧ (ReduceSpeed (exampleDM 4) exampleDDA 3).totalSteps < 4294967295
    ∧ cartComputedTime exampleConfig (ReduceSpeed (exampleDM 4) exampleDDA 3) roomyDDA = 12500
    ∧ (CalcNextStepTimeCartesianFull exampleConfig (ReduceSpeed (exampleDM 4) exampleDDA 3)
          roomyDDA true).dm.direction = true
    ∧ (CalcNextStepTimeCartesianFull exampleConfig (ReduceSpeed (exampleDM 4) exampleDDA 3)
          roomyDDA true).ret = true
    ∧ (CalcNextStepTimeCartesianFull exampleConfig (ReduceSpeed (exampleDM 4) exampleDDA 3)
          roomyDDA true).dm.nextStepTime = 12500 :=
  have h := ((C16_reduce_speed_pure_cruise exampleConfig (exampleDM 4) exampleDDA 3).2 rfl).2.2.2.2
    (ReduceSpeed (exampleDM 4) exampleDDA 3) roomyDDA true rfl rfl (by decide) (by decide)
  have hnl : cartComputedTime exampleConfig (ReduceSpeed (exampleDM 4) exampleDDA 3) roomyDDA
      ≤ roomyDDA.clocksNeeded := by decide
  ⟨rfl, by decide, by decide, h.1.trans (by decide), h.2.1,
    (h.2.2.2.2.2.2 hnl).1, (h.2.2.2.2.2.2 hnl).2.trans (by decide)⟩

/-! ## Free list -/

theorem s32_pred (x : Int) (h1 : -2147483648 < x) (h2 : x < 2147483648) : s32 (x - 1) = x - 1 := by
  unfold s32; omega

theorem s32_succ (x : Int) (h1 : -2147483648 ≤ x) (h2 : x < 2147483647) : s32 (x + 1) = x + 1 := by
  unfold s32; omega

theorem ite_lt_eq_min (a b : Int) : (if a < b then a else b) = min b a := by
  split_ifs with h
  · exact (min_eq_right (le_of_lt h)).symm
  · exact (min_eq_left (not_lt.mp h)).symm

/-- C18: `Allocate(drive, st)` returns `nullptr` exactly when the free list is
empty, and then changes nothing; otherwise it returns the former head, the new
head is that record's former successor, `numFree` decreases by one (exactly,
when it does not leave the range of `int`), `minFree` becomes the minimum of
the old `minFree` and the new `numFree`, and the returned record has its link
cleared, `drive` set to the low 8 bits of the argument (the argument itself
when it is below 256) and `state = st`, every other field of it and every
other record being untouched. -/
theorem C18_allocate_contract (p : Pool) (drive : Nat) (st : DMState) :
    ((Allocate p drive st).2 = none ↔ p.freeList = none)
    ∧ (p.freeList = none →
        (Allocate p drive st).1.freeList = p.freeList
        ∧ (Allocate p drive st).1.numFree = p.numFree
        ∧ (Allocate p drive st).1.minFree = p.minFree
        ∧ (Allocate p drive st).1.heap = p.heap)
    ∧ ∀ dm, p.freeList = some dm →
        (Allocate p drive st).2 = some dm
        ∧ (Allocate p drive st).1.freeList = (p.heap dm).nextDM
        ∧ (Allocate p drive st).1.numFree = s32 (p.numFree - 1)
        ∧ (-2147483648 < p.numFree → p.numFree < 2147483648 →
            (Allocate p drive st).1.numFree = p.numFree - 1)
        ∧ (Allocate p drive st).1.minFree = min p.minFree (Allocate p drive st).1.numFree
        ∧ ((Allocate p drive st).1.heap dm).nextDM = none
        ∧ ((Allocate p drive st).1.heap dm).drive = drive % 256
        ∧ (drive < 256 → ((Allocate p drive st).1.heap dm).drive = drive)
        ∧ ((Allocate p drive st).1.heap dm).state = st
        ∧ { (Allocate p drive st).1.heap dm with
              nextDM := (p.heap dm).nextDM
              drive := (p.heap dm).drive
              state := (p.heap dm).state } = p.heap dm
        ∧ ∀ a, a ≠ dm → (Allocate p drive st).1.heap a = p.heap a := by
  refine ⟨?_, ?_, ?_⟩
  · unfold Allocate
    cases h : p.freeList <;> simp
  · intro h
    have hA : Allocate p drive st = (p, none) := by
      unfold Allocate; rw [h]
    rw [hA]
    exact ⟨rfl, rfl, rfl, rfl⟩
  · intro dm h
    have hA : Allocate p drive st
        = ({ p with
             heap := Function.update p.heap dm
               { p.heap dm with nextDM := none, drive := drive % 256, state := st }
             freeList := (p.heap dm).nextDM
             numFree := s32 (p.numFree - 1)
             minFree := if s32 (p.numFree - 1) < p.minFree then s32 (p.numFree - 1)
                        else p.minFree }, some dm) := by
      unfold Allocate; rw [h]
    rw [hA]
    refine ⟨rfl, rfl, rfl, ?_, ?_, ?_, ?_, ?_, ?_, ?_, ?_⟩
    · intro h1 h2
      exact s32_pred _ h1 h2
    · exact ite_lt_eq_min _ _
    · simp only [Function.update_same]
    · simp only [Function.update_same]
    · intro hd
      simp only [Function.update_same]
      exact Nat.mod_eq_of_lt hd
    · simp only [Function.update_same]
    · simp only [Function.update_same]
    · intro a ha
      simp only [Function.update_noteq ha]

/-- C18 on a pool of three records: the head, the record at address 2, is
returned stamped, the record at address 1 is the new head and two records
remain. -/
theorem C18_allocate_contract_witness :
    examplePool.freeList = some 2
    ∧ (Allocate examplePool 5 DMState.moving).2 = some 2
    ∧ (Allocate examplePool 5 DMState.moving).1.freeList = (examplePool.heap 2).nextDM
    ∧ (examplePool.heap 2).nextDM = some 1
    ∧ (Allocate examplePool 5 DMState.moving).1.numFree = 2
    ∧ ((Allocate examplePool 5 DMState.moving).1.heap 2).drive = 5 :=
  have h := (C18_allocate_contract examplePool 5 DMState.moving).2.2 2 (by decide)
  ⟨by decide, h.1, h.2.1, by decide, h.2.2.1.trans (by decide), h.2.2.2.2.2.2.2.1 (by decide)⟩

/-! ## Spacing of the steady-speed times -/

/-- The quotient `⌊m·n/K⌋` grows by at least `⌊m/K⌋·d` and at most
`⌊m/K⌋·d + d` over `d` steps. -/
theorem floor_mul_step (m K n d : Nat) (hK : 0 < K) :
    m / K * d ≤ m * (n + d) / K - m * n / K
    ∧ m * (n + d) / K - m * n / K ≤ m / K * d + d := by
  have hm : m = K * (m / K) + m % K := (Nat.div_add_mod m K).symm
  have hr : m % K < K := Nat.mod_lt m hK
  generalize m / K = q at hm ⊢
  generalize m % K = r at hm hr
  subst hm
  have e : ∀ x, (K * q + r) * x / K = q * x + r * x / K := by
    intro x
    have : (K * q + r) * x = K * (q * x) + r * x := by ring
    rw [this, Nat.mul_add_div hK]
  rw [e, e]
  have h1 : r * n / K ≤ r * (n + d) / K :=
    Nat.div_le_div_right (Nat.mul_le_mul_left r (Nat.le_add_right n d))
  have h2 : r * (n + d) / K < r * n / K + 1 + d := by
    rw [Nat.div_lt_iff_lt_mul hK]
    have a1 : r * n < (r * n / K + 1) * K := by
      rw [← Nat.div_lt_iff_lt_mul hK]; exact Nat.lt_succ_self _
    have a2 : r * d ≤ d * K := by
      rw [Nat.mul_comm d K]; exact Nat.mul_le_mul_right d (le_of_lt hr)
    have a3 : r * (n + d) = r * n + r * d := Nat.mul_add r n d
    have a4 : (r * n / K + 1 + d) * K = (r * n / K + 1) * K + d * K := Nat.add_mul _ _ _
    rw [a3, a4]
    exact Nat.add_lt_add_of_lt_of_le a1 a2
  have h3 : q * (n + d) = q * n + q * d := Nat.mul_add q n d
  rw [h3]
  generalize r * n / K = a at h1 h2
  generalize r * (n + d) / K = b at h1 h2
  generalize q * n = qn
  generalize q * d = qd
  omega

/-- The interval between two steady-speed times `2^s` steps apart, divided
by `2^s`, is `⌊m/K⌋` or `⌊m/K⌋ + 1`. -/
theorem floor_mul_interval (m K n s : Nat) (hK : 0 < K) :
    (m * (n + 2 ^ s) / K - m * n / K) / 2 ^ s = m / K
    ∨ (m * (n + 2 ^ s) / K - m * n / K) / 2 ^ s = m / K + 1 := by
  obtain ⟨h1, h2⟩ := floor_mul_step m K n (2 ^ s) hK
  have hd : 0 < 2 ^ s := Nat.two_pow_pos s
  generalize m * (n + 2 ^ s) / K - m * n / K = D at h1 h2
  generalize m / K = q at h1 h2
  have l1 : q ≤ D / 2 ^ s := by
    rw [Nat.le_div_iff_mul_le hd]; exact h1
  have l2 : D / 2 ^ s < q + 2 := by
    rw [Nat.div_lt_iff_lt_mul hd]
    have : (q + 2) * 2 ^ s = q * 2 ^ s + 2 ^ s + 2 ^ s := by ring
    omega
  omega

/-- The difference of two 32-bit steady-speed times that did not wrap. -/
theorem subU32_cruise (q1 q0 : Nat) (e a : Int)
    (h0 : 0 ≤ (q0 : Int) + e - a) (h1 : (q1 : Int) + e - a < 4294967296) (hq : q0 ≤ q1) :
    subU32 (toU32 ((q1 : Int) + e - a)) (toU32 ((q0 : Int) + e - a)) = q1 - q0 := by
  unfold subU32 toU32; omega

theorem u64_of_lt (n : Nat) (h : n < 18446744073709551616) : u64 n = n := by
  unfold u64; omega

/-- The closed-form step time between `accelStopStep` and `decelStartStep`,
as one 32-bit sum. -/
theorem cartTimeAt_cruise (cfg : Config) (dm : DM) (dda : DDA) (n : Nat)
    (h1 : dm.mp.cart.accelStopStep ≤ n) (h2 : n < dm.mp.cart.decelStartStep) :
    cartTimeAt cfg dm dda n
      = toU32 (((u64 (dm.mp.cart.mmPerStepTimesCKdivtopSpeed * n) / cfg.K1 : Nat) : Int)
                + dda.extraAccelerationClocks - dm.mp.cart.accelCompensationClocks) := by
  unfold cartTimeAt
  rw [cartPhase_cruise cfg dm dda false n (not_lt.mpr h1) h2]
  simp only [cruise_casts]

/-- The interval stored by a call that is not late. -/
theorem cartFull_stepInterval_of_le (cfg : Config) (dm : DM) (dda : DDA) (live : Bool)
    (h : cartComputedTime cfg dm dda ≤ dda.clocksNeeded) :
    (CalcNextStepTimeCartesianFull cfg dm dda live).dm.stepInterval
      = subU32 (cartComputedTime cfg dm dda) dm.nextStepTime / 2 ^ cartShiftFactor cfg dm := by
  rw [cartFull_stepInterval, if_neg (fun hc => absurd h (not_le.mpr hc.1)),
    Nat.shiftRight_eq_div_pow]

/-- The step index of a call on a step of the segment, counted from the step
before `nextStep`. -/
theorem cartNextCalcStep_eq_pred_add (cfg : Config) (dm : DM)
    (hle : dm.nextStep ≤ dm.totalSteps) (hT : dm.totalSteps < 4294967295)
    (h1 : 1 ≤ dm.nextStep) :
    cartNextCalcStep cfg dm = (dm.nextStep - 1) + 2 ^ cartShiftFactor cfg dm := by
  rw [(cartNextCalcStep_bounds cfg dm hle hT).1,
    stepsTillRecalcOf_eq _ (le_trans (cartShiftFactor_le cfg dm) (by norm_num))]
  have := Nat.two_pow_pos (cartShiftFactor cfg dm)
  omega

/-! ## Intervals after a speed reduction -/

/-- Scaling the rate by `f ≥ 1` does not shorten the interval between the
floors at `n − 1` and `n`. -/
theorem floor_scale_ge (A B K f : Nat) (hK : 0 < K) (hf : 1 ≤ f) (hAB : A ≤ B) :
    B / K - A / K ≤ f * B / K - f * A / K := by
  have h1 : f * (B / K) ≤ f * B / K := by
    rw [Nat.le_div_iff_mul_le hK, Nat.mul_assoc]
    exact Nat.mul_le_mul_left f (Nat.div_mul_le_self B K)
  have h2 : f * A / K < f * (A / K + 1) := by
    rw [Nat.div_lt_iff_lt_mul hK, Nat.mul_assoc]
    apply Nat.mul_lt_mul_of_pos_left _ (by omega)
    rw [← Nat.div_lt_iff_lt_mul hK]; exact Nat.lt_succ_self _
  have h3 : A / K ≤ B / K := Nat.div_le_div_right hAB
  by_cases h4 : A / K = B / K
  · omega
  · obtain ⟨c, hc⟩ : ∃ c, B / K = A / K + 1 + c := ⟨B / K - A / K - 1, by omega⟩
    have h5 : f * (B / K) = f * (A / K + 1) + f * c := by rw [hc, Nat.mul_add]
    have h6 : c ≤ f * c := Nat.le_mul_of_pos_left c (by omega)
    generalize f * (A / K + 1) = Y at h2 h5
    generalize f * (B / K) = X at h1 h5
    generalize f * c = Z at h5 h6
    omega

/-- The floor of the scaled rate lies between `f` times the floor of the rate
and that plus `f − 1`. -/
theorem floor_scale_rate (m K f : Nat) (hK : 0 < K) (hf : 1 ≤ f) :
    f * (m / K) ≤ m * f / K ∧ m * f / K < f * (m / K) + f := by
  refine ⟨?_, ?_⟩
  · rw [Nat.le_div_iff_mul_le hK, Nat.mul_assoc, Nat.mul_comm m f]
    exact Nat.mul_le_mul_left f (Nat.div_mul_le_self m K)
  · rw [Nat.div_lt_iff_lt_mul hK]
    have h1 : m < (m / K + 1) * K := by
      rw [← Nat.div_lt_iff_lt_mul hK]; exact Nat.lt_succ_self _
    have h2 : f * m < f * ((m / K + 1) * K) := Nat.mul_lt_mul_of_pos_left h1 (by omega)
    have h3 : (f * (m / K) + f) * K = f * ((m / K + 1) * K) := by ring
    rw [h3, Nat.mul_comm m f]
    exact h2

/-- The interval over one step at the scaled rate is `f` times the interval at
the rate, to within `f`. -/
theorem floor_scale_within (m K n f : Nat) (hK : 0 < K) (hf : 1 ≤ f) :
    m * f * (n + 1) / K - m * f * n / K ≤ f * (m * (n + 1) / K - m * n / K) + f
    ∧ f * (m * (n + 1) / K - m * n / K) ≤ (m * f * (n + 1) / K - m * f * n / K) + f := by
  obtain ⟨a1, a2⟩ := floor_mul_step m K n 1 hK
  obtain ⟨b1, b2⟩ := floor_mul_step (m * f) K n 1 hK
  obtain ⟨c1, c2⟩ := floor_scale_rate m K f hK hf
  rw [Nat.mul_one] at a1 a2 b1 b2
  generalize m * (n + 1) / K - m * n / K = I at a1 a2 ⊢
  generalize m * f * (n + 1) / K - m * f * n / K = J at b1 b2 ⊢
  generalize m * f / K = Q at b1 b2 c1 c2
  generalize m / K = q at a1 a2 c1 c2
  have d1 : f * q ≤ f * I := Nat.mul_le_mul_left f a1
  have d2 : f * I ≤ f * (q + 1) := Nat.mul_le_mul_left f a2
  rw [Nat.mul_add, Nat.mul_one] at d2
  generalize f * q = X at c1 c2 d1 d2
  generalize f * I = Y at d1 d2 ⊢
  omega

/-- A call whose previous interval is at least the calculation threshold is
singly stepped. -/
theorem cartShiftFactor_zero_of_le (cfg : Config) (dm : DM)
    (h : cfg.MinCalcIntervalCartesian ≤ dm.stepInterval) : cartShiftFactor cfg dm = 0 := by
  unfold cartShiftFactor
  rw [if_neg (not_lt.mpr h)]

/-- The step index of a singly stepped call is `nextStep`. -/
theorem cartNextCalcStep_single (cfg : Config) (dm : DM) (h : cartShiftFactor cfg dm = 0)
    (hn : dm.nextStep < 4294967296) : cartNextCalcStep cfg dm = dm.nextStep := by
  unfold cartNextCalcStep
  rw [h, stepsTillRecalcOf_zero]
  unfold u32; omega

/-- The interval stored by a singly stepped call in the steady-speed phase
that is not late, when the 64-bit product and the 32-bit times involved do not
wrap: the steady-speed time of the step less the time of the previous
step. -/
theorem cruise_interval_single (cfg : Config) (dm : DM) (dda : DDA) (live : Bool) (q0 : Nat)
    (hs : cartShiftFactor cfg dm = 0) (hn : dm.nextStep < 4294967296)
    (hacc : dm.mp.cart.accelStopStep ≤ dm.nextStep)
    (hdec : dm.nextStep < dm.mp.cart.decelStartStep)
    (hlast : dm.nextStepTime
      = toU32 ((q0 : Int) + dda.extraAccelerationClocks - dm.mp.cart.accelCompensationClocks))
    (hq : q0 ≤ dm.mp.cart.mmPerStepTimesCKdivtopSpeed * dm.nextStep / cfg.K1)
    (hmul : dm.mp.cart.mmPerStepTimesCKdivtopSpeed * dm.nextStep < 18446744073709551616)
    (hlo : 0 ≤ (q0 : Int) + dda.extraAccelerationClocks - dm.mp.cart.accelCompensationClocks)
    (hhi : ((dm.mp.cart.mmPerStepTimesCKdivtopSpeed * dm.nextStep / cfg.K1 : Nat) : Int)
              + dda.extraAccelerationClocks - dm.mp.cart.accelCompensationClocks < 4294967296)
    (hnl : ((dm.mp.cart.mmPerStepTimesCKdivtopSpeed * dm.nextStep / cfg.K1 : Nat) : Int)
              + dda.extraAccelerationClocks - dm.mp.cart.accelCompensationClocks
            ≤ dda.clocksNeeded) :
    (CalcNextStepTimeCartesianFull cfg dm dda live).dm.stepInterval
      = dm.mp.cart.mmPerStepTimesCKdivtopSpeed * dm.nextStep / cfg.K1 - q0 := by
  have hcs := cartNextCalcStep_single cfg dm hs hn
  have hct : cartComputedTime cfg dm dda
      = toU32 (((dm.mp.cart.mmPerStepTimesCKdivtopSpeed * dm.nextStep / cfg.K1 : Nat) : Int)
                + dda.extraAccelerationClocks - dm.mp.cart.accelCompensationClocks) := by
    rw [cartComputedTime_eq, hcs, cartTimeAt_cruise cfg dm dda _ hacc hdec, u64_of_lt _ hmul]
  have hle : cartComputedTime cfg dm dda ≤ dda.clocksNeeded := by
    rw [hct]
    have h0 : (0 : Int) ≤ ((dm.mp.cart.mmPerStepTimesCKdivtopSpeed * dm.nextStep / cfg.K1 : Nat)
        : Int) + dda.extraAccelerationClocks - dm.mp.cart.accelCompensationClocks := by
      have : ((q0 : Nat) : Int)
          ≤ ((dm.mp.cart.mmPerStepTimesCKdivtopSpeed * dm.nextStep / cfg.K1 : Nat) : Int) := by
        exact_mod_cast hq
      linarith
    have := toU32_of_nonneg _ h0 hhi
    have h2 : ((toU32 (((dm.mp.cart.mmPerStepTimesCKdivtopSpeed * dm.nextStep / cfg.K1 : Nat)
        : Int) + dda.extraAccelerationClocks - dm.mp.cart.accelCompensationClocks) : Nat) : Int)
        ≤ (dda.clocksNeeded : Int) := by rw [this]; exact hnl
    exact_mod_cast h2
  rw [cartFull_stepInterval_of_le cfg dm dda live hle, hs, pow_zero, Nat.div_one, hct, hlast,
    subU32_cruise _ _ _ _ hlo hhi hq]

/-- The constants of a Cartesian record after `ReduceSpeed` with a factor
that does not overflow. -/
theorem reduceSpeed_cart (dm : DM) (dda : DDA) (f : Nat) (hcart : dda.isDeltaMovement = false)
    (hmf : dm.mp.cart.mmPerStepTimesCKdivtopSpeed * f < 4294967296)
    (hT : dm.totalSteps < 4294967295) :
    (ReduceSpeed dm dda f).mp.cart.accelStopStep = 0
    ∧ (ReduceSpeed dm dda f).mp.cart.decelStartStep = dm.totalSteps + 1
    ∧ (ReduceSpeed dm dda f).mp.cart.mmPerStepTimesCKdivtopSpeed
        = dm.mp.cart.mmPerStepTimesCKdivtopSpeed * f
    ∧ (ReduceSpeed dm dda f).mp.cart.accelCompensationClocks
        = dm.mp.cart.accelCompensationClocks := by
  have hr : ReduceSpeed dm dda f
      = { dm with mp := { dm.mp with cart := { dm.mp.cart with
            accelStopStep := 0
            decelStartStep := u32 (dm.totalSteps + 1)
            mmPerStepTimesCKdivtopSpeed :=
              u32 (dm.mp.cart.mmPerStepTimesCKdivtopSpeed * f) } } } := by
    unfold ReduceSpeed; rw [hcart]; rfl
  rw [hr]
  refine ⟨rfl, u32_succ_of_lt _ hT, ?_, rfl⟩
  show u32 (dm.mp.cart.mmPerStepTimesCKdivtopSpeed * f) = _
  unfold u32
  exact Nat.mod_eq_of_lt hmf

/-- C17 as the claim words it fails on the steady-speed record (10.5 clocks
per step) at step 12 with the factor 10: the unreduced movement produces the
interval 11 there; after `ReduceSpeed` the interval is 105 when step 11 was
also computed after the reduction, 5 ticks away from `10·11`, and 1145 when
step 11 was computed before it. All three calls are singly stepped and return
`true`. -/
theorem C17_interval_factor_counterexample :
    (CalcNextStepTimeCartesianFull exampleConfig (cruiseDM 12 615) exampleDDA true).dm.stepInterval
        = 11
    ∧ cartTimeAt exampleConfig (cruiseDM 12 615) exampleDDA 11 = 615
    ∧ cartTimeAt exampleConfig (ReduceSpeed (cruiseDM 12 615) exampleDDA 10) exampleDDA 11 = 1655
    ∧ (CalcNextStepTimeCartesianFull exampleConfig
          (atStep (ReduceSpeed (cruiseDM 12 615) exampleDDA 10) 12 1655 1000)
          exampleDDA true).dm.stepInterval = 105
    ∧ (CalcNextStepTimeCartesianFull exampleConfig
          (atStep (ReduceSpeed (cruiseDM 12 615) exampleDDA 10) 12 615 1000)
          exampleDDA true).dm.stepInterval = 1145
    ∧ cartShiftFactor exampleConfig (cruiseDM 12 615) = 0
    ∧ cartShiftFactor exampleConfig
        (atStep (ReduceSpeed (cruiseDM 12 615) exampleDDA 10) 12 1655 1000) = 0
    ∧ (CalcNextStepTimeCartesianFull exampleConfig (cruiseDM 12 615) exampleDDA true).ret = true
    ∧ (CalcNextStepTimeCartesianFull exampleConfig
          (atStep (ReduceSpeed (cruiseDM 12 615) exampleDDA 10) 12 1655 1000)
          exampleDDA true).ret = true
    ∧ (CalcNextStepTimeCartesianFull exampleConfig
          (atStep (ReduceSpeed (cruiseDM 12 615) exampleDDA 10) 12 615 1000)
          exampleDDA true).ret = true := by
  decide

/-- C17 (P5), amended: for a Cartesian record in the steady-speed phase at
the single step `n`, a factor `f ≥ 1` with
`mmPerStepTimesCKdivtopSpeed · f < 2^32`, no wrap of the 64-bit product and of
the 32-bit times and no late step, the interval produced after
`ReduceSpeed(dda, f)` is at least the interval the unreduced movement produces
at step `n`, whether step `n − 1` was computed before or after the reduction;
and when step `n − 1` was computed after the reduction it is `f` times that
interval to within `f` ticks. -/
theorem C17_speed_reduction_intervals (cfg : Config) (dm : DM) (dda : DDA) (f n i i2 : Nat)
    (live : Bool)
    (hK : 0 < cfg.K1) (hcart : dda.isDeltaMovement = false) (hf : 1 ≤ f)
    (hmf : dm.mp.cart.mmPerStepTimesCKdivtopSpeed * f < 4294967296)
    (hn1 : 1 ≤ n) (hn : n ≤ dm.totalSteps) (hT : dm.totalSteps < 4294967295)
    (hacc : dm.mp.cart.accelStopStep ≤ n - 1) (hdec : n < dm.mp.cart.decelStartStep)
    (hi : cfg.MinCalcIntervalCartesian ≤ i) (hi2 : cfg.MinCalcIntervalCartesian ≤ i2)
    (hmul : dm.mp.cart.mmPerStepTimesCKdivtopSpeed * f * n < 18446744073709551616)
    (hlo : 0 ≤ ((dm.mp.cart.mmPerStepTimesCKdivtopSpeed * (n - 1) / cfg.K1 : Nat) : Int)
              + dda.extraAccelerationClocks - dm.mp.cart.accelCompensationClocks)
    (hhi : ((dm.mp.cart.mmPerStepTimesCKdivtopSpeed * f * n / cfg.K1 : Nat) : Int)
              + dda.extraAccelerationClocks - dm.mp.cart.accelCompensationClocks < 4294967296)
    (hnl : ((dm.mp.cart.mmPerStepTimesCKdivtopSpeed * f * n / cfg.K1 : Nat) : Int)
              + dda.extraAccelerationClocks - dm.mp.cart.accelCompensationClocks
            ≤ dda.clocksNeeded) :
    (CalcNextStepTimeCartesianFull cfg
        (atStep dm n (cartTimeAt cfg dm dda (n - 1)) i) dda live).dm.stepInterval
      ≤ (CalcNextStepTimeCartesianFull cfg
          (atStep (ReduceSpeed dm dda f) n (cartTimeAt cfg dm dda (n - 1)) i)
          dda live).dm.stepInterval
    ∧ (CalcNextStepTimeCartesianFull cfg
        (atStep dm n (cartTimeAt cfg dm dda (n - 1)) i) dda live).dm.stepInterval
      ≤ (CalcNextStepTimeCartesianFull cfg
          (atStep (ReduceSpeed dm dda f) n (cartTimeAt cfg (ReduceSpeed dm dda f) dda (n - 1)) i2)
          dda live).dm.stepInterval
    ∧ (CalcNextStepTimeCartesianFull cfg
          (atStep (ReduceSpeed dm dda f) n (cartTimeAt cfg (ReduceSpeed dm dda f) dda (n - 1)) i2)
          dda live).dm.stepInterval
      ≤ f * (CalcNextStepTimeCartesianFull cfg
              (atStep dm n (cartTimeAt cfg dm dda (n - 1)) i) dda live).dm.stepInterval + f
    ∧ f * (CalcNextStepTimeCartesianFull cfg
              (atStep dm n (cartTimeAt cfg dm dda (n - 1)) i) dda live).dm.stepInterval
      ≤ (CalcNextStepTimeCartesianFull cfg
          (atStep (ReduceSpeed dm dda f) n (cartTimeAt cfg (ReduceSpeed dm dda f) dda (n - 1)) i2)
          dda live).dm.stepInterval + f := by
  obtain ⟨r1, r2, r3, r4⟩ := reduceSpeed_cart dm dda f hcart hmf hT
  obtain ⟨n0, rfl⟩ : ∃ n0, n = n0 + 1 := ⟨n - 1, by omega⟩
  rw [Nat.add_sub_cancel] at hacc hlo ⊢
  -- products and quotients involved, in increasing order
  have p1 : dm.mp.cart.mmPerStepTimesCKdivtopSpeed * n0
      ≤ dm.mp.cart.mmPerStepTimesCKdivtopSpeed * (n0 + 1) :=
    Nat.mul_le_mul_left _ (Nat.le_succ n0)
  have p2 : dm.mp.cart.mmPerStepTimesCKdivtopSpeed * (n0 + 1)
      ≤ dm.mp.cart.mmPerStepTimesCKdivtopSpeed * f * (n0 + 1) :=
    Nat.mul_le_mul_right _ (Nat.le_mul_of_pos_right _ hf)
  have p3 : dm.mp.cart.mmPerStepTimesCKdivtopSpeed * f * n0
      ≤ dm.mp.cart.mmPerStepTimesCKdivtopSpeed * f * (n0 + 1) :=
    Nat.mul_le_mul_left _ (Nat.le_succ n0)
  have p4 : dm.mp.cart.mmPerStepTimesCKdivtopSpeed * n0
      ≤ dm.mp.cart.mmPerStepTimesCKdivtopSpeed * f * n0 :=
    Nat.mul_le_mul_right _ (Nat.le_mul_of_pos_right _ hf)
  have q1 := Nat.div_le_div_right (c := cfg.K1) p1
  have q2 := Nat.div_le_div_right (c := cfg.K1) p2
  have q3 := Nat.div_le_div_right (c := cfg.K1) p3
  have q4 := Nat.div_le_div_right (c := cfg.K1) p4
  have c1 : ((dm.mp.cart.mmPerStepTimesCKdivtopSpeed * n0 / cfg.K1 : Nat) : Int)
      ≤ ((dm.mp.cart.mmPerStepTimesCKdivtopSpeed * (n0 + 1) / cfg.K1 : Nat) : Int) := by
    exact_mod_cast q1
  have c2 : ((dm.mp.cart.mmPerStepTimesCKdivtopSpeed * (n0 + 1) / cfg.K1 : Nat) : Int)
      ≤ ((dm.mp.cart.mmPerStepTimesCKdivtopSpeed * f * (n0 + 1) / cfg.K1 : Nat) : Int) := by
    exact_mod_cast q2
  have c4 : ((dm.mp.cart.mmPerStepTimesCKdivtopSpeed * n0 / cfg.K1 : Nat) : Int)
      ≤ ((dm.mp.cart.mmPerStepTimesCKdivtopSpeed * f * n0 / cfg.K1 : Nat) : Int) := by
    exact_mod_cast q4
  -- the times of the previous step
  have t0 : cartTimeAt cfg dm dda n0
      = toU32 (((dm.mp.cart.mmPerStepTimesCKdivtopSpeed * n0 / cfg.K1 : Nat) : Int)
                + dda.extraAccelerationClocks - dm.mp.cart.accelCompensationClocks) := by
    rw [cartTimeAt_cruise cfg dm dda n0 hacc (by omega),
      u64_of_lt _ (lt_of_le_of_lt (le_trans p1 p2) hmul)]
  have t0r : cartTimeAt cfg (ReduceSpeed dm dda f) dda n0
      = toU32 (((dm.mp.cart.mmPerStepTimesCKdivtopSpeed * f * n0 / cfg.K1 : Nat) : Int)
                + dda.extraAccelerationClocks - dm.mp.cart.accelCompensationClocks) := by
    rw [cartTimeAt_cruise cfg (ReduceSpeed dm dda f) dda n0 (by rw [r1]; exact Nat.zero_le _)
      (by rw [r2]; omega), r3, r4, u64_of_lt _ (lt_of_le_of_lt p3 hmul)]
  have hhiU : ((dm.mp.cart.mmPerStepTimesCKdivtopSpeed * (n0 + 1) / cfg.K1 : Nat) : Int)
      + dda.extraAccelerationClocks - dm.mp.cart.accelCompensationClocks < 4294967296 := by
    linarith
  have hnlU : ((dm.mp.cart.mmPerStepTimesCKdivtopSpeed * (n0 + 1) / cfg.K1 : Nat) : Int)
      + dda.extraAccelerationClocks - dm.mp.cart.accelCompensationClocks ≤ dda.clocksNeeded := by
    linarith
  have hloR : (0 : Int) ≤ ((dm.mp.cart.mmPerStepTimesCKdivtopSpeed * f * n0 / cfg.K1 : Nat) : Int)
      + dda.extraAccelerationClocks - dm.mp.cart.accelCompensationClocks := by
    linarith
  -- the three intervals
  have eU := cruise_interval_single cfg (atStep dm (n0 + 1) (cartTimeAt cfg dm dda n0) i) dda live
    (dm.mp.cart.mmPerStepTimesCKdivtopSpeed * n0 / cfg.K1)
    (cartShiftFactor_zero_of_le cfg _ hi) (show n0 + 1 < 4294967296 by omega)
    (show dm.mp.cart.accelStopStep ≤ n0 + 1 by omega) hdec t0 q1
    (lt_of_le_of_lt p2 hmul) hlo hhiU hnlU
  have eR1 := cruise_interval_single cfg
    (atStep (ReduceSpeed dm dda f) (n0 + 1) (cartTimeAt cfg dm dda n0) i) dda live
    (dm.mp.cart.mmPerStepTimesCKdivtopSpeed * n0 / cfg.K1)
    (cartShiftFactor_zero_of_le cfg _ hi) (show n0 + 1 < 4294967296 by omega)
    (show (ReduceSpeed dm dda f).mp.cart.accelStopStep ≤ n0 + 1 by rw [r1]; exact Nat.zero_le _)
    (show n0 + 1 < (ReduceSpeed dm dda f).mp.cart.decelStartStep by rw [r2]; omega)
    (show cartTimeAt cfg dm dda n0 = toU32 (_ + _ - ((ReduceSpeed dm dda f).mp.cart.accelCompensationClocks : Int)) by
      rw [r4]; exact t0)
    (show _ ≤ (ReduceSpeed dm dda f).mp.cart.mmPerStepTimesCKdivtopSpeed * (n0 + 1) / cfg.K1 by
      rw [r3]; exact le_trans q1 q2)
    (show (ReduceSpeed dm dda f).mp.cart.mmPerStepTimesCKdivtopSpeed * (n0 + 1) < _ by
      rw [r3]; exact hmul)
    (show (0 : Int) ≤ _ + _ - ((ReduceSpeed dm dda f).mp.cart.accelCompensationClocks : Int) by
      rw [r4]; exact hlo)
    (show (((ReduceSpeed dm dda f).mp.cart.mmPerStepTimesCKdivtopSpeed * (n0 + 1) / cfg.K1 : Nat)
        : Int) + _ - ((ReduceSpeed dm dda f).mp.cart.accelCompensationClocks : Int) < _ by
      rw [r3, r4]; exact hhi)
    (show (((ReduceSpeed dm dda f).mp.cart.mmPerStepTimesCKdivtopSpeed * (n0 + 1) / cfg.K1 : Nat)
        : Int) + _ - ((ReduceSpeed dm dda f).mp.cart.accelCompensationClocks : Int) ≤ _ by
      rw [r3, r4]; exact hnl)
  have eR2 := cruise_interval_single cfg
    (atStep (ReduceSpeed dm dda f) (n0 + 1) (cartTimeAt cfg (ReduceSpeed dm dda f) dda n0) i2)
    dda live (dm.mp.cart.mmPerStepTimesCKdivtopSpeed * f * n0 / cfg.K1)
    (cartShiftFactor_zero_of_le cfg _ hi2) (show n0 + 1 < 4294967296 by omega)
    (show (ReduceSpeed dm dda f).mp.cart.accelStopStep ≤ n0 + 1 by rw [r1]; exact Nat.zero_le _)
    (show n0 + 1 < (ReduceSpeed dm dda f).mp.cart.decelStartStep by rw [r2]; omega)
    (show cartTimeAt cfg (ReduceSpeed dm dda f) dda n0
        = toU32 (_ + _ - ((ReduceSpeed dm dda f).mp.cart.accelCompensationClocks : Int)) by
      rw [r4]; exact t0r)
    (show _ ≤ (ReduceSpeed dm dda f).mp.cart.mmPerStepTimesCKdivtopSpeed * (n0 + 1) / cfg.K1 by
      rw [r3]; exact q3)
    (show (ReduceSpeed dm dda f).mp.cart.mmPerStepTimesCKdivtopSpeed * (n0 + 1) < _ by
      rw [r3]; exact hmul)
    (show (0 : Int) ≤ _ + _ - ((ReduceSpeed dm dda f).mp.cart.accelCompensationClocks : Int) by
      rw [r4]; exact hloR)
    (show (((ReduceSpeed dm dda f).mp.cart.mmPerStepTimesCKdivtopSpeed * (n0 + 1) / cfg.K1 : Nat)
        : Int) + _ - ((ReduceSpeed dm dda f).mp.cart.accelCompensationClocks : Int) < _ by
      rw [r3, r4]; exact hhi)
    (show (((ReduceSpeed dm dda f).mp.cart.mmPerStepTimesCKdivtopSpeed * (n0 + 1) / cfg.K1 : Nat)
        : Int) + _ - ((ReduceSpeed dm dda f).mp.cart.accelCompensationClocks : Int) ≤ _ by
      rw [r3, r4]; exact hnl)
  rw [eU, eR1, eR2]
  show dm.mp.cart.mmPerStepTimesCKdivtopSpeed * (n0 + 1) / cfg.K1
        - dm.mp.cart.mmPerStepTimesCKdivtopSpeed * n0 / cfg.K1
      ≤ (ReduceSpeed dm dda f).mp.cart.mmPerStepTimesCKdivtopSpeed * (n0 + 1) / cfg.K1
        - dm.mp.cart.mmPerStepTimesCKdivtopSpeed * n0 / cfg.K1
    ∧ dm.mp.cart.mmPerStepTimesCKdivtopSpeed * (n0 + 1) / cfg.K1
        - dm.mp.cart.mmPerStepTimesCKdivtopSpeed * n0 / cfg.K1
      ≤ (ReduceSpeed dm dda f).mp.cart.mmPerStepTimesCKdivtopSpeed * (n0 + 1) / cfg.K1
        - dm.mp.cart.mmPerStepTimesCKdivtopSpeed * f * n0 / cfg.K1
    ∧ (ReduceSpeed dm dda f).mp.cart.mmPerStepTimesCKdivtopSpeed * (n0 + 1) / cfg.K1
        - dm.mp.cart.mmPerStepTimesCKdivtopSpeed * f * n0 / cfg.K1
      ≤ f * (dm.mp.cart.mmPerStepTimesCKdivtopSpeed * (n0 + 1) / cfg.K1
              - dm.mp.cart.mmPerStepTimesCKdivtopSpeed * n0 / cfg.K1) + f
    ∧ f * (dm.mp.cart.mmPerStepTimesCKdivtopSpeed * (n0 + 1) / cfg.K1
              - dm.mp.cart.mmPerStepTimesCKdivtopSpeed * n0 / cfg.K1)
      ≤ (ReduceSpeed dm dda f).mp.cart.mmPerStepTimesCKdivtopSpeed * (n0 + 1) / cfg.K1
        - dm.mp.cart.mmPerStepTimesCKdivtopSpeed * f * n0 / cfg.K1 + f
  rw [r3]
  obtain ⟨w1, w2⟩ := floor_scale_within dm.mp.cart.mmPerStepTimesCKdivtopSpeed cfg.K1 n0 f hK hf
  have g := floor_scale_ge (dm.mp.cart.mmPerStepTimesCKdivtopSpeed * n0)
    (dm.mp.cart.mmPerStepTimesCKdivtopSpeed * (n0 + 1)) cfg.K1 f hK hf p1
  have m1 : f * (dm.mp.cart.mmPerStepTimesCKdivtopSpeed * (n0 + 1))
      = dm.mp.cart.mmPerStepTimesCKdivtopSpeed * f * (n0 + 1) := by ring
  have m2 : f * (dm.mp.cart.mmPerStepTimesCKdivtopSpeed * n0)
      = dm.mp.cart.mmPerStepTimesCKdivtopSpeed * f * n0 := by ring
  rw [m1, m2] at g
  exact ⟨Nat.sub_le_sub_right q2 _, g, w1, w2⟩

/-- C17 amended, on the steady-speed record at step 12 with the factor 10:
the interval after the reduction (105, or 1145 right after it) is at least
the unreduced one (11) and 105 is within 10 ticks of `10·11`. -/
theorem C17_speed_reduction_intervals_witness :
    (0 < exampleConfig.K1 ∧ exampleDDA.isDeltaMovement = false ∧ 1 ≤ 10
      ∧ (cruiseDM 12 615).mp.cart.mmPerStepTimesCKdivtopSpeed * 10 < 4294967296
      ∧ (cruiseDM 12 615).mp.cart.accelStopStep ≤ 12 - 1
      ∧ 12 < (cruiseDM 12 615).mp.cart.decelStartStep)
    ∧ (CalcNextStepTimeCartesianFull exampleConfig
        (atStep (cruiseDM 12 615) 12 (cartTimeAt exampleConfig (cruiseDM 12 615) exampleDDA (12 - 1))
          1000) exampleDDA true).dm.stepInterval
      ≤ (CalcNextStepTimeCartesianFull exampleConfig
          (atStep (ReduceSpeed (cruiseDM 12 615) exampleDDA 10) 12
            (cartTimeAt exampleConfig (ReduceSpeed (cruiseDM 12 615) exampleDDA 10) exampleDDA
              (12 - 1)) 1000)
          exampleDDA true).dm.stepInterval
    ∧ (CalcNextStepTimeCartesianFull exampleConfig
          (atStep (ReduceSpeed (cruiseDM 12 615) exampleDDA 10) 12
            (cartTimeAt exampleConfig (ReduceSpeed (cruiseDM 12 615) exampleDDA 10) exampleDDA
              (12 - 1)) 1000)
          exampleDDA true).dm.stepInterval
      ≤ 10 * (CalcNextStepTimeCartesianFull exampleConfig
          (atStep (cruiseDM 12 615) 12
            (cartTimeAt exampleConfig (cruiseDM 12 615) exampleDDA (12 - 1)) 1000)
          exampleDDA true).dm.stepInterval + 10 :=
  have h := C17_speed_reduction_intervals exampleConfig (cruiseDM 12 615) exampleDDA 10 12 1000
    1000 true (by decide) rfl (by decide) (by decide) (by decide) (by decide) (by decide)
    (by decide) (by decide) (by decide) (by decide) (by decide) (by decide) (by decide)
    (by decide)
  ⟨⟨by decide, rfl, by decide, by decide, by decide, by decide⟩, h.2.1, h.2.2.1⟩

/-! ## Priming, allocation and release -/

/-- One `new DriveMovement(freeList)` extends the chain by one record. -/
theorem pushNew_chain (p : Pool) (m : Nat) (hf : p.fresh = m) (hc : PoolChain p m) :
    (pushNew p).fresh = m + 1 ∧ PoolChain (pushNew p) (m + 1) := by
  subst hf
  obtain ⟨hhead, hlinks⟩ := hc
  refine ⟨rfl, ?_, ?_⟩
  · show some p.fresh = if p.fresh + 1 = 0 then none else some (p.fresh + 1 - 1)
    simp
  · intro i hi
    show (Function.update p.heap p.fresh { p.heap p.fresh with nextDM := p.freeList } i).nextDM = _
    by_cases him : i = p.fresh
    · subst him
      rw [Function.update_same]
      show p.freeList = _
      rw [hhead]
    · rw [Function.update_noteq him]
      exact hlinks i (by omega)

/-- The loop of `InitialAllocate` extends the chain by `num` records and
leaves `minFree` alone. -/
theorem pushNewTimes_chain (num : Nat) :
    ∀ (p : Pool) (m : Nat), p.fresh = m → PoolChain p m → p.numFree = m →
      m + num < 2147483648 →
      (pushNewTimes num p).fresh = m + num
      ∧ PoolChain (pushNewTimes num p) (m + num)
      ∧ (pushNewTimes num p).numFree = ((m + num : Nat) : Int)
      ∧ (pushNewTimes num p).minFree = p.minFree := by
  induction num with
  | zero =>
    intro p m hf hc hn _
    exact ⟨hf, hc, hn, rfl⟩
  | succ j ih =>
    intro p m hf hc hn hlt
    obtain ⟨hf1, hc1⟩ := pushNew_chain p m hf hc
    have hn1 : (pushNew p).numFree = ((m + 1 : Nat) : Int) := by
      have : (pushNew p).numFree = s32 (p.numFree + 1) := rfl
      rw [this, hn, s32_succ _ (by omega) (by omega)]
      push_cast; rfl
    obtain ⟨g1, g2, g3, g4⟩ := ih (pushNew p) (m + 1) hf1 hc1 hn1 (by omega)
    have e : m + 1 + j = m + (j + 1) := by omega
    rw [e] at g1 g2 g3
    exact ⟨g1, g2, g3, g4⟩

theorem emptyPool_chain (heap : Nat → DM) : PoolChain (emptyPool heap) 0 :=
  ⟨rfl, fun i hi => absurd hi (Nat.not_lt_zero i)⟩

/-- The pool primed by `InitialAllocate(n)`. -/
theorem initialAllocate_chain (heap : Nat → DM) (n : Nat) (hn : n < 2147483648) :
    PoolChain (InitialAllocate (emptyPool heap) n) n
    ∧ (InitialAllocate (emptyPool heap) n).numFree = (n : Int)
    ∧ (InitialAllocate (emptyPool heap) n).minFree = (n : Int) := by
  obtain ⟨-, g2, g3, -⟩ :=
    pushNewTimes_chain n (emptyPool heap) 0 rfl (emptyPool_chain heap) rfl (by omega)
  rw [Nat.zero_add] at g2 g3
  exact ⟨g2, g3, g3⟩

/-- Following the links of a chain of `m` records visits `m` records. -/
theorem freeListAddresses_length (heap : Nat → DM) (m : Nat) :
    ∀ fuel, m ≤ fuel →
      (∀ i, i < m → (heap i).nextDM = if i = 0 then none else some (i - 1)) →
      (freeListAddresses heap fuel (if m = 0 then none else some (m - 1))).length = m := by
  induction m with
  | zero =>
    intro fuel _ _
    cases fuel <;> rfl
  | succ j ih =>
    intro fuel hfuel hlinks
    obtain ⟨f, rfl⟩ : ∃ f, fuel = f + 1 := ⟨fuel - 1, by omega⟩
    have hj : (if j + 1 = 0 then (none : Option Nat) else some (j + 1 - 1)) = some j := by simp
    rw [hj]
    show (j :: freeListAddresses heap f (heap j).nextDM).length = j + 1
    rw [hlinks j (by omega), List.length_cons, ih f (by omega) (fun i hi => hlinks i (by omega))]

/-- One `Allocate` on a chain of `m + 1` records whose low-water mark is the
current count. -/
theorem allocate_chain (p : Pool) (m : Nat) (drive : Nat) (st : DMState)
    (hc : PoolChain p (m + 1)) (hn : p.numFree = ((m + 1 : Nat) : Int))
    (hmin : p.minFree = p.numFree) (hlt : m + 1 < 2147483648) :
    (Allocate p drive st).2 = some m
    ∧ PoolChain (Allocate p drive st).1 m
    ∧ (Allocate p drive st).1.numFree = (m : Int)
    ∧ (Allocate p drive st).1.minFree = (m : Int) := by
  obtain ⟨hhead, hlinks⟩ := hc
  have hhead' : p.freeList = some m := by rw [hhead]; simp
  have hA : Allocate p drive st
      = ({ p with
           heap := Function.update p.heap m
             { p.heap m with nextDM := none, drive := drive % 256, state := st }
           freeList := (p.heap m).nextDM
           numFree := s32 (p.numFree - 1)
           minFree := if s32 (p.numFree - 1) < p.minFree then s32 (p.numFree - 1)
                      else p.minFree }, some m) := by
    unfold Allocate; rw [hhead']
  have hnum : s32 (p.numFree - 1) = (m : Int) := by
    rw [hn, s32_pred _ (by omega) (by omega)]
    push_cast; ring
  rw [hA]
  refine ⟨rfl, ⟨?_, ?_⟩, hnum, ?_⟩
  · exact hlinks m (by omega)
  · intro i hi
    show (Function.update p.heap m _ i).nextDM = _
    rw [Function.update_noteq (by omega)]
    exact hlinks i (by omega)
  · show (if s32 (p.numFree - 1) < p.minFree then s32 (p.numFree - 1) else p.minFree) = (m : Int)
    rw [hnum, hmin, hn, if_pos (by push_cast; omega)]

/-- After `k` calls of `Allocate` on a chain of `m ≥ k` records whose low-water
mark is the current count: the records at `m − 1, …, m − k` were returned, in
this order, and `m − k` records remain. -/
theorem allocateTimes_chain (drive : Nat) (st : DMState) (k : Nat) :
    ∀ (p : Pool) (m : Nat), PoolChain p m → p.numFree = (m : Int) → p.minFree = p.numFree →
      k ≤ m → m < 2147483648 →
      (allocateTimes drive st k p).2 = (List.range k).map (fun i => some (m - 1 - i))
      ∧ PoolChain (allocateTimes drive st k p).1 (m - k)
      ∧ (allocateTimes drive st k p).1.numFree = ((m - k : Nat) : Int)
      ∧ (allocateTimes drive st k p).1.minFree = ((m - k : Nat) : Int) := by
  induction k with
  | zero =>
    intro p m hc hn hmin _ _
    exact ⟨rfl, hc, hn, hmin.trans hn⟩
  | succ j ih =>
    intro p m hc hn hmin hk hlt
    obtain ⟨m', rfl⟩ : ∃ m', m = m' + 1 := ⟨m - 1, by omega⟩
    obtain ⟨a1, a2, a3, a4⟩ := allocate_chain p m' drive st hc hn hmin hlt
    obtain ⟨b1, b2, b3, b4⟩ :=
      ih (Allocate p drive st).1 m' a2 a3 (a4.trans a3.symm) (by omega) (by omega)
    have e : m' + 1 - (j + 1) = m' - j := by omega
    rw [e]
    refine ⟨?_, b2, b3, b4⟩
    show (Allocate p drive st).2 :: (allocateTimes drive st j (Allocate p drive st).1).2 = _
    rw [a1, b1, List.range_succ_eq_map, List.map_cons, List.map_map]
    congr 1
    apply List.map_congr_left
    intro i _
    show some (m' - 1 - i) = some (m' + 1 - 1 - (i + 1))
    congr 1
    omega

/-- Releasing a list of records adds its length to `numFree` and leaves
`minFree` alone. -/
theorem releaseAll_counts (items : List Nat) :
    ∀ (p : Pool), p.numFree + items.length < 2147483648 → -2147483648 ≤ p.numFree →
      (releaseAll items p).numFree = p.numFree + items.length
      ∧ (releaseAll items p).minFree = p.minFree := by
  induction items with
  | nil =>
    intro p _ _
    exact ⟨by simp [releaseAll], rfl⟩
  | cons a rest ih =>
    intro p h1 h2
    have hlen : ((a :: rest).length : Int) = rest.length + 1 := by
      rw [List.length_cons]; push_cast; rfl
    rw [hlen] at h1 ⊢
    have hr : (Release p a).numFree = p.numFree + 1 := by
      show s32 (p.numFree + 1) = p.numFree + 1
      exact s32_succ _ h2 (by omega)
    obtain ⟨g1, g2⟩ := ih (Release p a) (by rw [hr]; omega) (by rw [hr]; omega)
    refine ⟨?_, ?_⟩
    · show (releaseAll rest (Release p a)).numFree = _
      rw [g1, hr]; ring
    · show (releaseAll rest (Release p a)).minFree = _
      rw [g2]; rfl

/-- C19 (P6): on the pool primed by `InitialAllocate(n)`, where
`numFree = minFree = n` is the length of the free list, `k ≤ n` calls of
`Allocate` return `k` distinct records, none of them `nullptr`, and leave
`numFree = minFree = n − k`; releasing those `k` records, in any order, then
raises `numFree` by one per record back to `n` exactly, and `minFree` stays at
`n − k`, the least value `numFree` took. -/
theorem C19_free_list_round_trip (heap : Nat → DM) (n k : Nat) (drive : Nat) (st : DMState)
    (hn : n < 2147483648) (hk : k ≤ n) :
    (InitialAllocate (emptyPool heap) n).numFree = (n : Int)
    ∧ (InitialAllocate (emptyPool heap) n).minFree = (n : Int)
    ∧ (freeListAddresses (InitialAllocate (emptyPool heap) n).heap (n + 1)
          (InitialAllocate (emptyPool heap) n).freeList).length = n
    ∧ (allocateTimes drive st k (InitialAllocate (emptyPool heap) n)).2.length = k
    ∧ (∀ r ∈ (allocateTimes drive st k (InitialAllocate (emptyPool heap) n)).2, r ≠ none)
    ∧ (allocateTimes drive st k (InitialAllocate (emptyPool heap) n)).2.Nodup
    ∧ (allocateTimes drive st k (InitialAllocate (emptyPool heap) n)).1.numFree
        = (n : Int) - (k : Int)
    ∧ (allocateTimes drive st k (InitialAllocate (emptyPool heap) n)).1.minFree
        = (n : Int) - (k : Int)
    ∧ ∀ items : List Nat,
        (items.map some).Perm (allocateTimes drive st k (InitialAllocate (emptyPool heap) n)).2 →
        (releaseAll items (allocateTimes drive st k (InitialAllocate (emptyPool heap) n)).1).numFree
            = (n : Int)
        ∧ (releaseAll items
              (allocateTimes drive st k (InitialAllocate (emptyPool heap) n)).1).minFree
            = (n : Int) - (k : Int)
        ∧ ∀ j, j ≤ items.length →
            (releaseAll (items.take j)
                (allocateTimes drive st k (InitialAllocate (emptyPool heap) n)).1).numFree
              = (n : Int) - (k : Int) + (j : Int) := by
  obtain ⟨hc, hnum, hmin⟩ := initialAllocate_chain heap n hn
  obtain ⟨a1, -, a3, a4⟩ :=
    allocateTimes_chain drive st k (InitialAllocate (emptyPool heap) n) n hc hnum
      (hmin.trans hnum.symm) hk hn
  have hsub : ((n - k : Nat) : Int) = (n : Int) - (k : Int) := by omega
  rw [hsub] at a3 a4
  refine ⟨hnum, hmin, ?_, ?_, ?_, ?_, a3, a4, ?_⟩
  · rw [hc.1]
    exact freeListAddresses_length _ n (n + 1) (by omega) hc.2
  · rw [a1, List.length_map, List.length_range]
  · intro r hr
    rw [a1, List.mem_map] at hr
    obtain ⟨i, -, rfl⟩ := hr
    exact Option.some_ne_none _
  · rw [a1]
    refine List.Nodup.map_on ?_ (List.nodup_range k)
    intro x hx y hy hxy
    rw [List.mem_range] at hx hy
    have := Option.some.inj hxy
    omega
  · intro items hperm
    have hlen : items.length = k := by
      have := hperm.length_eq
      rw [a1, List.length_map, List.length_map, List.length_range] at this
      exact this
    have key : ∀ j, j ≤ items.length →
        (releaseAll (items.take j)
            (allocateTimes drive st k (InitialAllocate (emptyPool heap) n)).1).numFree
          = (n : Int) - (k : Int) + (j : Int)
        ∧ (releaseAll (items.take j)
            (allocateTimes drive st k (InitialAllocate (emptyPool heap) n)).1).minFree
          = (n : Int) - (k : Int) := by
      intro j hj
      have hl : (items.take j).length = j := by
        rw [List.length_take]; exact Nat.min_eq_left hj
      obtain ⟨g1, g2⟩ := releaseAll_counts (items.take j)
        (allocateTimes drive st k (InitialAllocate (emptyPool heap) n)).1
        (by rw [a3, hl]; omega) (by rw [a3]; omega)
      rw [hl, a3] at g1
      rw [a4] at g2
      exact ⟨g1, g2⟩
    have hfull := key items.length le_rfl
    rw [List.take_length] at hfull
    refine ⟨?_, hfull.2, fun j hj => (key j hj).1⟩
    rw [hfull.1, hlen]; ring

/-- C19 on a pool of three records, two of which are allocated and released
in the order of allocation. -/
theorem C19_free_list_round_trip_witness :
    (3 : Nat) < 2147483648 ∧ (2 : Nat) ≤ 3
    ∧ (allocateTimes 0 DMState.moving 2
          (InitialAllocate (emptyPool (fun _ => exampleDM 0)) 3)).2 = [some 2, some 1]
    ∧ (releaseAll [2, 1]
          (allocateTimes 0 DMState.moving 2
            (InitialAllocate (emptyPool (fun _ => exampleDM 0)) 3)).1).numFree = 3
    ∧ (releaseAll [2, 1]
          (allocateTimes 0 DMState.moving 2
            (InitialAllocate (emptyPool (fun _ => exampleDM 0)) 3)).1).minFree = 3 - 2 :=
  have h := C19_free_list_round_trip (fun _ => exampleDM 0) 3 2 0 DMState.moving
    (by decide) (by decide)
  ⟨by decide, by decide, by decide,
   (h.2.2.2.2.2.2.2.2 [2, 1] (by decide)).1, (h.2.2.2.2.2.2.2.2 [2, 1] (by decide)).2.1⟩

/-- C20: when the previous step (`nextStep − 1`) and the step being computed
both lie between `accelStopStep` and `decelStartStep`, the time of the previous
step is the steady-speed time computed with the same constants, the 64-bit
product and the 32-bit times do not wrap and the step is not late, the
`stepInterval` stored by `CalcNextStepTimeCartesianFull` is `⌊m/K1⌋` or
`⌊m/K1⌋ + 1`, whatever the shift factor, with
`m = mmPerStepTimesCKdivtopSpeed`. -/
theorem C20_uniform_cruise_spacing (cfg : Config) (dm : DM) (dda : DDA) (live : Bool)
    (hK : 0 < cfg.K1)
    (hle : dm.nextStep ≤ dm.totalSteps) (hT : dm.totalSteps < 4294967295)
    (h1 : 1 ≤ dm.nextStep)
    (hprev : dm.mp.cart.accelStopStep ≤ dm.nextStep - 1)
    (hcur : cartNextCalcStep cfg dm < dm.mp.cart.decelStartStep)
    (hlast : dm.nextStepTime = cartTimeAt cfg dm dda (dm.nextStep - 1))
    (hmul : dm.mp.cart.mmPerStepTimesCKdivtopSpeed * cartNextCalcStep cfg dm
              < 18446744073709551616)
    (hlo : 0 ≤ ((dm.mp.cart.mmPerStepTimesCKdivtopSpeed * (dm.nextStep - 1) / cfg.K1 : Nat) : Int)
              + dda.extraAccelerationClocks - dm.mp.cart.accelCompensationClocks)
    (hhi : ((dm.mp.cart.mmPerStepTimesCKdivtopSpeed * cartNextCalcStep cfg dm / cfg.K1 : Nat)
              : Int)
              + dda.extraAccelerationClocks - dm.mp.cart.accelCompensationClocks < 4294967296)
    (hnl : cartComputedTime cfg dm dda ≤ dda.clocksNeeded) :
    (CalcNextStepTimeCartesianFull cfg dm dda live).dm.stepInterval
        = dm.mp.cart.mmPerStepTimesCKdivtopSpeed / cfg.K1
    ∨ (CalcNextStepTimeCartesianFull cfg dm dda live).dm.stepInterval
        = dm.mp.cart.mmPerStepTimesCKdivtopSpeed / cfg.K1 + 1 := by
  have hn := cartNextCalcStep_eq_pred_add cfg dm hle hT h1
  have hpos := Nat.two_pow_pos (cartShiftFactor cfg dm)
  have hlt : dm.nextStep - 1 < cartNextCalcStep cfg dm := by rw [hn]; omega
  have hprod : dm.mp.cart.mmPerStepTimesCKdivtopSpeed * (dm.nextStep - 1)
      ≤ dm.mp.cart.mmPerStepTimesCKdivtopSpeed * cartNextCalcStep cfg dm :=
    Nat.mul_le_mul_left _ (le_of_lt hlt)
  rw [cartFull_stepInterval_of_le cfg dm dda live hnl, cartComputedTime_eq, hlast,
    cartTimeAt_cruise cfg dm dda _ (le_trans hprev (le_of_lt hlt)) hcur,
    cartTimeAt_cruise cfg dm dda _ hprev (lt_trans hlt hcur),
    u64_of_lt _ hmul, u64_of_lt _ (lt_of_le_of_lt hprod hmul),
    subU32_cruise _ _ _ _ hlo hhi (Nat.div_le_div_right hprod), hn]
  exact floor_mul_interval _ _ _ _ hK

/-- C20 on the steady-speed record at step 12, the previous step at time
`⌊10752·11/1024⌋ + 500 = 615`: the stored interval is `626 − 615 = 11`, that
is `⌊10752/1024⌋ + 1`. -/
theorem C20_uniform_cruise_spacing_witness :
    (cruiseDM 12 615).nextStepTime = cartTimeAt exampleConfig (cruiseDM 12 615) exampleDDA 11
    ∧ cartNextCalcStep exampleConfig (cruiseDM 12 615) = 12
    ∧ (CalcNextStepTimeCartesianFull exampleConfig (cruiseDM 12 615) exampleDDA true).dm.stepInterval
        = 11
    ∧ ((CalcNextStepTimeCartesianFull exampleConfig (cruiseDM 12 615) exampleDDA true).dm.stepInterval
          = (cruiseDM 12 615).mp.cart.mmPerStepTimesCKdivtopSpeed / exampleConfig.K1
        ∨ (CalcNextStepTimeCartesianFull exampleConfig (cruiseDM 12 615) exampleDDA
              true).dm.stepInterval
          = (cruiseDM 12 615).mp.cart.mmPerStepTimesCKdivtopSpeed / exampleConfig.K1 + 1) :=
  ⟨by decide, by decide, by decide,
   C20_uniform_cruise_spacing exampleConfig (cruiseDM 12 615) exampleDDA true
     (by decide) (by decide) (by decide) (by decide) (by decide) (by decide) (by decide)
     (by decide) (by decide) (by decide) (by decide)⟩

/-! ## Reversal installed by `PrepareDeltaAxis` -/

theorem prepDelta_reverseStartStep (dm : DM) (top : Nat) (v : DeltaPrepValues) :
    (PrepareDeltaAxis dm top v).reverseStartStep
      = if deltaReversalInstalled dm v then u32 (toU32 v.numStepsUp + 1)
        else u32 (dm.totalSteps + 1) := rfl

theorem prepDelta_totalSteps (dm : DM) (top : Nat) (v : DeltaPrepValues) :
    (PrepareDeltaAxis dm top v).totalSteps
      = if deltaReversalInstalled dm v then
          (if dm.direction then subU32 (toU32 (s32 (2 * v.numStepsUp))) dm.totalSteps
           else u32 (toU32 (s32 (2 * v.numStepsUp)) + dm.totalSteps))
        else dm.totalSteps := rfl

theorem prepDelta_direction (dm : DM) (top : Nat) (v : DeltaPrepValues) :
    (PrepareDeltaAxis dm top v).direction
      = if v.pureZ then v.zNonNegative
        else if deltaReversalInstalled dm v then true else dm.direction := rfl

/-- The reversal is installed exactly when the reversal point is in range,
`numStepsUp ≥ 1`, and the drive is not a forward drive with
`numStepsUp ≤ totalSteps`. -/
theorem deltaReversalInstalled_iff (dm : DM) (v : DeltaPrepValues)
    (hn : -2147483648 ≤ v.numStepsUp ∧ v.numStepsUp < 2147483648) :
    deltaReversalInstalled dm v = true ↔
      (v.pureZ = false ∧ v.drevInRange = true ∧ 1 ≤ v.numStepsUp
        ∧ ¬ (dm.direction = true ∧ v.numStepsUp ≤ dm.totalSteps)) := by
  unfold deltaReversalInstalled
  by_cases h1 : v.numStepsUp < 1
  · have h1' : ¬ 1 ≤ v.numStepsUp := by omega
    simp [h1, h1']
  · have h1' : 1 ≤ v.numStepsUp := by omega
    have : toU32 v.numStepsUp ≤ dm.totalSteps ↔ v.numStepsUp ≤ dm.totalSteps := by
      unfold toU32; omega
    cases hp : v.pureZ <;> cases hd : v.drevInRange <;> cases hdir : dm.direction <;>
      simp [h1, h1', this]

theorem reverseStart_of_up (n : Int) (h1 : 1 ≤ n) (h2 : n < 2147483648) :
    ((u32 (toU32 n + 1) : Nat) : Int) = n + 1 := by
  unfold u32 toU32; omega

theorem totalSteps_forward_of_up (n : Int) (t : Nat) (h1 : (t : Int) < n) (h2 : n < 2147483648) :
    ((subU32 (toU32 (s32 (2 * n))) t : Nat) : Int) = 2 * n - t := by
  unfold subU32 toU32 s32; omega

theorem totalSteps_reverse_of_up (n : Int) (t : Nat) (h1 : 1 ≤ n) (h2 : n < 2147483648)
    (h3 : 2 * n + t < 4294967296) :
    ((u32 (toU32 (s32 (2 * n)) + t) : Nat) : Int) = 2 * n + t := by
  unfold u32 toU32 s32; omega

/-! ## Pure vertical Delta moves -/

theorem s64_sub_add_cancel (d x : Int) : s64 (s64 (d - s64 x) + s64 x) = s64 d := by
  unfold s64; omega

theorem s64_of_range (x : Int) (h1 : -9223372036854775808 ≤ x) (h2 : x < 9223372036854775808) :
    s64 x = x := by
  unfold s64; omega

theorem s32_range (x : Int) : -2147483648 ≤ s32 x ∧ s32 x < 2147483648 := by
  unfold s32; omega

theorem toU64_of_nonneg (x : Int) (h0 : 0 ≤ x) (h1 : x < 18446744073709551616) :
    ((toU64 x : Nat) : Int) = x := by
  unfold toU64; omega

/-- The product of two `int32_t` values fits an `int64_t`. -/
theorem mul_int32_range (x y : Int) (hx : -2147483648 ≤ x ∧ x < 2147483648)
    (hy : 0 < y ∧ y < 2147483648) :
    -9223372036854775808 ≤ x * y ∧ x * y < 9223372036854775808 := by
  constructor <;> nlinarith [hx.1, hx.2, hy.1, hy.2]

theorem deltaHmz0sK_range (cfg : Config) (dm : DM) :
    -2147483648 ≤ deltaHmz0sK cfg dm ∧ deltaHmz0sK cfg dm < 2147483648 := by
  rw [deltaHmz0sK_eq]
  exact s32_range _

/-- The value `dsK` of a forward call on a record with
`minusAaPlusBbTimesKs = 0` and `dda.cKc = Kc`: the height counter after its
update less the root of the (positive) constant
`dSquaredMinusAsquaredMinusBsquaredTimesKsquaredSsquared`. -/
theorem deltaDsK_pureZ (cfg : Config) (dm : DM) (dda : DDA)
    (ha : dm.mp.delta.minusAaPlusBbTimesKs = 0) (hc : dda.cKc = cfg.Kc)
    (hKc : 0 < cfg.Kc ∧ cfg.Kc < 2147483648)
    (hdir : deltaDirection dm = true)
    (hd : 0 < dm.mp.delta.dSquaredMinusAsquaredMinusBsquaredTimesKsquaredSsquared
          ∧ dm.mp.delta.dSquaredMinusAsquaredMinusBsquaredTimesKsquaredSsquared
              < 9223372036854775808)
    (hq : isqrt64 (toU64 dm.mp.delta.dSquaredMinusAsquaredMinusBsquaredTimesKsquaredSsquared)
          < 2147483648)
    (hr : -2147483648 ≤ deltaHmz0sK cfg dm
            - (isqrt64 (toU64 dm.mp.delta.dSquaredMinusAsquaredMinusBsquaredTimesKsquaredSsquared)
                : Int)) :
    deltaDsK cfg dm dda
      = deltaHmz0sK cfg dm
        - (isqrt64 (toU64 dm.mp.delta.dSquaredMinusAsquaredMinusBsquaredTimesKsquaredSsquared)
            : Int) := by
  have hH := deltaHmz0sK_range cfg dm
  unfold deltaDsK
  simp only
  generalize deltaHmz0sK cfg dm = H at hH hr ⊢
  have e1 : s32 (Int.tdiv (s64 (H * dda.cKc)) cfg.Kc) = H := by
    rw [hc, s64_of_range _ (mul_int32_range H cfg.Kc hH hKc).1 (mul_int32_range H cfg.Kc hH hKc).2,
      Int.mul_tdiv_cancel _ (ne_of_gt hKc.1), s32_of_range _ hH.1 hH.2]
  rw [e1, ha, zero_add, s32_of_range _ hH.1 hH.2, s64_sub_add_cancel,
    s64_of_range _ (by linarith [hd.1]) hd.2, if_pos hd.1, hdir]
  simp only [if_true]
  generalize isqrt64 (toU64 dm.mp.delta.dSquaredMinusAsquaredMinusBsquaredTimesKsquaredSsquared)
    = q at hq hr ⊢
  have e2 : s32 (q : Int) = q := s32_of_range _ (by omega) (by omega)
  rw [e2]
  exact s32_of_range _ hr (by omega)

/-- C21: when `a2plusb2 ≤ 0`, `PrepareDeltaAxis` sets `direction` to
`directionVector[Z] ≥ 0` and `reverseStartStep` to `totalSteps + 1` (32-bit
sum) and leaves `totalSteps` alone. On a forward Delta record `d` in that
configuration (`reverseStartStep = totalSteps + 1`,
`minusAaPlusBbTimesKs = 0`, `dda.cKc = Kc`, a positive
`dSquaredMinusAsquaredMinusBsquaredTimesKsquaredSsquared`, no overflow of the
32-bit height counter and of `dsK`), a call on a step of the segment keeps
`direction`, and the `dsK` of the next call exceeds the `dsK` of this call by
exactly `K2 · (stepsTillRecalc + 1)`, `stepsTillRecalc` being the value the
next call stores; the next record is again in the configuration. -/
theorem C21_delta_pure_z (cfg : Config) (dm : DM) (topSpeedTimesCdivA : Nat)
    (v : DeltaPrepValues) (d d2 : DM) (dda : DDA) (live : Bool)
    (hrev : d.reverseStartStep = d.totalSteps + 1)
    (hle : d.nextStep ≤ d.totalSteps)
    (hdir : d.direction = true)
    (ha : d.mp.delta.minusAaPlusBbTimesKs = 0) (hc : dda.cKc = cfg.Kc)
    (hKc : 0 < cfg.Kc ∧ cfg.Kc < 2147483648) (hK2 : 0 < cfg.K2)
    (hd : 0 < d.mp.delta.dSquaredMinusAsquaredMinusBsquaredTimesKsquaredSsquared
          ∧ d.mp.delta.dSquaredMinusAsquaredMinusBsquaredTimesKsquaredSsquared
              < 9223372036854775808)
    (hq : isqrt64 (toU64 d.mp.delta.dSquaredMinusAsquaredMinusBsquaredTimesKsquaredSsquared)
          < 2147483648)
    (hr : -2147483648 ≤ deltaHmz0sK cfg d
            - (isqrt64 (toU64 d.mp.delta.dSquaredMinusAsquaredMinusBsquaredTimesKsquaredSsquared)
                : Int))
    (hd2 : d2 = deltaAdvance (CalcNextStepTimeDeltaFull cfg d dda live).dm)
    (hle2 : d2.nextStep ≤ d2.totalSteps)
    (hfit : d2.mp.delta.hmz0sK
              + ((cfg.K2 * (stepsTillRecalcOf (deltaShiftFactor cfg d2) + 1) : Nat) : Int)
            < 2147483648) :
    (v.pureZ = true →
        (PrepareDeltaAxis dm topSpeedTimesCdivA v).direction = v.zNonNegative
        ∧ (PrepareDeltaAxis dm topSpeedTimesCdivA v).reverseStartStep
            = (dm.totalSteps + 1) % 4294967296
        ∧ (PrepareDeltaAxis dm topSpeedTimesCdivA v).totalSteps = dm.totalSteps)
    ∧ (CalcNextStepTimeDeltaFull cfg d dda live).dm.direction = d.direction
    ∧ (CalcNextStepTimeDeltaFull cfg d dda live).calls = []
    ∧ (CalcNextStepTimeDeltaFull cfg d2 dda live).dm.direction = d.direction
    ∧ (CalcNextStepTimeDeltaFull cfg d2 dda live).dm.stepsTillRecalc
        = stepsTillRecalcOf (deltaShiftFactor cfg d2)
    ∧ deltaDsK cfg d2 dda
        = deltaDsK cfg d dda
          + ((cfg.K2 * ((CalcNextStepTimeDeltaFull cfg d2 dda live).dm.stepsTillRecalc + 1) : Nat)
              : Int)
    ∧ deltaDsK cfg d dda < deltaDsK cfg d2 dda
    ∧ (d2.reverseStartStep = d2.totalSteps + 1 ∧ d2.direction = true
        ∧ d2.mp.delta.minusAaPlusBbTimesKs = 0
        ∧ d2.mp.delta.dSquaredMinusAsquaredMinusBsquaredTimesKsquaredSsquared
            = d.mp.delta.dSquaredMinusAsquaredMinusBsquaredTimesKsquaredSsquared) := by
  have hne : d.nextStep ≠ d.reverseStartStep := by omega
  have hdd : deltaDirection d = true := by
    unfold deltaDirection; rw [if_neg hne]; exact hdir
  obtain ⟨-, -, -, ftot, frev⟩ := deltaFull_frame cfg d dda live
  -- the next record
  have g1 : d2.totalSteps = d.totalSteps := by rw [hd2]; exact ftot
  have g2 : d2.reverseStartStep = d.reverseStartStep := by rw [hd2]; exact frev
  have g3 : d2.direction = true := by
    rw [hd2]
    show (CalcNextStepTimeDeltaFull cfg d dda live).dm.direction = true
    rw [deltaFull_direction]; exact hdd
  have g4 : d2.mp.delta.hmz0sK = deltaHmz0sK cfg d := by
    rw [hd2]; exact deltaFull_hmz0sK cfg d dda live
  have g5 : d2.mp.delta.minusAaPlusBbTimesKs = 0 := by
    rw [hd2]
    show (CalcNextStepTimeDeltaFull cfg d dda live).dm.mp.delta.minusAaPlusBbTimesKs = 0
    unfold CalcNextStepTimeDeltaFull
    simp only
    split_ifs <;> exact ha
  have g6 : d2.mp.delta.dSquaredMinusAsquaredMinusBsquaredTimesKsquaredSsquared
      = d.mp.delta.dSquaredMinusAsquaredMinusBsquaredTimesKsquaredSsquared := by
    rw [hd2]
    show (CalcNextStepTimeDeltaFull cfg d dda
        live).dm.mp.delta.dSquaredMinusAsquaredMinusBsquaredTimesKsquaredSsquared = _
    unfold CalcNextStepTimeDeltaFull
    simp only
    split_ifs <;> rfl
  have hne2 : d2.nextStep ≠ d2.reverseStartStep := by rw [g2, hrev, ← g1]; omega
  have hdd2 : deltaDirection d2 = true := by
    unfold deltaDirection; rw [if_neg hne2]; exact g3
  -- the height counter of the next call
  have hH1 := deltaHmz0sK_range cfg d
  have hH2 : deltaHmz0sK cfg d2
      = deltaHmz0sK cfg d
        + ((cfg.K2 * (stepsTillRecalcOf (deltaShiftFactor cfg d2) + 1) : Nat) : Int) := by
    rw [deltaHmz0sK_eq cfg d2, hdd2, g4]
    simp only [if_true, one_mul]
    rw [g4] at hfit
    exact s32_of_range _ (by have := hH1.1; omega) hfit
  have hpos : (0 : Int)
      < ((cfg.K2 * (stepsTillRecalcOf (deltaShiftFactor cfg d2) + 1) : Nat) : Int) := by
    have : 0 < cfg.K2 * (stepsTillRecalcOf (deltaShiftFactor cfg d2) + 1) :=
      Nat.mul_pos hK2 (Nat.succ_pos _)
    exact_mod_cast this
  have k1 := deltaDsK_pureZ cfg d dda ha hc hKc hdd hd hq hr
  have k2 := deltaDsK_pureZ cfg d2 dda g5 hc hKc hdd2 (by rw [g6]; exact hd)
    (by rw [g6]; exact hq) (by rw [g6, hH2]; linarith)
  rw [g6, hH2] at k2
  have hcalls : (CalcNextStepTimeDeltaFull cfg d dda live).calls = [] := by
    rw [deltaFull_calls]; unfold deltaCalls; rw [if_neg (fun h => hne h.1)]
  refine ⟨?_, ?_, hcalls, ?_, deltaFull_stepsTillRecalc cfg d2 dda live, ?_, ?_,
    ⟨by rw [g2, hrev, g1], g3, g5, g6⟩⟩
  · intro hp
    rw [prepDelta_direction, prepDelta_reverseStartStep, prepDelta_totalSteps]
    have hno : deltaReversalInstalled dm v = false := by
      unfold deltaReversalInstalled; rw [hp]; rfl
    rw [hp, hno]
    exact ⟨rfl, rfl, rfl⟩
  · rw [deltaFull_direction, hdd, hdir]
  · rw [deltaFull_direction, hdd2, hdir]
  · rw [deltaFull_stepsTillRecalc, k1, k2]; ring
  · rw [k1, k2]; linarith

/-- C21 on the example Delta record prepared for a move straight up: the
first call computes `dsK = 512`, the second `dsK = 1024`, both singly stepped,
and the direction stays forward. -/
theorem C21_delta_pure_z_witness :
    (PrepareDeltaAxis (exampleDeltaDM 1) 1000 pureZPrep).reverseStartStep = 9
    ∧ (PrepareDeltaAxis (exampleDeltaDM 1) 1000 pureZPrep).direction = true
    ∧ deltaDsK exampleConfig (PrepareDeltaAxis (exampleDeltaDM 1) 1000 pureZPrep) longDDA = 512
    ∧ deltaDsK exampleConfig
        (deltaAdvance (CalcNextStepTimeDeltaFull exampleConfig
          (PrepareDeltaAxis (exampleDeltaDM 1) 1000 pureZPrep) longDDA true).dm) longDDA
        = deltaDsK exampleConfig (PrepareDeltaAxis (exampleDeltaDM 1) 1000 pureZPrep) longDDA
          + ((exampleConfig.K2
                * ((CalcNextStepTimeDeltaFull exampleConfig
                      (deltaAdvance (CalcNextStepTimeDeltaFull exampleConfig
                        (PrepareDeltaAxis (exampleDeltaDM 1) 1000 pureZPrep) longDDA true).dm)
                      longDDA true).dm.stepsTillRecalc + 1) : Nat) : Int)
    ∧ (CalcNextStepTimeDeltaFull exampleConfig
          (PrepareDeltaAxis (exampleDeltaDM 1) 1000 pureZPrep) longDDA true).dm.direction
        = (PrepareDeltaAxis (exampleDeltaDM 1) 1000 pureZPrep).direction :=
  have h := C21_delta_pure_z exampleConfig (exampleDeltaDM 1) 1000 pureZPrep
    (PrepareDeltaAxis (exampleDeltaDM 1) 1000 pureZPrep)
    (deltaAdvance (CalcNextStepTimeDeltaFull exampleConfig
      (PrepareDeltaAxis (exampleDeltaDM 1) 1000 pureZPrep) longDDA true).dm)
    longDDA true (by decide) (by decide) (by decide) (by decide) (by decide) (by decide)
    (by decide) (by decide) (by decide) (by decide) rfl (by decide) (by decide)
  ⟨((h.1 rfl).2.1).trans (by decide), (h.1 rfl).1, by decide, h.2.2.2.2.2.1, h.2.1⟩

/-! ## Monotonicity of the closed forms -/

/-- The root of a 64-bit value, less a 32-bit value it is not below. -/
theorem subU32_sqrt (x a : Nat) (hx : x < 18446744073709551616) (ha : a * a ≤ x) :
    subU32 (isqrt64 x) a = Nat.sqrt x - a := by
  have h1 : isqrt64 x = Nat.sqrt x := by rw [isqrt64_eq_sqrt, u64_of_lt _ hx]
  have h2 : a ≤ Nat.sqrt x := Nat.le_sqrt.mpr ha
  have h3 := isqrt64_lt x
  rw [h1] at h3 ⊢
  generalize Nat.sqrt x = s at h2 h3 ⊢
  unfold subU32 toU32; omega

/-- The acceleration closed form without overflow. -/
theorem cartTimeAt_accel (cfg : Config) (dm : DM) (dda : DDA) (n : Nat)
    (h1 : n < dm.mp.cart.accelStopStep)
    (hov : u32 (dda.startSpeedTimesCdivA + dm.mp.cart.compensationClocks)
              * u32 (dda.startSpeedTimesCdivA + dm.mp.cart.compensationClocks)
            + dm.mp.cart.twoCsquaredTimesMmPerStepDivA * n < 18446744073709551616) :
    cartTimeAt cfg dm dda n
      = Nat.sqrt (u32 (dda.startSpeedTimesCdivA + dm.mp.cart.compensationClocks)
              * u32 (dda.startSpeedTimesCdivA + dm.mp.cart.compensationClocks)
            + dm.mp.cart.twoCsquaredTimesMmPerStepDivA * n)
        - u32 (dda.startSpeedTimesCdivA + dm.mp.cart.compensationClocks) := by
  unfold cartTimeAt cartPhase
  rw [if_pos h1]
  simp only [isquare64_natCast]
  generalize u32 (dda.startSpeedTimesCdivA + dm.mp.cart.compensationClocks) = a at hov ⊢
  have e1 : u64 (a * a) = a * a := u64_of_lt _ (lt_of_le_of_lt (Nat.le_add_right _ _) hov)
  have e2 : u64 (dm.mp.cart.twoCsquaredTimesMmPerStepDivA * n)
      = dm.mp.cart.twoCsquaredTimesMmPerStepDivA * n :=
    u64_of_lt _ (lt_of_le_of_lt (Nat.le_add_left _ _) hov)
  rw [e1, e2, u64_of_lt _ hov]
  exact subU32_sqrt _ _ hov (Nat.le_add_right _ _)

theorem toU32_sub_sqrt (b s : Nat) (h : s ≤ b) (hb : b < 4294967296) :
    subU32 b s = b - s := by
  unfold subU32 toU32; omega

/-- The deceleration closed form before the reversal, without overflow. -/
theorem cartTimeAt_decel (cfg : Config) (dm : DM) (dda : DDA) (n : Nat)
    (h1 : ¬ n < dm.mp.cart.accelStopStep) (h2 : ¬ n < dm.mp.cart.decelStartStep)
    (h3 : n < dm.reverseStartStep)
    (hmul : dm.mp.cart.twoCsquaredTimesMmPerStepDivA * n < 18446744073709551616)
    (hb : isqrt64 (dm.twoDistanceToStopTimesCsquaredDivA
            - dm.mp.cart.twoCsquaredTimesMmPerStepDivA * n)
          ≤ subU32 dda.topSpeedTimesCdivAPlusDecelStartClocks dm.mp.cart.compensationClocks) :
    cartTimeAt cfg dm dda n
      = if dm.mp.cart.twoCsquaredTimesMmPerStepDivA * n < dm.twoDistanceToStopTimesCsquaredDivA
        then subU32 dda.topSpeedTimesCdivAPlusDecelStartClocks dm.mp.cart.compensationClocks
              - isqrt64 (dm.twoDistanceToStopTimesCsquaredDivA
                  - dm.mp.cart.twoCsquaredTimesMmPerStepDivA * n)
        else subU32 dda.topSpeedTimesCdivAPlusDecelStartClocks
              dm.mp.cart.compensationClocks := by
  unfold cartTimeAt cartPhase
  rw [if_neg h1, if_neg h2, if_pos h3]
  simp only
  rw [u64_of_lt _ hmul]
  have hblt : subU32 dda.topSpeedTimesCdivAPlusDecelStartClocks dm.mp.cart.compensationClocks
      < 4294967296 := by
    unfold subU32 toU32; omega
  split_ifs with hlt
  · exact toU32_sub_sqrt _ _ hb hblt
  · rfl

/-- The digit recurrence is monotone on 64-bit values. -/
theorem isqrt64_mono (x y : Nat) (hxy : x ≤ y) (hy : y < 18446744073709551616) :
    isqrt64 x ≤ isqrt64 y := by
  rw [isqrt64_eq_sqrt, isqrt64_eq_sqrt, u64_of_lt _ hy, u64_of_lt _ (lt_of_le_of_lt hxy hy)]
  exact Nat.sqrt_le_sqrt hxy

theorem u32_add_of_lt (b s : Nat) (h : b + s < 4294967296) : u32 (b + s) = b + s := by
  unfold u32; omega

theorem toU64_sub_of_nonneg (x : Nat) (f : Int) (hx : x < 9223372036854775808)
    (h0 : 0 ≤ (x : Int) - f)
    (h1 : (x : Int) - f < 9223372036854775808) :
    ((toU64 (s64 (s64 ((u64 x : Nat) : Int) - f)) : Nat) : Int) = (x : Int) - f := by
  unfold toU64 s64 u64; omega

/-- The deceleration closed form after the reversal, with a non-negative
argument of the root and without overflow. -/
theorem cartTimeAt_reversed (cfg : Config) (dm : DM) (dda : DDA) (n : Nat)
    (h1 : ¬ n < dm.mp.cart.accelStopStep) (h2 : ¬ n < dm.mp.cart.decelStartStep)
    (h3 : ¬ n < dm.reverseStartStep)
    (hmul : dm.mp.cart.twoCsquaredTimesMmPerStepDivA * n < 9223372036854775808)
    (h0 : 0 ≤ ((dm.mp.cart.twoCsquaredTimesMmPerStepDivA * n : Nat) : Int)
            - dm.mp.cart.fourMaxStepDistanceMinusTwoDistanceToStopTimesCsquaredDivA)
    (hlt : ((dm.mp.cart.twoCsquaredTimesMmPerStepDivA * n : Nat) : Int)
            - dm.mp.cart.fourMaxStepDistanceMinusTwoDistanceToStopTimesCsquaredDivA
          < 9223372036854775808)
    (hsum : subU32 dda.topSpeedTimesCdivAPlusDecelStartClocks dm.mp.cart.compensationClocks
            + isqrt64 (((dm.mp.cart.twoCsquaredTimesMmPerStepDivA * n : Nat) : Int)
                - dm.mp.cart.fourMaxStepDistanceMinusTwoDistanceToStopTimesCsquaredDivA).toNat
          < 4294967296) :
    cartTimeAt cfg dm dda n
      = subU32 dda.topSpeedTimesCdivAPlusDecelStartClocks dm.mp.cart.compensationClocks
        + isqrt64 (((dm.mp.cart.twoCsquaredTimesMmPerStepDivA * n : Nat) : Int)
            - dm.mp.cart.fourMaxStepDistanceMinusTwoDistanceToStopTimesCsquaredDivA).toNat := by
  unfold cartTimeAt cartPhase
  rw [if_neg h1, if_neg h2, if_neg h3]
  simp only
  have harg : toU64 (s64 (s64 ((u64 (dm.mp.cart.twoCsquaredTimesMmPerStepDivA * n) : Nat) : Int)
        - dm.mp.cart.fourMaxStepDistanceMinusTwoDistanceToStopTimesCsquaredDivA))
      = (((dm.mp.cart.twoCsquaredTimesMmPerStepDivA * n : Nat) : Int)
          - dm.mp.cart.fourMaxStepDistanceMinusTwoDistanceToStopTimesCsquaredDivA).toNat := by
    have := toU64_sub_of_nonneg _ _ hmul h0 hlt
    omega
  rw [harg]
  exact u32_add_of_lt _ _ hsum

theorem toU32_mono (x y : Int) (h0 : 0 ≤ x) (hxy : x ≤ y) (h1 : y < 4294967296) :
    toU32 x ≤ toU32 y := by
  unfold toU32; omega

/-- C22: with `isqrt64` the floor of the square root and no overflow of the
64-bit products and of the 32-bit times, each closed form of
`CalcNextStepTimeCartesianFull` is non-decreasing in the step index: for
`n ≤ n'` handled by the same branch (acceleration; steady speed; deceleration
before the reversal; deceleration after the reversal, with a non-negative
argument of the root at `n`), the time computed for `n`, before the late-step
policy, is at most the time computed for `n'`. -/
theorem C22_within_phase_monotone (cfg : Config) (dm : DM) (dda : DDA) (n n' : Nat)
    (hnn : n ≤ n') :
    (n' < dm.mp.cart.accelStopStep →
        u32 (dda.startSpeedTimesCdivA + dm.mp.cart.compensationClocks)
            * u32 (dda.startSpeedTimesCdivA + dm.mp.cart.compensationClocks)
          + dm.mp.cart.twoCsquaredTimesMmPerStepDivA * n' < 18446744073709551616 →
        cartTimeAt cfg dm dda n ≤ cartTimeAt cfg dm dda n')
    ∧ (dm.mp.cart.accelStopStep ≤ n → n' < dm.mp.cart.decelStartStep →
        dm.mp.cart.mmPerStepTimesCKdivtopSpeed * n' < 18446744073709551616 →
        0 ≤ ((dm.mp.cart.mmPerStepTimesCKdivtopSpeed * n / cfg.K1 : Nat) : Int)
              + dda.extraAccelerationClocks - dm.mp.cart.accelCompensationClocks →
        ((dm.mp.cart.mmPerStepTimesCKdivtopSpeed * n' / cfg.K1 : Nat) : Int)
              + dda.extraAccelerationClocks - dm.mp.cart.accelCompensationClocks < 4294967296 →
        cartTimeAt cfg dm dda n ≤ cartTimeAt cfg dm dda n')
    ∧ (dm.mp.cart.accelStopStep ≤ n → dm.mp.cart.decelStartStep ≤ n → n' < dm.reverseStartStep →
        dm.mp.cart.twoCsquaredTimesMmPerStepDivA * n' < 18446744073709551616 →
        dm.twoDistanceToStopTimesCsquaredDivA < 18446744073709551616 →
        isqrt64 (dm.twoDistanceToStopTimesCsquaredDivA
            - dm.mp.cart.twoCsquaredTimesMmPerStepDivA * n)
          ≤ subU32 dda.topSpeedTimesCdivAPlusDecelStartClocks dm.mp.cart.compensationClocks →
        cartTimeAt cfg dm dda n ≤ cartTimeAt cfg dm dda n')
    ∧ (dm.mp.cart.accelStopStep ≤ n → dm.mp.cart.decelStartStep ≤ n → dm.reverseStartStep ≤ n →
        dm.mp.cart.twoCsquaredTimesMmPerStepDivA * n' < 9223372036854775808 →
        0 ≤ ((dm.mp.cart.twoCsquaredTimesMmPerStepDivA * n : Nat) : Int)
              - dm.mp.cart.fourMaxStepDistanceMinusTwoDistanceToStopTimesCsquaredDivA →
        ((dm.mp.cart.twoCsquaredTimesMmPerStepDivA * n' : Nat) : Int)
              - dm.mp.cart.fourMaxStepDistanceMinusTwoDistanceToStopTimesCsquaredDivA
            < 9223372036854775808 →
        subU32 dda.topSpeedTimesCdivAPlusDecelStartClocks dm.mp.cart.compensationClocks
            + isqrt64 (((dm.mp.cart.twoCsquaredTimesMmPerStepDivA * n' : Nat) : Int)
                - dm.mp.cart.fourMaxStepDistanceMinusTwoDistanceToStopTimesCsquaredDivA).toNat
          < 4294967296 →
        cartTimeAt cfg dm dda n ≤ cartTimeAt cfg dm dda n') := by
  have hc : dm.mp.cart.twoCsquaredTimesMmPerStepDivA * n
      ≤ dm.mp.cart.twoCsquaredTimesMmPerStepDivA * n' := Nat.mul_le_mul_left _ hnn
  refine ⟨?_, ?_, ?_, ?_⟩
  · intro h1 hov
    rw [cartTimeAt_accel cfg dm dda n (lt_of_le_of_lt hnn h1)
        (lt_of_le_of_lt (Nat.add_le_add_left hc _) hov),
      cartTimeAt_accel cfg dm dda n' h1 hov]
    exact Nat.sub_le_sub_right (Nat.sqrt_le_sqrt (Nat.add_le_add_left hc _)) _
  · intro h1 h2 hmul h0 hhi
    have hm : dm.mp.cart.mmPerStepTimesCKdivtopSpeed * n
        ≤ dm.mp.cart.mmPerStepTimesCKdivtopSpeed * n' := Nat.mul_le_mul_left _ hnn
    have hq := Nat.div_le_div_right (c := cfg.K1) hm
    have hq' : ((dm.mp.cart.mmPerStepTimesCKdivtopSpeed * n / cfg.K1 : Nat) : Int)
        ≤ ((dm.mp.cart.mmPerStepTimesCKdivtopSpeed * n' / cfg.K1 : Nat) : Int) := by
      exact_mod_cast hq
    rw [cartTimeAt_cruise cfg dm dda n h1 (lt_of_le_of_lt hnn h2),
      cartTimeAt_cruise cfg dm dda n' (le_trans h1 hnn) h2,
      u64_of_lt _ hmul, u64_of_lt _ (lt_of_le_of_lt hm hmul)]
    exact toU32_mono _ _ h0 (by linarith) hhi
  · intro h1 h2 h3 hmul hD hb
    have hs : isqrt64 (dm.twoDistanceToStopTimesCsquaredDivA
          - dm.mp.cart.twoCsquaredTimesMmPerStepDivA * n')
        ≤ isqrt64 (dm.twoDistanceToStopTimesCsquaredDivA
          - dm.mp.cart.twoCsquaredTimesMmPerStepDivA * n) :=
      isqrt64_mono _ _ (Nat.sub_le_sub_left hc _) (lt_of_le_of_lt (Nat.sub_le _ _) hD)
    rw [cartTimeAt_decel cfg dm dda n (not_lt.mpr h1) (not_lt.mpr h2) (lt_of_le_of_lt hnn h3)
        (lt_of_le_of_lt hc hmul) hb,
      cartTimeAt_decel cfg dm dda n' (not_lt.mpr (le_trans h1 hnn)) (not_lt.mpr (le_trans h2 hnn))
        h3 hmul (le_trans hs hb)]
    generalize subU32 dda.topSpeedTimesCdivAPlusDecelStartClocks dm.mp.cart.compensationClocks
      = b at hb ⊢
    generalize isqrt64 (dm.twoDistanceToStopTimesCsquaredDivA
          - dm.mp.cart.twoCsquaredTimesMmPerStepDivA * n) = s at hs hb ⊢
    generalize isqrt64 (dm.twoDistanceToStopTimesCsquaredDivA
          - dm.mp.cart.twoCsquaredTimesMmPerStepDivA * n') = s' at hs ⊢
    split_ifs <;> omega
  · intro h1 h2 h3 hmul h0 hlt hsum
    have hc' : ((dm.mp.cart.twoCsquaredTimesMmPerStepDivA * n : Nat) : Int)
        ≤ ((dm.mp.cart.twoCsquaredTimesMmPerStepDivA * n' : Nat) : Int) := by
      exact_mod_cast hc
    have hs : isqrt64 (((dm.mp.cart.twoCsquaredTimesMmPerStepDivA * n : Nat) : Int)
          - dm.mp.cart.fourMaxStepDistanceMinusTwoDistanceToStopTimesCsquaredDivA).toNat
        ≤ isqrt64 (((dm.mp.cart.twoCsquaredTimesMmPerStepDivA * n' : Nat) : Int)
          - dm.mp.cart.fourMaxStepDistanceMinusTwoDistanceToStopTimesCsquaredDivA).toNat :=
      isqrt64_mono _ _ (Int.toNat_le_toNat (by linarith)) (by omega)
    rw [cartTimeAt_reversed cfg dm dda n (not_lt.mpr h1) (not_lt.mpr h2) (not_lt.mpr h3)
        (lt_of_le_of_lt hc hmul) h0 (by linarith) (by omega),
      cartTimeAt_reversed cfg dm dda n' (not_lt.mpr (le_trans h1 hnn))
        (not_lt.mpr (le_trans h2 hnn)) (not_lt.mpr (le_trans h3 hnn)) hmul (by linarith) hlt hsum]
    exact Nat.add_le_add_left hs _

/-- C22 on the example record: steps 1 and 2 (acceleration), 3 and 5 (steady
speed), 6 and 8 (deceleration), and steps 7 and 8 of the example record that
reverses at step 7. -/
theorem C22_within_phase_monotone_witness :
    (cartTimeAt exampleConfig (exampleDM 1) exampleDDA 1 = 1414
      ∧ cartTimeAt exampleConfig (exampleDM 1) exampleDDA 1
          ≤ cartTimeAt exampleConfig (exampleDM 1) exampleDDA 2)
    ∧ cartTimeAt exampleConfig (exampleDM 1) exampleDDA 3
        ≤ cartTimeAt exampleConfig (exampleDM 1) exampleDDA 5
    ∧ cartTimeAt exampleConfig (exampleDM 1) exampleDDA 6
        ≤ cartTimeAt exampleConfig (exampleDM 1) exampleDDA 8
    ∧ cartTimeAt exampleConfig (reversingDM 1) exampleDDA 7
        ≤ cartTimeAt exampleConfig (reversingDM 1) exampleDDA 8 :=
  ⟨⟨by decide,
    (C22_within_phase_monotone exampleConfig (exampleDM 1) exampleDDA 1 2 (by decide)).1
      (by decide) (by decide)⟩,
   (C22_within_phase_monotone exampleConfig (exampleDM 1) exampleDDA 3 5 (by decide)).2.1
      (by decide) (by decide) (by decide) (by decide) (by decide),
   (C22_within_phase_monotone exampleConfig (exampleDM 1) exampleDDA 6 8 (by decide)).2.2.1
      (by decide) (by decide) (by decide) (by decide) (by decide) (by decide),
   (C22_within_phase_monotone exampleConfig (reversingDM 1) exampleDDA 7 8 (by decide)).2.2.2
      (by decide) (by decide) (by decide) (by decide) (by decide) (by decide) (by decide)⟩

/-- C23: whenever `PrepareDeltaAxis` installs a reversal, that is
`numStepsUp ≥ 1` and the drive is not a forward drive with
`numStepsUp ≤ totalSteps`, then, with `T` the incoming and `T'` the resulting
`totalSteps` (for a reverse drive `2·numStepsUp + T` is assumed to fit a
`uint32_t`): `reverseStartStep ≤ T'`, the upward count `reverseStartStep − 1`
is `numStepsUp`, and upward minus downward pulses,
`(reverseStartStep − 1) − (T' − (reverseStartStep − 1))`, is `T` for a forward
drive and `−T` for a reverse drive. -/
theorem C23_delta_reversal_net_displacement (dm : DM) (topSpeedTimesCdivA : Nat)
    (v : DeltaPrepValues)
    (hn : -2147483648 ≤ v.numStepsUp ∧ v.numStepsUp < 2147483648)
    (hT : dm.totalSteps < 4294967296)
    (hinst : deltaReversalInstalled dm v = true)
    (hfit : dm.direction = false → 2 * v.numStepsUp + dm.totalSteps < 4294967296) :
    (1 ≤ v.numStepsUp ∧ ¬ (dm.direction = true ∧ v.numStepsUp ≤ dm.totalSteps))
    ∧ (PrepareDeltaAxis dm topSpeedTimesCdivA v).reverseStartStep
        ≤ (PrepareDeltaAxis dm topSpeedTimesCdivA v).totalSteps
    ∧ ((PrepareDeltaAxis dm topSpeedTimesCdivA v).reverseStartStep : Int) - 1 = v.numStepsUp
    ∧ (((PrepareDeltaAxis dm topSpeedTimesCdivA v).reverseStartStep : Int) - 1)
        - (((PrepareDeltaAxis dm topSpeedTimesCdivA v).totalSteps : Int)
            - (((PrepareDeltaAxis dm topSpeedTimesCdivA v).reverseStartStep : Int) - 1))
        = (if dm.direction then (dm.totalSteps : Int) else - (dm.totalSteps : Int)) := by
  obtain ⟨-, -, hup, hnot⟩ := (deltaReversalInstalled_iff dm v hn).mp hinst
  have hrev : ((PrepareDeltaAxis dm topSpeedTimesCdivA v).reverseStartStep : Int)
      = v.numStepsUp + 1 := by
    rw [prepDelta_reverseStartStep, hinst]
    exact reverseStart_of_up _ hup hn.2
  have htot : ((PrepareDeltaAxis dm topSpeedTimesCdivA v).totalSteps : Int)
      = if dm.direction then 2 * v.numStepsUp - dm.totalSteps
        else 2 * v.numStepsUp + dm.totalSteps := by
    rw [prepDelta_totalSteps, hinst]
    cases hd : dm.direction
    · simp only [if_true, Bool.false_eq_true, if_false]
      exact totalSteps_reverse_of_up _ _ hup hn.2 (hfit hd)
    · simp only [if_true]
      have hlt : (dm.totalSteps : Int) < v.numStepsUp := by
        by_contra hc
        exact hnot ⟨hd, by omega⟩
      exact totalSteps_forward_of_up _ _ hlt hn.2
  have hle : ((PrepareDeltaAxis dm topSpeedTimesCdivA v).reverseStartStep : Int)
      ≤ ((PrepareDeltaAxis dm topSpeedTimesCdivA v).totalSteps : Int) := by
    rw [hrev, htot]
    cases hd : dm.direction
    · simp only [Bool.false_eq_true, if_false]; omega
    · simp only [if_true]
      have hlt : (dm.totalSteps : Int) < v.numStepsUp := by
        by_contra hc
        exact hnot ⟨hd, by omega⟩
      omega
  refine ⟨⟨hup, hnot⟩, by exact_mod_cast hle, by rw [hrev]; ring, ?_⟩
  rw [hrev, htot]
  cases hd : dm.direction
  · simp only [Bool.false_eq_true, if_false]; ring
  · simp only [if_true]; ring

/-- C23 on the example Delta record (8 steps net, forward) prepared with
`numStepsUp = 10`: 10 pulses up and 2 down, 8 net. -/
theorem C23_delta_reversal_net_displacement_witness :
    deltaReversalInstalled (exampleDeltaDM 1) exampleDeltaPrep = true
    ∧ (PrepareDeltaAxis (exampleDeltaDM 1) 1000 exampleDeltaPrep).reverseStartStep
        ≤ (PrepareDeltaAxis (exampleDeltaDM 1) 1000 exampleDeltaPrep).totalSteps
    ∧ ((PrepareDeltaAxis (exampleDeltaDM 1) 1000 exampleDeltaPrep).reverseStartStep : Int) - 1
        = 10
    ∧ (((PrepareDeltaAxis (exampleDeltaDM 1) 1000 exampleDeltaPrep).reverseStartStep : Int) - 1)
        - (((PrepareDeltaAxis (exampleDeltaDM 1) 1000 exampleDeltaPrep).totalSteps : Int)
            - (((PrepareDeltaAxis (exampleDeltaDM 1) 1000 exampleDeltaPrep).reverseStartStep
                  : Int) - 1))
        = 8 :=
  have h := C23_delta_reversal_net_displacement (exampleDeltaDM 1) 1000 exampleDeltaPrep
    (by decide) (by decide) (by decide) (by decide)
  ⟨by decide, h.2.1, h.2.2.1, h.2.2.2⟩

/-! ## The reverse phase of an extruder move -/

/-- The fields of an accepted reverse phase (source lines 228 to 238). -/
theorem prepExt_accepted (dm : DM) (top : Nat) (v : ExtruderPrepValues)
    (hacc : extruderReverseAccepted dm top v = true) :
    (PrepareExtruder dm top v).reverseStartStep = extruderCandidateReverseStartStep top v
    ∧ (PrepareExtruder dm top v).mp.cart.fourMaxStepDistanceMinusTwoDistanceToStopTimesCsquaredDivA
        = s64 (((u32 (2 * subU32 (PrepareExtruder dm top v).reverseStartStep 1)
                  * (PrepareExtruder dm top v).mp.cart.twoCsquaredTimesMmPerStepDivA : Nat) : Int)
                - (PrepareExtruder dm top v).twoDistanceToStopTimesCsquaredDivA) := by
  obtain ⟨hnd, hnr, -⟩ := (extruderReverseAccepted_iff dm top v).mp hacc
  have hrev : (PrepareExtruder dm top v).reverseStartStep
      = extruderCandidateReverseStartStep top v := by
    rw [prepExt_reverseStartStep, hnd, hnr, hacc]; simp
  refine ⟨hrev, ?_⟩
  have hfour := prepExt_four dm top v
  rw [hacc] at hfour
  simp only [if_true] at hfour
  rw [hfour, hrev, s64_u64_sub_s64]
  rfl

/-- The reverse constant of an accepted reverse phase when the operands fit
their types: `2·(reverseStartStep − 1)·c − D`. -/
theorem prepExt_four_exact (dm : DM) (top : Nat) (v : ExtruderPrepValues)
    (hacc : extruderReverseAccepted dm top v = true)
    (h1 : 1 ≤ (PrepareExtruder dm top v).reverseStartStep)
    (h2 : (PrepareExtruder dm top v).reverseStartStep ≤ 2147483648)
    (h3 : 2 * ((PrepareExtruder dm top v).reverseStartStep - 1)
            * (PrepareExtruder dm top v).mp.cart.twoCsquaredTimesMmPerStepDivA
          < 9223372036854775808)
    (h4 : (PrepareExtruder dm top v).twoDistanceToStopTimesCsquaredDivA < 9223372036854775808) :
    (PrepareExtruder dm top v).mp.cart.fourMaxStepDistanceMinusTwoDistanceToStopTimesCsquaredDivA
      = 2 * (((PrepareExtruder dm top v).reverseStartStep - 1 : Nat) : Int)
          * (PrepareExtruder dm top v).mp.cart.twoCsquaredTimesMmPerStepDivA
        - (PrepareExtruder dm top v).twoDistanceToStopTimesCsquaredDivA := by
  rw [(prepExt_accepted dm top v hacc).2, four_exact _ _ _ h1 h2 h3 h4]
  have : (((PrepareExtruder dm top v).reverseStartStep - 1 : Nat) : Int)
      = ((PrepareExtruder dm top v).reverseStartStep : Int) - 1 := by omega
  rw [this]

/-- With `F = 2·R·c − D`, the argument of the root `k` steps after `R` is the
argument of the root `k` steps before `R`. -/
theorem mirror_identity (c R k D : Nat) (F : Int)
    (hF : F = 2 * (R : Int) * (c : Int) - (D : Int)) :
    (c : Int) * ((R : Int) + (k : Int)) - F = (D : Int) - (c : Int) * ((R : Int) - (k : Int)) := by
  rw [hF]; ring

/-- The same identity over the natural numbers, for `k ≤ R` and
`c·(R − k) < D`. -/
theorem mirror_identity_nat (c R k D : Nat) (F : Int)
    (hF : F = 2 * (R : Int) * (c : Int) - (D : Int)) (hk : k ≤ R) (hlt : c * (R - k) < D) :
    (((c * (R + k) : Nat) : Int) - F).toNat = D - c * (R - k)
    ∧ ((c * (R + k) : Nat) : Int) - F = ((D - c * (R - k) : Nat) : Int) := by
  have h := mirror_identity c R k D F hF
  have e1 : ((c * (R + k) : Nat) : Int) = (c : Int) * ((R : Int) + (k : Int)) := by push_cast; ring
  have e2 : ((c * (R - k) : Nat) : Int) = (c : Int) * ((R : Int) - (k : Int)) := by
    rw [Nat.cast_mul, Nat.cast_sub hk]
  rw [e1, h, ← e2]
  generalize c * (R - k) = y at hlt ⊢
  omega

/-- With `F = 2·R·c − D`, `R = ⌊D/c⌋` and `c > 0`, the argument of the root
is positive from step `R + 1` on. -/
theorem reversed_argument_pos (c D n R : Nat) (hc : 0 < c) (hR : R = D / c) (hn : R + 1 ≤ n) :
    (0 : Int) < ((c * n : Nat) : Int) - (2 * (R : Int) * (c : Int) - (D : Int)) := by
  have e1 : c * R ≤ D := by rw [hR]; exact Nat.mul_div_le D c
  have e2 : c * (R + 1) ≤ c * n := Nat.mul_le_mul_left c hn
  have e3 : c * (R + 1) = c * R + c := by ring
  have e4 : (2 * (R : Int) * (c : Int)) = 2 * ((c * R : Nat) : Int) := by push_cast; ring
  rw [e4]
  generalize c * R = x at e1 e2 e3
  generalize c * n = y at e2 ⊢
  omega

theorem two_mul_sub (b s : Nat) (h : s ≤ b) : b + s + (b - s) = 2 * b := by omega

theorem s64_sub_of_pos (x : Nat) (f : Int)
    (h0 : 0 < (x : Int) - f) (h1 : (x : Int) - f < 9223372036854775808) :
    s64 (s64 ((u64 x : Nat) : Int) - f) = (x : Int) - f := by
  unfold s64 u64; omega

/-- C24: after `PrepareExtruder` accepts a reverse phase, with
`R = reverseStartStep − 1`, `c = twoCsquaredTimesMmPerStepDivA`,
`D = twoDistanceToStopTimesCsquaredDivA`,
`F = fourMaxStepDistanceMinusTwoDistanceToStopTimesCsquaredDivA` and operands
that fit their types: `c·(R + k) − F = D − c·(R − k)` for every `k ≤ R`; so,
whenever `c·(R − k) < D`, the expression of the branch after the reversal at
`R + k` and the expression of the deceleration branch before it at `R − k`
(source lines 350 to 352 and 332 to 337) add up to `2·b`,
`b = topSpeedTimesCdivAPlusDecelStartClocks − compensationClocks`, and these
are the times computed for the two steps when step `R + k` is handled by the
first branch (`k ≥ 1`) and step `R − k` by the second; and when
`reverseStartStep` was computed as `D / c + 1` (with `c > 0`), the argument of
the root in the branch after the reversal is positive for every step from
`reverseStartStep` on. -/
theorem C24_reverse_mirrors_deceleration (cfg : Config) (dm : DM) (topSpeedTimesCdivA : Nat)
    (v : ExtruderPrepValues) (dda : DDA) (r : DM)
    (hr : r = PrepareExtruder dm topSpeedTimesCdivA v)
    (hacc : extruderReverseAccepted dm topSpeedTimesCdivA v = true)
    (h1 : 1 ≤ r.reverseStartStep) (h2 : r.reverseStartStep ≤ 2147483648)
    (h3 : 2 * (r.reverseStartStep - 1) * r.mp.cart.twoCsquaredTimesMmPerStepDivA
          < 9223372036854775808)
    (h4 : r.twoDistanceToStopTimesCsquaredDivA < 9223372036854775808) :
    (∀ k, k ≤ r.reverseStartStep - 1 →
        (r.mp.cart.twoCsquaredTimesMmPerStepDivA : Int)
            * (((r.reverseStartStep - 1 : Nat) : Int) + (k : Int))
          - r.mp.cart.fourMaxStepDistanceMinusTwoDistanceToStopTimesCsquaredDivA
        = (r.twoDistanceToStopTimesCsquaredDivA : Int)
          - (r.mp.cart.twoCsquaredTimesMmPerStepDivA : Int)
            * (((r.reverseStartStep - 1 : Nat) : Int) - (k : Int)))
    ∧ (∀ k, k ≤ r.reverseStartStep - 1 →
        r.mp.cart.twoCsquaredTimesMmPerStepDivA * (r.reverseStartStep - 1 - k)
          < r.twoDistanceToStopTimesCsquaredDivA →
        r.mp.cart.twoCsquaredTimesMmPerStepDivA * (r.reverseStartStep - 1 + k)
          < 9223372036854775808 →
        isqrt64 (r.twoDistanceToStopTimesCsquaredDivA
            - r.mp.cart.twoCsquaredTimesMmPerStepDivA * (r.reverseStartStep - 1 - k))
          ≤ subU32 dda.topSpeedTimesCdivAPlusDecelStartClocks r.mp.cart.compensationClocks →
        subU32 dda.topSpeedTimesCdivAPlusDecelStartClocks r.mp.cart.compensationClocks
            + isqrt64 (r.twoDistanceToStopTimesCsquaredDivA
                - r.mp.cart.twoCsquaredTimesMmPerStepDivA * (r.reverseStartStep - 1 - k))
          < 4294967296 →
        u32 (subU32 dda.topSpeedTimesCdivAPlusDecelStartClocks r.mp.cart.compensationClocks
              + isqrt64 (toU64 (s64 (s64 ((u64 (r.mp.cart.twoCsquaredTimesMmPerStepDivA
                    * (r.reverseStartStep - 1 + k)) : Nat) : Int)
                  - r.mp.cart.fourMaxStepDistanceMinusTwoDistanceToStopTimesCsquaredDivA))))
          + subU32
              (subU32 dda.topSpeedTimesCdivAPlusDecelStartClocks r.mp.cart.compensationClocks)
              (isqrt64 (r.twoDistanceToStopTimesCsquaredDivA
                - u64 (r.mp.cart.twoCsquaredTimesMmPerStepDivA * (r.reverseStartStep - 1 - k))))
          = 2 * subU32 dda.topSpeedTimesCdivAPlusDecelStartClocks r.mp.cart.compensationClocks)
    ∧ (∀ k, 1 ≤ k → k ≤ r.reverseStartStep - 1 →
        r.mp.cart.accelStopStep ≤ r.reverseStartStep - 1 - k →
        r.mp.cart.decelStartStep ≤ r.reverseStartStep - 1 - k →
        r.mp.cart.twoCsquaredTimesMmPerStepDivA * (r.reverseStartStep - 1 - k)
          < r.twoDistanceToStopTimesCsquaredDivA →
        r.mp.cart.twoCsquaredTimesMmPerStepDivA * (r.reverseStartStep - 1 + k)
          < 9223372036854775808 →
        isqrt64 (r.twoDistanceToStopTimesCsquaredDivA
            - r.mp.cart.twoCsquaredTimesMmPerStepDivA * (r.reverseStartStep - 1 - k))
          ≤ subU32 dda.topSpeedTimesCdivAPlusDecelStartClocks r.mp.cart.compensationClocks →
        subU32 dda.topSpeedTimesCdivAPlusDecelStartClocks r.mp.cart.compensationClocks
            + isqrt64 (r.twoDistanceToStopTimesCsquaredDivA
                - r.mp.cart.twoCsquaredTimesMmPerStepDivA * (r.reverseStartStep - 1 - k))
          < 4294967296 →
        cartTimeAt cfg r dda (r.reverseStartStep - 1 + k)
            + cartTimeAt cfg r dda (r.reverseStartStep - 1 - k)
          = 2 * subU32 dda.topSpeedTimesCdivAPlusDecelStartClocks r.mp.cart.compensationClocks)
    ∧ (v.initialDecelSpeedNegative = false →
        0 < r.mp.cart.twoCsquaredTimesMmPerStepDivA →
        r.twoDistanceToStopTimesCsquaredDivA / r.mp.cart.twoCsquaredTimesMmPerStepDivA + 1
          < 4294967296 →
        r.reverseStartStep
            = r.twoDistanceToStopTimesCsquaredDivA / r.mp.cart.twoCsquaredTimesMmPerStepDivA + 1
        ∧ ∀ n, r.reverseStartStep ≤ n →
            ((r.mp.cart.twoCsquaredTimesMmPerStepDivA * n : Nat) : Int)
                - r.mp.cart.fourMaxStepDistanceMinusTwoDistanceToStopTimesCsquaredDivA
              < 9223372036854775808 →
            0 < s64 (s64 ((u64 (r.mp.cart.twoCsquaredTimesMmPerStepDivA * n) : Nat) : Int)
                      - r.mp.cart.fourMaxStepDistanceMinusTwoDistanceToStopTimesCsquaredDivA)) := by
  subst hr
  have hF := prepExt_four_exact dm topSpeedTimesCdivA v hacc h1 h2 h3 h4
  refine ⟨?_, ?_, ?_, ?_⟩
  · intro k _
    exact mirror_identity _ _ k _ _ hF
  · intro k hkR hlt hmul hs1 hs2
    obtain ⟨m1, m2⟩ := mirror_identity_nat _ _ k _ _ hF hkR hlt
    have hD : (((PrepareExtruder dm topSpeedTimesCdivA v).twoDistanceToStopTimesCsquaredDivA
          - (PrepareExtruder dm topSpeedTimesCdivA v).mp.cart.twoCsquaredTimesMmPerStepDivA
            * ((PrepareExtruder dm topSpeedTimesCdivA v).reverseStartStep - 1 - k) : Nat) : Int)
        < 9223372036854775808 :=
      lt_of_le_of_lt (Int.ofNat_le.mpr (Nat.sub_le _ _)) (by exact_mod_cast h4)
    have harg := toU64_sub_of_nonneg _ _ hmul (by rw [m2]; exact Int.natCast_nonneg _)
      (by rw [m2]; exact hD)
    rw [m2] at harg
    have harg' := Int.ofNat_inj.mp harg
    rw [harg', u64_of_lt _ (lt_trans hlt (lt_trans h4 (by norm_num))), u32_add_of_lt _ _ hs2,
      toU32_sub_sqrt _ _ hs1 (lt_of_le_of_lt (Nat.le_add_right _ _) hs2)]
    exact two_mul_sub _ _ hs1
  · intro k hk1 hkR ha hd hlt hmul hs1 hs2
    obtain ⟨m1, m2⟩ := mirror_identity_nat _ _ k _ _ hF hkR hlt
    have hrev : (PrepareExtruder dm topSpeedTimesCdivA v).reverseStartStep
        ≤ (PrepareExtruder dm topSpeedTimesCdivA v).reverseStartStep - 1 + k := by omega
    have hpre : (PrepareExtruder dm topSpeedTimesCdivA v).reverseStartStep - 1 - k
        < (PrepareExtruder dm topSpeedTimesCdivA v).reverseStartStep := by omega
    have t1 := cartTimeAt_reversed cfg (PrepareExtruder dm topSpeedTimesCdivA v) dda
      ((PrepareExtruder dm topSpeedTimesCdivA v).reverseStartStep - 1 + k)
      (not_lt.mpr (le_trans ha (by omega))) (not_lt.mpr (le_trans hd (by omega)))
      (not_lt.mpr hrev) hmul (by rw [m2]; exact Int.natCast_nonneg _)
      (by rw [m2]; exact lt_of_le_of_lt (Int.ofNat_le.mpr (Nat.sub_le _ _)) (by exact_mod_cast h4))
      (by rw [m1]; exact hs2)
    have t0 := cartTimeAt_decel cfg (PrepareExtruder dm topSpeedTimesCdivA v) dda
      ((PrepareExtruder dm topSpeedTimesCdivA v).reverseStartStep - 1 - k)
      (not_lt.mpr ha) (not_lt.mpr hd) hpre
      (lt_trans hlt (lt_trans h4 (by norm_num))) hs1
    rw [t1, t0, m1, if_pos hlt]
    exact two_mul_sub _ _ hs1
  · intro hneg hc hfit
    have hcand : (PrepareExtruder dm topSpeedTimesCdivA v).reverseStartStep
        = (PrepareExtruder dm topSpeedTimesCdivA v).twoDistanceToStopTimesCsquaredDivA
            / (PrepareExtruder dm topSpeedTimesCdivA v).mp.cart.twoCsquaredTimesMmPerStepDivA
          + 1 := by
      rw [(prepExt_accepted dm topSpeedTimesCdivA v hacc).1]
      unfold extruderCandidateReverseStartStep
      rw [hneg]
      simp only [Bool.false_eq_true, if_false]
      exact u32_add_of_lt _ _ hfit
    refine ⟨hcand, ?_⟩
    intro n hn hlt
    have hR : (PrepareExtruder dm topSpeedTimesCdivA v).reverseStartStep - 1
        = (PrepareExtruder dm topSpeedTimesCdivA v).twoDistanceToStopTimesCsquaredDivA
            / (PrepareExtruder dm topSpeedTimesCdivA v).mp.cart.twoCsquaredTimesMmPerStepDivA := by
      omega
    have hpos := reversed_argument_pos _ _ n _ hc hR (by omega)
    rw [← hF] at hpos
    rw [s64_sub_of_pos _ _ hpos hlt]
    exact hpos

/-- C24 on the example extruder move (`R = 6`, `c = 2000000`, `D = 13000000`,
`F = 11000000`, `b = 8500`): steps 7 and 5 are computed at
`8500 + 1732` and `8500 − 1732`. -/
theorem C24_reverse_mirrors_deceleration_witness :
    extruderReverseAccepted exampleExtruderDM 2500 exampleExtruderPrep = true
    ∧ (PrepareExtruder exampleExtruderDM 2500 exampleExtruderPrep).reverseStartStep = 7
    ∧ cartTimeAt exampleConfig (PrepareExtruder exampleExtruderDM 2500 exampleExtruderPrep)
        exampleDDA 7 = 10232
    ∧ cartTimeAt exampleConfig (PrepareExtruder exampleExtruderDM 2500 exampleExtruderPrep)
        exampleDDA 5 = 6768
    ∧ cartTimeAt exampleConfig (PrepareExtruder exampleExtruderDM 2500 exampleExtruderPrep)
          exampleDDA
          ((PrepareExtruder exampleExtruderDM 2500 exampleExtruderPrep).reverseStartStep - 1 + 1)
        + cartTimeAt exampleConfig (PrepareExtruder exampleExtruderDM 2500 exampleExtruderPrep)
          exampleDDA
          ((PrepareExtruder exampleExtruderDM 2500 exampleExtruderPrep).reverseStartStep - 1 - 1)
        = 2 * subU32 exampleDDA.topSpeedTimesCdivAPlusDecelStartClocks
            (PrepareExtruder exampleExtruderDM 2500 exampleExtruderPrep).mp.cart.compensationClocks :=
  have h := C24_reverse_mirrors_deceleration exampleConfig exampleExtruderDM 2500
    exampleExtruderPrep exampleDDA (PrepareExtruder exampleExtruderDM 2500 exampleExtruderPrep)
    rfl (by decide) (by decide) (by decide) (by decide) (by decide)
  ⟨by decide, by decide, by decide, by decide,
   h.2.2.1 1 (by decide) (by decide) (by decide) (by decide) (by decide) (by decide) (by decide)
     (by decide)⟩

/-! ## The `live` flag -/

/-- The direction chosen by the phase selection does not depend on `live`. -/
theorem cartPhase_direction_live (cfg : Config) (dm : DM) (dda : DDA) (live : Bool) (n : Nat) :
    (cartPhase cfg dm dda live n).direction = (cartPhase cfg dm dda false n).direction := by
  unfold cartPhase
  split_ifs <;> rfl

/-- Without `live` the phase selection notifies no driver; with it, at most
the driver of the record, once. -/
theorem cartPhase_calls (cfg : Config) (dm : DM) (dda : DDA) (n : Nat) :
    (cartPhase cfg dm dda false n).calls = []
    ∧ ((cartPhase cfg dm dda true n).calls = []
        ∨ (cartPhase cfg dm dda true n).calls
            = [(dm.drive, (cartPhase cfg dm dda true n).direction)]) := by
  unfold cartPhase
  split_ifs <;> simp_all

/-- The record and the returned flag of the Cartesian recurrence do not depend
on `live`. -/
theorem cartFull_live (cfg : Config) (dm : DM) (dda : DDA) (live : Bool) :
    (CalcNextStepTimeCartesianFull cfg dm dda live).dm
        = (CalcNextStepTimeCartesianFull cfg dm dda false).dm
    ∧ (CalcNextStepTimeCartesianFull cfg dm dda live).ret
        = (CalcNextStepTimeCartesianFull cfg dm dda false).ret := by
  unfold CalcNextStepTimeCartesianFull
  simp only [cartPhase_time_live, cartPhase_direction_live cfg dm dda live]
  split_ifs <;> exact ⟨rfl, rfl⟩

/-- The record and the returned flag of the Delta recurrence do not depend on
`live`. -/
theorem deltaFull_live (cfg : Config) (dm : DM) (dda : DDA) (live : Bool) :
    (CalcNextStepTimeDeltaFull cfg dm dda live).dm
        = (CalcNextStepTimeDeltaFull cfg dm dda false).dm
    ∧ (CalcNextStepTimeDeltaFull cfg dm dda live).ret
        = (CalcNextStepTimeDeltaFull cfg dm dda false).ret := by
  unfold CalcNextStepTimeDeltaFull
  simp only
  split_ifs <;> exact ⟨rfl, rfl⟩

/-- C25: `CalcNextStepTimeCartesianFull` and `CalcNextStepTimeDeltaFull`
return the same flag and leave the same record, field for field, with
`live = true` and with `live = false`; with `live = false`
`Platform::SetDirection` is not called, and with `live = true` it is called at
most once, for the drive of the record with the direction the call leaves in
the record. -/
theorem C25_live_flag_noninterference (cfg : Config) (dm : DM) (dda : DDA) :
    ((CalcNextStepTimeCartesianFull cfg dm dda true).ret
        = (CalcNextStepTimeCartesianFull cfg dm dda false).ret
      ∧ (CalcNextStepTimeCartesianFull cfg dm dda true).dm
        = (CalcNextStepTimeCartesianFull cfg dm dda false).dm
      ∧ (CalcNextStepTimeCartesianFull cfg dm dda false).calls = []
      ∧ ((CalcNextStepTimeCartesianFull cfg dm dda true).calls = []
          ∨ (CalcNextStepTimeCartesianFull cfg dm dda true).calls
              = [(dm.drive, (CalcNextStepTimeCartesianFull cfg dm dda true).dm.direction)]))
    ∧ ((CalcNextStepTimeDeltaFull cfg dm dda true).ret
        = (CalcNextStepTimeDeltaFull cfg dm dda false).ret
      ∧ (CalcNextStepTimeDeltaFull cfg dm dda true).dm
        = (CalcNextStepTimeDeltaFull cfg dm dda false).dm
      ∧ (CalcNextStepTimeDeltaFull cfg dm dda false).calls = []
      ∧ ((CalcNextStepTimeDeltaFull cfg dm dda true).calls = []
          ∨ (CalcNextStepTimeDeltaFull cfg dm dda true).calls
              = [(dm.drive, (CalcNextStepTimeDeltaFull cfg dm dda true).dm.direction)])) := by
  refine ⟨⟨(cartFull_live cfg dm dda true).2, (cartFull_live cfg dm dda true).1, ?_, ?_⟩,
    ⟨(deltaFull_live cfg dm dda true).2, (deltaFull_live cfg dm dda true).1, ?_, ?_⟩⟩
  · rw [cartFull_calls]
    exact (cartPhase_calls cfg dm dda _).1
  · rw [cartFull_calls, cartFull_direction]
    exact (cartPhase_calls cfg dm dda _).2
  · rw [deltaFull_calls]
    unfold deltaCalls
    simp
  · rw [deltaFull_calls, deltaFull_direction]
    unfold deltaCalls deltaDirection
    by_cases h : dm.nextStep = dm.reverseStartStep
    · right; simp [h]
    · left; simp [h]

/-! ## Monotone runs of a prepared Cartesian drive -/

theorem isqrt64_zero : isqrt64 0 = 0 := by decide

theorem subU32_zero (x : Nat) : subU32 x 0 = x % 4294967296 := by
  unfold subU32 toU32; omega

/-- A sequence whose consecutive terms are in order from index 1 to `T` is
non-decreasing there. -/
theorem mono_of_succ_le (t : Nat → Nat) (T : Nat)
    (h : ∀ n, 1 ≤ n → n + 1 ≤ T → t n ≤ t (n + 1)) :
    ∀ i j, 1 ≤ i → i ≤ j → j ≤ T → t i ≤ t j := by
  intro i j hi hij
  induction j, hij using Nat.le_induction with
  | base => intro _; exact le_refl _
  | succ j hij ih =>
    intro hj
    exact le_trans (ih (by omega)) (h j (by omega) hj)

/-- The acceleration closed form as an integer, without compensation and
without overflow. -/
theorem cartTimeAt_accel_int (cfg : Config) (dm : DM) (dda : DDA) (n : Nat)
    (h1 : n < dm.mp.cart.accelStopStep)
    (hcomp : dm.mp.cart.compensationClocks = 0)
    (hov : u32 dda.startSpeedTimesCdivA * u32 dda.startSpeedTimesCdivA
            + dm.mp.cart.twoCsquaredTimesMmPerStepDivA * n < 18446744073709551616) :
    ((cartTimeAt cfg dm dda n : Nat) : Int)
      = ((isqrt64 (u32 dda.startSpeedTimesCdivA * u32 dda.startSpeedTimesCdivA
            + dm.mp.cart.twoCsquaredTimesMmPerStepDivA * n) : Nat) : Int)
        - ((u32 dda.startSpeedTimesCdivA : Nat) : Int) := by
  have hov2 : u32 (dda.startSpeedTimesCdivA + dm.mp.cart.compensationClocks)
              * u32 (dda.startSpeedTimesCdivA + dm.mp.cart.compensationClocks)
            + dm.mp.cart.twoCsquaredTimesMmPerStepDivA * n < 18446744073709551616 := by
    rw [hcomp]; exact hov
  rw [cartTimeAt_accel cfg dm dda n h1 hov2, hcomp, Nat.add_zero, isqrt64_eq_sqrt,
    u64_of_lt _ hov]
  exact Nat.cast_sub (Nat.le_sqrt.mpr (Nat.le_add_right _ _))

/-- The steady-speed closed form as an integer, without compensation and
without overflow. -/
theorem cartTimeAt_cruise_int (cfg : Config) (dm : DM) (dda : DDA) (n : Nat)
    (h1 : dm.mp.cart.accelStopStep ≤ n) (h2 : n < dm.mp.cart.decelStartStep)
    (hacomp : dm.mp.cart.accelCompensationClocks = 0)
    (hmul : dm.mp.cart.mmPerStepTimesCKdivtopSpeed * n < 18446744073709551616)
    (h0 : 0 ≤ ((dm.mp.cart.mmPerStepTimesCKdivtopSpeed * n / cfg.K1 : Nat) : Int)
              + dda.extraAccelerationClocks)
    (hhi : ((dm.mp.cart.mmPerStepTimesCKdivtopSpeed * n / cfg.K1 : Nat) : Int)
              + dda.extraAccelerationClocks < 4294967296) :
    ((cartTimeAt cfg dm dda n : Nat) : Int)
      = ((dm.mp.cart.mmPerStepTimesCKdivtopSpeed * n / cfg.K1 : Nat) : Int)
          + dda.extraAccelerationClocks := by
  rw [cartTimeAt_cruise cfg dm dda n h1 h2, hacomp, u64_of_lt _ hmul, Nat.cast_zero, sub_zero]
  exact toU32_of_nonneg _ h0 hhi

/-- The deceleration closed form as an integer, without compensation and
without overflow. -/
theorem cartTimeAt_decel_int (cfg : Config) (dm : DM) (dda : DDA) (n : Nat)
    (h1 : dm.mp.cart.accelStopStep ≤ n) (h2 : dm.mp.cart.decelStartStep ≤ n)
    (h3 : n < dm.reverseStartStep)
    (hcomp : dm.mp.cart.compensationClocks = 0)
    (hmul : dm.mp.cart.twoCsquaredTimesMmPerStepDivA * n < 18446744073709551616)
    (hb : isqrt64 (dm.twoDistanceToStopTimesCsquaredDivA
            - dm.mp.cart.twoCsquaredTimesMmPerStepDivA * n)
          ≤ dda.topSpeedTimesCdivAPlusDecelStartClocks % 4294967296) :
    ((cartTimeAt cfg dm dda n : Nat) : Int)
      = ((dda.topSpeedTimesCdivAPlusDecelStartClocks % 4294967296 : Nat) : Int)
        - ((isqrt64 (dm.twoDistanceToStopTimesCsquaredDivA
            - dm.mp.cart.twoCsquaredTimesMmPerStepDivA * n) : Nat) : Int) := by
  have hb2 : isqrt64 (dm.twoDistanceToStopTimesCsquaredDivA
            - dm.mp.cart.twoCsquaredTimesMmPerStepDivA * n)
          ≤ subU32 dda.topSpeedTimesCdivAPlusDecelStartClocks dm.mp.cart.compensationClocks := by
    rw [hcomp, subU32_zero]; exact hb
  rw [cartTimeAt_decel cfg dm dda n (not_lt.mpr h1) (not_lt.mpr h2) h3 hmul hb2, hcomp,
    subU32_zero]
  split_ifs with hlt
  · exact Nat.cast_sub hb
  · have hz : dm.twoDistanceToStopTimesCsquaredDivA
        - dm.mp.cart.twoCsquaredTimesMmPerStepDivA * n = 0 := Nat.sub_eq_zero_of_le (not_lt.mp hlt)
    rw [hz, isqrt64_zero, Nat.cast_zero, sub_zero]

/-- Consecutive closed-form step times of a record without compensation whose
reversal lies beyond step `T` are in order, when the 64-bit and 32-bit values
of the three closed forms do not overflow up to step `T` and the closed forms
meet in order where one phase hands over to the next. -/
theorem cartTimeAt_succ_le (cfg : Config) (dm : DM) (dda : DDA) (T A Ds c m D a b : Nat)
    (hA : A = dm.mp.cart.accelStopStep) (hDs : Ds = dm.mp.cart.decelStartStep)
    (hc : c = dm.mp.cart.twoCsquaredTimesMmPerStepDivA)
    (hm : m = dm.mp.cart.mmPerStepTimesCKdivtopSpeed)
    (hD : D = dm.twoDistanceToStopTimesCsquaredDivA)
    (ha : a = dda.startSpeedTimesCdivA % 4294967296)
    (hb : b = dda.topSpeedTimesCdivAPlusDecelStartClocks % 4294967296)
    (hcomp : dm.mp.cart.compensationClocks = 0)
    (hacomp : dm.mp.cart.accelCompensationClocks = 0)
    (hrev : T < dm.reverseStartStep)
    (hD64 : D < 18446744073709551616)
    (hov1 : a * a + c * T < 18446744073709551616)
    (hov2 : m * T < 18446744073709551616)
    (hlo : 0 ≤ ((m * A / cfg.K1 : Nat) : Int) + dda.extraAccelerationClocks)
    (hhi : ((m * T / cfg.K1 : Nat) : Int) + dda.extraAccelerationClocks < 4294967296)
    (hroot : isqrt64 D ≤ b)
    (hB1 : 2 ≤ A → A ≤ T → A < Ds →
        ((isqrt64 (a * a + c * (A - 1)) : Nat) : Int) - (a : Int)
          ≤ ((m * A / cfg.K1 : Nat) : Int) + dda.extraAccelerationClocks)
    (hB2 : A < Ds → 2 ≤ Ds → Ds ≤ T →
        ((m * (Ds - 1) / cfg.K1 : Nat) : Int) + dda.extraAccelerationClocks
          ≤ (b : Int) - ((isqrt64 (D - c * Ds) : Nat) : Int))
    (hB3 : Ds ≤ A → 2 ≤ A → A ≤ T →
        ((isqrt64 (a * a + c * (A - 1)) : Nat) : Int) - (a : Int)
          ≤ (b : Int) - ((isqrt64 (D - c * A) : Nat) : Int))
    (n : Nat) (h1 : 1 ≤ n) (h2 : n + 1 ≤ T) :
    cartTimeAt cfg dm dda n ≤ cartTimeAt cfg dm dda (n + 1) := by
  -- the three closed forms on the steps of the segment
  have Fa : ∀ k, k ≤ T → k < A →
      ((cartTimeAt cfg dm dda k : Nat) : Int)
        = ((isqrt64 (a * a + c * k) : Nat) : Int) - (a : Int) := by
    intro k hk hkA
    have hck : c * k ≤ c * T := Nat.mul_le_mul_left _ hk
    have := cartTimeAt_accel_int cfg dm dda k (by rw [← hA]; exact hkA) hcomp
      (by unfold u32; rw [← ha, ← hc]; exact lt_of_le_of_lt (Nat.add_le_add_left hck _) hov1)
    unfold u32 at this
    rw [← ha, ← hc] at this
    exact this
  have Fc : ∀ k, k ≤ T → A ≤ k → k < Ds →
      ((cartTimeAt cfg dm dda k : Nat) : Int)
        = ((m * k / cfg.K1 : Nat) : Int) + dda.extraAccelerationClocks := by
    intro k hk hkA hkD
    have hmk : m * k ≤ m * T := Nat.mul_le_mul_left _ hk
    have hmA : m * A ≤ m * k := Nat.mul_le_mul_left _ hkA
    have q1 : ((m * A / cfg.K1 : Nat) : Int) ≤ ((m * k / cfg.K1 : Nat) : Int) := by
      exact_mod_cast Nat.div_le_div_right hmA
    have q2 : ((m * k / cfg.K1 : Nat) : Int) ≤ ((m * T / cfg.K1 : Nat) : Int) := by
      exact_mod_cast Nat.div_le_div_right hmk
    have := cartTimeAt_cruise_int cfg dm dda k (by rw [← hA]; exact hkA)
      (by rw [← hDs]; exact hkD) hacomp
      (by rw [← hm]; exact lt_of_le_of_lt hmk hov2)
      (by rw [← hm]; linarith) (by rw [← hm]; linarith)
    rw [← hm] at this
    exact this
  have Fd : ∀ k, k ≤ T → A ≤ k → Ds ≤ k →
      ((cartTimeAt cfg dm dda k : Nat) : Int)
        = (b : Int) - ((isqrt64 (D - c * k) : Nat) : Int) := by
    intro k hk hkA hkD
    have hck : c * k ≤ c * T := Nat.mul_le_mul_left _ hk
    have hs : isqrt64 (D - c * k) ≤ b :=
      le_trans (isqrt64_mono _ _ (Nat.sub_le _ _) hD64) hroot
    have := cartTimeAt_decel_int cfg dm dda k (by rw [← hA]; exact hkA)
      (by rw [← hDs]; exact hkD) (lt_of_le_of_lt hk hrev) hcomp
      (by rw [← hc]; exact lt_of_le_of_lt hck (lt_of_le_of_lt (Nat.le_add_left _ _) hov1))
      (by rw [← hD, ← hc, ← hb]; exact hs)
    rw [← hD, ← hc, ← hb] at this
    exact this
  -- each closed form is non-decreasing in the step index
  have hn : n ≤ T := by omega
  have hcn : c * n ≤ c * (n + 1) := Nat.mul_le_mul_left _ (Nat.le_succ n)
  have hcT : c * (n + 1) ≤ c * T := Nat.mul_le_mul_left _ h2
  have Ma : ((isqrt64 (a * a + c * n) : Nat) : Int) ≤ ((isqrt64 (a * a + c * (n + 1)) : Nat) : Int) := by
    exact_mod_cast isqrt64_mono _ _ (Nat.add_le_add_left hcn _)
      (lt_of_le_of_lt (Nat.add_le_add_left hcT _) hov1)
  have Mc : ((m * n / cfg.K1 : Nat) : Int) ≤ ((m * (n + 1) / cfg.K1 : Nat) : Int) := by
    exact_mod_cast Nat.div_le_div_right (Nat.mul_le_mul_left _ (Nat.le_succ n))
  have Md : ((isqrt64 (D - c * (n + 1)) : Nat) : Int) ≤ ((isqrt64 (D - c * n) : Nat) : Int) := by
    exact_mod_cast isqrt64_mono _ _ (Nat.sub_le_sub_left hcn _)
      (lt_of_le_of_lt (Nat.sub_le _ _) hD64)
  have goal : ((cartTimeAt cfg dm dda n : Nat) : Int)
      ≤ ((cartTimeAt cfg dm dda (n + 1) : Nat) : Int) := by
    by_cases c1 : n + 1 < A
    · rw [Fa n hn (by omega), Fa (n + 1) h2 c1]
      linarith
    · by_cases c2 : n < A
      · have e : A = n + 1 := by omega
        by_cases c3 : A < Ds
        · have hB := hB1 (by omega) (by omega) c3
          rw [e, Nat.add_sub_cancel] at hB
          rw [Fa n hn c2, Fc (n + 1) h2 (by omega) (by omega)]
          exact hB
        · have hB := hB3 (by omega) (by omega) (by omega)
          rw [e, Nat.add_sub_cancel] at hB
          rw [Fa n hn c2, Fd (n + 1) h2 (by omega) (by omega)]
          exact hB
      · by_cases c4 : n + 1 < Ds
        · rw [Fc n hn (by omega) (by omega), Fc (n + 1) h2 (by omega) c4]
          linarith
        · by_cases c5 : n < Ds
          · have e : Ds = n + 1 := by omega
            have hB := hB2 (by omega) (by omega) (by omega)
            rw [e, Nat.add_sub_cancel] at hB
            rw [Fc n hn (by omega) c5, Fd (n + 1) h2 (by omega) (by omega)]
            exact hB
          · rw [Fd n hn (by omega) (by omega), Fd (n + 1) h2 (by omega) (by omega)]
            linarith
  exact_mod_cast goal

/-- The constant `twoDistanceToStopTimesCsquaredDivA` written by
`PrepareCartesianAxis` is a 64-bit value. -/
theorem prepCart_twoDistance_lt (dm : DM) (top : Nat) (v : CartesianPrepValues) :
    (PrepareCartesianAxis dm top v).twoDistanceToStopTimesCsquaredDivA
      < 18446744073709551616 := by
  show (if v.noDeceleration then 0 else u64 (isquare64 top + v.decelDistanceTerm))
      < 18446744073709551616
  split_ifs
  · norm_num
  · unfold u64; exact Nat.mod_lt _ (by norm_num)

/-- C4, the claim refuted: a record prepared by `PrepareCartesianAxis` (8
steps, acceleration over the first step, cruise at 100 clocks per step) and
stepped from `nextStep = 1` with `nextStepTime = 0` against a move descriptor
whose `extraAccelerationClocks` is 0. The first call returns `true` with
`nextStepTime = 2000`; the second call, made at `nextStep = 2`, returns `true`
with `state` still `moving` and leaves `nextStepTime = 200`. -/
theorem C4_monotone_counterexample :
    (CalcNextStepTimeCartesianFull exampleConfig (cartStart (exampleDM 0) 0 skewedPrep)
        skewedDDA true).ret = true
    ∧ cartRun exampleConfig skewedDDA true (cartStart (exampleDM 0) 0 skewedPrep) 1
        = some (cartAdvance (CalcNextStepTimeCartesianFull exampleConfig
            (cartStart (exampleDM 0) 0 skewedPrep) skewedDDA true).dm)
    ∧ (cartAdvance (CalcNextStepTimeCartesianFull exampleConfig
          (cartStart (exampleDM 0) 0 skewedPrep) skewedDDA true).dm).nextStep = 2
    ∧ (cartAdvance (CalcNextStepTimeCartesianFull exampleConfig
          (cartStart (exampleDM 0) 0 skewedPrep) skewedDDA true).dm).nextStepTime = 2000
    ∧ (CalcNextStepTimeCartesianFull exampleConfig
          (cartAdvance (CalcNextStepTimeCartesianFull exampleConfig
            (cartStart (exampleDM 0) 0 skewedPrep) skewedDDA true).dm) skewedDDA true).ret = true
    ∧ (CalcNextStepTimeCartesianFull exampleConfig
          (cartAdvance (CalcNextStepTimeCartesianFull exampleConfig
            (cartStart (exampleDM 0) 0 skewedPrep) skewedDDA true).dm) skewedDDA true).dm.state
        = DMState.moving
    ∧ (CalcNextStepTimeCartesianFull exampleConfig
          (cartAdvance (CalcNextStepTimeCartesianFull exampleConfig
            (cartStart (exampleDM 0) 0 skewedPrep) skewedDDA true).dm) skewedDDA true).dm.nextStepTime
        = 200 := by
  decide

/-- C4, amended: for a record prepared by `PrepareCartesianAxis` with
`T = totalSteps < 2^32 − 1` and stepped from `nextStep = 1` with
`nextStepTime = 0` (every call made on a step of the segment, `nextStep`
advanced by `stepsTillRecalc + 1` after every call that returns `true`), every
call that returns `true` leaves `nextStepTime` greater than or equal to its
value before the call, provided that the constants of the record and of the
move descriptor satisfy the following. With `A = accelStopStep`,
`Ds = decelStartStep`, `c = twoCsquaredTimesMmPerStepDivA`,
`m = mmPerStepTimesCKdivtopSpeed`, `D = twoDistanceToStopTimesCsquaredDivA`,
`a = startSpeedTimesCdivA` and `b = topSpeedTimesCdivAPlusDecelStartClocks`
(both as `uint32_t`) and `e = extraAccelerationClocks`: nothing overflows up to
step `T` (`a² + c·T < 2^64`, `m·T < 2^64`, `0 ≤ ⌊m·A/K1⌋ + e`,
`⌊m·T/K1⌋ + e < 2^32`, `isqrt64(D) ≤ b`), and the closed forms meet in order
where one phase hands over to the next: `isqrt64(a² + c·(A−1)) − a ≤
⌊m·A/K1⌋ + e` when step `A` is a steady-speed step, `⌊m·(Ds−1)/K1⌋ + e ≤
b − isqrt64(D − c·Ds)` when step `Ds` follows a steady-speed step, and
`isqrt64(a² + c·(A−1)) − a ≤ b − isqrt64(D − c·A)` when the deceleration
follows the acceleration directly. -/
theorem C4_monotone_step_times (cfg : Config) (dda : DDA) (live : Bool)
    (base : DM) (topSpeedTimesCdivA : Nat) (v : CartesianPrepValues)
    (T A Ds c m D a b : Nat)
    (hTs : T = base.totalSteps)
    (hA : A = (PrepareCartesianAxis base topSpeedTimesCdivA v).mp.cart.accelStopStep)
    (hDs : Ds = (PrepareCartesianAxis base topSpeedTimesCdivA v).mp.cart.decelStartStep)
    (hc : c = (PrepareCartesianAxis base topSpeedTimesCdivA v).mp.cart.twoCsquaredTimesMmPerStepDivA)
    (hm : m = (PrepareCartesianAxis base topSpeedTimesCdivA v).mp.cart.mmPerStepTimesCKdivtopSpeed)
    (hD : D = (PrepareCartesianAxis base topSpeedTimesCdivA v).twoDistanceToStopTimesCsquaredDivA)
    (ha : a = dda.startSpeedTimesCdivA % 4294967296)
    (hb : b = dda.topSpeedTimesCdivAPlusDecelStartClocks % 4294967296)
    (hT : T < 4294967295)
    (hov1 : a * a + c * T < 18446744073709551616)
    (hov2 : m * T < 18446744073709551616)
    (hlo : 0 ≤ ((m * A / cfg.K1 : Nat) : Int) + dda.extraAccelerationClocks)
    (hhi : ((m * T / cfg.K1 : Nat) : Int) + dda.extraAccelerationClocks < 4294967296)
    (hroot : isqrt64 D ≤ b)
    (hB1 : 2 ≤ A → A ≤ T → A < Ds →
        ((isqrt64 (a * a + c * (A - 1)) : Nat) : Int) - (a : Int)
          ≤ ((m * A / cfg.K1 : Nat) : Int) + dda.extraAccelerationClocks)
    (hB2 : A < Ds → 2 ≤ Ds → Ds ≤ T →
        ((m * (Ds - 1) / cfg.K1 : Nat) : Int) + dda.extraAccelerationClocks
          ≤ (b : Int) - ((isqrt64 (D - c * Ds) : Nat) : Int))
    (hB3 : Ds ≤ A → 2 ≤ A → A ≤ T →
        ((isqrt64 (a * a + c * (A - 1)) : Nat) : Int) - (a : Int)
          ≤ (b : Int) - ((isqrt64 (D - c * A) : Nat) : Int))
    (k : Nat) (dm : DM)
    (hrun : cartRun cfg dda live (cartStart base topSpeedTimesCdivA v) k = some dm)
    (hle : dm.nextStep ≤ dm.totalSteps)
    (hret : (CalcNextStepTimeCartesianFull cfg dm dda live).ret = true) :
    dm.nextStepTime ≤ (CalcNextStepTimeCartesianFull cfg dm dda live).dm.nextStepTime := by
  subst hTs
  have hT0 : (cartStart base topSpeedTimesCdivA v).totalSteps < 4294967295 := hT
  have hrev : base.totalSteps < (cartStart base topSpeedTimesCdivA v).reverseStartStep := by
    show base.totalSteps < u32 (base.totalSteps + 1)
    rw [u32_succ_of_lt _ hT]
    exact Nat.lt_succ_self _
  have hD64 : D < 18446744073709551616 := by
    rw [hD]; exact prepCart_twoDistance_lt base topSpeedTimesCdivA v
  have hmono : ∀ i j, 1 ≤ i → i ≤ j → j ≤ (cartStart base topSpeedTimesCdivA v).totalSteps →
      cartTimeAt cfg (cartStart base topSpeedTimesCdivA v) dda i
        ≤ cartTimeAt cfg (cartStart base topSpeedTimesCdivA v) dda j :=
    mono_of_succ_le (cartTimeAt cfg (cartStart base topSpeedTimesCdivA v) dda) base.totalSteps
      (cartTimeAt_succ_le cfg (cartStart base topSpeedTimesCdivA v) dda base.totalSteps
        A Ds c m D a b hA hDs hc hm hD ha hb rfl rfl hrev hD64 hov1 hov2 hlo hhi hroot
        hB1 hB2 hB3)
  exact (cartRunInv_step cfg dda live (cartStart base topSpeedTimesCdivA v) dm hT0 hmono
    (cartRunInv_run cfg dda live (cartStart base topSpeedTimesCdivA v) hT0 hmono
      (cartStart_inv cfg dda base topSpeedTimesCdivA v) k dm hrun) hle hret).1

/-- C4 amended, on the prepared example record (8 steps, `A = 3`, `Ds = 6`,
closed-form times 1414, 2000, 3500, 4500, 5500, 7000, 7586, 9000): the sixth
call of the run is made at step 6 after the step time 5500 and returns `true`
with step time 7000. -/
theorem C4_monotone_step_times_witness :
    cartRun exampleConfig exampleDDA true (cartStart (exampleDM 0) 1000 examplePrep) 5
        = some exampleRunState
    ∧ (CalcNextStepTimeCartesianFull exampleConfig exampleRunState exampleDDA true).dm.nextStepTime
        = 7000
    ∧ exampleRunState.nextStepTime
        ≤ (CalcNextStepTimeCartesianFull exampleConfig exampleRunState exampleDDA true).dm.nextStepTime :=
  ⟨by decide, by decide,
   C4_monotone_step_times exampleConfig exampleDDA true (exampleDM 0) 1000 examplePrep
    8 3 6 2000000 1024000 16000000 0 9000
    (by decide) (by decide) (by decide) (by decide) (by decide) (by decide) (by decide)
    (by decide) (by decide) (by decide) (by decide) (by decide) (by decide) (by decide)
    (by decide) (by decide) (by decide)
    5 exampleRunState (by decide) (by decide) (by decide)⟩

end DriveMovement
